import Mathlib

/-!
# Verification development for the shared types of the starr client

Shallow embedding of `shared.go` (package `starr`): the generic name/value field
structures `FieldInput` and `FieldOutput`, their JSON wire form as fixed by the struct
tags, and the request/error contract the per-application tests pin down.

The struct declarations come from `shared.go`.  What a struct tag means on the wire
is the behaviour of Go's `encoding/json`, which the embedding spells out: member order
is declaration order, `omitempty` drops a nil interface, strings are escaped, numbers
decoded into an `interface{}` become `float64`.

Modelling limits, stated once:
* Go strings are byte strings; here they are Lean strings (valid Unicode), so the
  replacement of invalid UTF-8 by U+FFFD is not represented.
* A floating point input value is a `float64`, given by sign, mantissa and exponent, and
  is written as its shortest decimal text that reads back as the same number; a `float32`
  input, whose text is the shortest one for 32 bits, is not represented. A decoded
  `float64` is represented by its exact rational value, so negative zero is the same as
  zero; NaN does not occur (JSON cannot express it), and an infinity is what a number
  outside the range of `float64` is decoded to.
* The dynamic values of an `interface{}` that are embedded are the ones whose JSON does
  not depend on a declared type: nil, booleans, integers, `float64`, strings, nil
  pointers, slices and maps with string keys. Structs and types with a `MarshalJSON`
  method are not among them.
* JSON text is read without the limit the library puts on the depth of nesting.
* `int` is 64 bits wide. `strconv.Atoi` is embedded by what it returns next to its error,
  which `PlayTime.UnmarshalJSON` drops: zero for a syntax error, the nearest end of the
  range for a range error, the digits being read from the left. A `time.Duration` is an
  integer that wraps around at 64 bits.
* Of the layout language of package `time`, the elements `CalendarTimeFilterFormat` is
  made of are embedded, and the 24-hour clock; a time is given by its fields in UTC.
-/

namespace Starr

/-! ## JSON values and their compact text -/

/-- A JSON number literal: optional minus sign, integer part, fraction digits (empty when
the literal has no `.`), and optional exponent. -/
structure JNumber where
  neg : Bool
  int : Nat
  frac : List (Fin 10)
  exp : Option Int
deriving DecidableEq, Repr

/-- The integer literal that `strconv.AppendInt(_, n, 10)` writes. -/
def JNumber.ofInt (n : Int) : JNumber :=
  { neg := decide (n < 0), int := n.natAbs, frac := [], exp := none }

/-- A JSON value. Object members keep their order of appearance, duplicates included. -/
inductive JSON where
  | null
  | bool (b : Bool)
  | num (n : JNumber)
  | str (s : String)
  | arr (xs : List JSON)
  | obj (kvs : List (String × JSON))
deriving Repr

/-- Lower-case hexadecimal digit, the table `hex` of `encoding/json`. -/
def hexDigit (n : Nat) : Char :=
  if n < 10 then Char.ofNat (48 + n) else Char.ofNat (87 + n)

/-- The escape `encoding/json` writes for one character of a string, with HTML escaping
on (the default of `json.Marshal` and of `json.NewEncoder`). -/
def escapeChar (c : Char) : String :=
  if c = '\\' then "\\\\"
  else if c = '"' then "\\\""
  else if c = Char.ofNat 8 then "\\b"
  else if c = Char.ofNat 12 then "\\f"
  else if c = '\n' then "\\n"
  else if c = '\r' then "\\r"
  else if c = '\t' then "\\t"
  else if c.toNat < 32 ∨ c = '<' ∨ c = '>' ∨ c = '&' then
    "\\u00" ++ String.mk [hexDigit (c.toNat / 16), hexDigit (c.toNat % 16)]
  else if c = Char.ofNat 8232 then "\\u2028"
  else if c = Char.ofNat 8233 then "\\u2029"
  else String.mk [c]

/-- The quoted JSON string `encoding/json` writes for a Go string (`appendString`). -/
def appendString (s : String) : String :=
  "\"" ++ String.join (s.toList.map escapeChar) ++ "\""

/-- Text of a number literal, in the spelling of the Go encoder: the exponent, when there
is one, is written with its sign and without padding (`1e+21`, `1e-7`). -/
def JNumber.render (n : JNumber) : String :=
  (if n.neg then "-" else "") ++ toString n.int
    ++ (if n.frac = [] then "" else "." ++ String.join (n.frac.map fun d => toString d.val))
    ++ (match n.exp with
        | none => ""
        | some e => "e" ++ (if e < 0 then "-" else "+") ++ toString e.natAbs)

mutual
/-- Compact JSON text, as the Go encoder emits it: no white space, members and elements
separated by a single comma. -/
def JSON.render : JSON → String
  | .null => "null"
  | .bool true => "true"
  | .bool false => "false"
  | .num n => n.render
  | .str s => appendString s
  | .arr xs => "[" ++ renderElems xs ++ "]"
  | .obj kvs => "\x7b" ++ renderMembers kvs ++ "\x7d"
/-- Elements of an array, comma separated. -/
def renderElems : List JSON → String
  | [] => ""
  | [x] => x.render
  | x :: y :: rest => x.render ++ "," ++ renderElems (y :: rest)
/-- Members of an object, comma separated, each as `"key":value`. -/
def renderMembers : List (String × JSON) → String
  | [] => ""
  | [(k, v)] => appendString k ++ ":" ++ v.render
  | (k, v) :: m :: rest => appendString k ++ ":" ++ v.render ++ "," ++ renderMembers (m :: rest)
end

/-- Keys of a JSON object in order of appearance (empty for a non-object). -/
def JSON.keys : JSON → List String
  | .obj kvs => kvs.map Prod.fst
  | _ => []

/-- Value denoted by a list of decimal digit characters, most significant first. -/
def decimalValue (cs : List Char) : Nat :=
  cs.foldl (fun acc c => 10 * acc + (c.toNat - 48)) 0

/-! ## Numbers on the read side -/

/-- Number of binary digits of `n` (`bits.Len`): `0` for `0`, otherwise one more than
the position of the leading bit. -/
def bitLenAux : Nat → Nat → Nat
  | 0, _ => 0
  | fuel + 1, n => if n = 0 then 0 else bitLenAux fuel (n / 2) + 1

/-- Number of binary digits of `n`. -/
def bitLen (n : Nat) : Nat := bitLenAux n n

/-- Quotient `a / b` rounded to the nearest natural number, ties to the even one. -/
def divRoundHalfEven (a b : Nat) : Nat :=
  let q := a / b
  let r := a % b
  if 2 * r < b then q
  else if b < 2 * r then q + 1
  else if q % 2 = 0 then q else q + 1

/-- Binary exponent `k` of the positive rational `n / d`: `2 ^ k ≤ n / d < 2 ^ (k + 1)`. -/
def binaryExponent (n d : Nat) : Int :=
  let k0 : Int := (bitLen n : Int) - (bitLen d : Int)
  if 0 ≤ k0 then
    (if d * 2 ^ k0.toNat ≤ n then k0 else k0 - 1)
  else
    (if d ≤ n * 2 ^ (-k0).toNat then k0 else k0 - 1)

/-- The IEEE 754 binary64 value nearest to the non-negative rational `n / d` (round to
nearest, ties to even; 53 significant bits, exponents down to the subnormal `2 ^ -1074`),
or `none` when the rounded value does not fit (`strconv.ErrRange`). -/
def roundFloat64 (n d : Nat) : Option ℚ :=
  if n = 0 then some 0
  else
    let e : Int := max (binaryExponent n d - 52) (-1074)
    let m : Nat :=
      if 0 ≤ e then divRoundHalfEven n (d * 2 ^ e.toNat)
      else divRoundHalfEven (n * 2 ^ (-e).toNat) d
    if 0 ≤ e ∧ 2 ^ 1024 ≤ m * 2 ^ e.toNat then none
    else if 0 ≤ e then some ((m * 2 ^ e.toNat : Nat) : ℚ)
    else some ((m : ℚ) / ((2 ^ (-e).toNat : Nat) : ℚ))

/-- Value of a list of decimal digits, most significant first. -/
def digitsValue (ds : List (Fin 10)) : Nat :=
  ds.foldl (fun acc d => 10 * acc + d.val) 0

/-- Decimal mantissa of a literal: integer and fraction digits read as one number. -/
def JNumber.mantissa (n : JNumber) : Nat :=
  n.int * 10 ^ n.frac.length + digitsValue n.frac

/-- Decimal exponent that goes with `mantissa`. -/
def JNumber.exponent (n : JNumber) : Int :=
  n.exp.getD 0 - n.frac.length

/-- Result of `strconv.ParseFloat(s, 64)` on a JSON number literal: the nearest float64,
with the sign of the literal; `none` is the range error. -/
def parseFloat64 (n : JNumber) : Option ℚ :=
  let r :=
    if 0 ≤ n.exponent then roundFloat64 (n.mantissa * 10 ^ n.exponent.toNat) 1
    else roundFloat64 n.mantissa (10 ^ (-n.exponent).toNat)
  r.map fun x => if n.neg then -x else x

/-- Result of `strconv.ParseInt(s, 10, 64)` on a JSON number literal: only a literal
without fraction and exponent parts is an integer, and it has to fit in 64 bits. -/
def parseInt64 (n : JNumber) : Option Int :=
  if n.frac = [] ∧ n.exp = none then
    let v : Int := if n.neg then -(n.int : Int) else (n.int : Int)
    if -(2 : Int) ^ 63 ≤ v ∧ v < (2 : Int) ^ 63 then some v else none
  else none

/-! ## Floating point values on the write side -/

/-- A finite `float64`: sign, mantissa and binary exponent. Its magnitude is
`mant * 2 ^ exp`; `neg` is the sign bit, so that negative zero has `mant = 0` and
`neg = true`. -/
structure Float64 where
  neg : Bool
  mant : Nat
  exp : Int
deriving DecidableEq, Repr

/-- Whether the fields are those of a `float64` in its one standard form: a mantissa of
at most 53 bits, an exponent from -1074 to 971, and the leading bit of the mantissa set
unless the exponent is the least one (subnormal numbers and zero). -/
def Float64.valid (x : Float64) : Bool :=
  decide (x.mant < 2 ^ 53 ∧ -1074 ≤ x.exp ∧ x.exp ≤ 971 ∧ (2 ^ 52 ≤ x.mant ∨ x.exp = -1074))

/-- Numerator of the magnitude as a fraction of natural numbers. -/
def Float64.num (x : Float64) : Nat :=
  if 0 ≤ x.exp then x.mant * 2 ^ x.exp.toNat else x.mant

/-- Denominator of the magnitude as a fraction of natural numbers. -/
def Float64.den (x : Float64) : Nat :=
  if 0 ≤ x.exp then 1 else 2 ^ (-x.exp).toNat

/-- The exact value. -/
def Float64.toRat (x : Float64) : ℚ :=
  let a : ℚ :=
    if 0 ≤ x.exp then ((x.mant * 2 ^ x.exp.toNat : Nat) : ℚ)
    else (x.mant : ℚ) / ((2 ^ (-x.exp).toNat : Nat) : ℚ)
  if x.neg then -a else a

/-- Number of decimal digits of `n`: `0` for `0`. -/
def decLenAux : Nat → Nat → Nat
  | 0, _ => 0
  | fuel + 1, n => if n = 0 then 0 else decLenAux fuel (n / 10) + 1

/-- Number of decimal digits of `n`. -/
def decLen (n : Nat) : Nat := decLenAux n n

/-- The least `t`, from `t` on, with `d ≤ n * 10 ^ t`. -/
def negDecExpAux : Nat → Nat → Nat → Nat → Nat
  | 0, _, _, t => t
  | fuel + 1, n, d, t => if d ≤ n * 10 ^ t then t else negDecExpAux fuel n d (t + 1)

/-- Decimal exponent `E` of the positive fraction `n / d`:
`10 ^ E ≤ n / d < 10 ^ (E + 1)`. -/
def decimalExponent (n d : Nat) : Int :=
  if d ≤ n then (decLen (n / d) : Int) - 1 else -(negDecExpAux 400 n d 1 : Int)

/-- The last `w` decimal digits of `v`, most significant first. -/
def digitsPadded : Nat → Nat → List (Fin 10)
  | 0, _ => []
  | w + 1, v => digitsPadded w (v / 10) ++ [⟨v % 10, Nat.mod_lt _ (by decide)⟩]

/-- The decimal `D * 10 ^ k` without the trailing zeros of `D`. -/
def stripZeros : Nat → Nat → Int → Nat × Int
  | 0, D, k => (D, k)
  | fuel + 1, D, k =>
    if D ≠ 0 ∧ D % 10 = 0 then stripZeros fuel (D / 10) (k + 1) else (D, k)

/-- The decimal `D * 10 ^ k` written with an exponent, one digit before the point (format
`e` of `strconv.AppendFloat`, the exponent without padding). -/
def literalE (neg : Bool) (D : Nat) (k : Int) : JNumber :=
  { neg := neg,
    int := D / 10 ^ (decLen D - 1),
    frac := digitsPadded (decLen D - 1) D,
    exp := some (k + ((decLen D - 1 : Nat) : Int)) }

/-- The decimal `D * 10 ^ k` written without an exponent (format `f` of
`strconv.AppendFloat`). -/
def literalF (neg : Bool) (D : Nat) (k : Int) : JNumber :=
  if 0 ≤ k then { neg := neg, int := D * 10 ^ k.toNat, frac := [], exp := none }
  else
    { neg := neg,
      int := D / 10 ^ (-k).toNat,
      frac := digitsPadded (-k).toNat D,
      exp := none }

/-- The two decimals with `nd` digits next to the fraction `n / d`, whose decimal
exponent is `E`, the nearer one first (on a tie, the one with the even last digit); a
single one when the fraction is itself such a decimal. Each is a pair `(D, k)` that stands
for `D * 10 ^ k`. -/
def candidates (n d : Nat) (E : Int) (nd : Nat) : List (Nat × Int) :=
  let k : Int := E - (nd : Int) + 1
  let a : Nat := if 0 ≤ k then n else n * 10 ^ (-k).toNat
  let b : Nat := if 0 ≤ k then d * 10 ^ k.toNat else d
  let low := a / b
  let r := a % b
  if r = 0 then [(low, k)]
  else if 2 * r < b then [(low, k), (low + 1, k)]
  else if b < 2 * r then [(low + 1, k), (low, k)]
  else if low % 2 = 0 then [(low, k), (low + 1, k)]
  else [(low + 1, k), (low, k)]

/-- Whether the encoder writes `x` with an exponent: `abs < 1e-6 || abs >= 1e21`, the two
bounds being `float64` constants: `1e-6` is `4722366482869645 * 2 ^ -72`, and `1e21` is
exactly `10 ^ 21`. -/
def Float64.usesExponent (x : Float64) : Bool :=
  decide (x.num * 2 ^ 72 < x.den * 4722366482869645 ∨ x.den * 10 ^ 21 ≤ x.num)

/-- The literal the encoder writes for the decimal `D * 10 ^ k` that stands for `x`: with
an exponent when the magnitude of `x` is below `1e-6` or at least `1e21`, without one
otherwise. -/
def Float64.literal (x : Float64) (D : Nat) (k : Int) : JNumber :=
  let c := stripZeros 400 D k
  if x.usesExponent then literalE x.neg c.1 c.2 else literalF x.neg c.1 c.2

/-- A literal for the exact value of `x`. -/
def Float64.exactLiteral (x : Float64) : JNumber :=
  if 0 ≤ x.exp then
    { neg := x.neg, int := x.mant * 2 ^ x.exp.toNat, frac := [], exp := none }
  else
    { neg := x.neg, int := x.mant * 5 ^ (-x.exp).toNat, frac := [], exp := some x.exp }

/-- The literals tried for `x`: for each number of digits from 1 to 17, the decimals with
that many digits next to `x`, the nearer one first. -/
def Float64.literals (x : Float64) : List JNumber :=
  (List.range 17).flatMap fun i =>
    (candidates x.num x.den (decimalExponent x.num x.den) (i + 1)).map fun c =>
      x.literal c.1 c.2

/-- The number literal `encoding/json` writes for a finite `float64` (`floatEncoder`,
which calls `strconv.AppendFloat` with precision -1): the decimal with the fewest digits
that reads back as `x`, and among those the nearest to `x`. Seventeen digits always
suffice, so the last case, the exact value, is never reached; it makes the function
total without that fact. Zero is `0`, negative zero `-0`. -/
def formatFloat (x : Float64) : JNumber :=
  if x.mant = 0 then { neg := x.neg, int := 0, frac := [], exp := none }
  else
    match x.literals.find? (fun lit => parseFloat64 lit = some x.toRat) with
    | some lit => lit
    | none => x.exactLiteral

/-! ## FieldInput: the write side -/

/-- Dynamic value a caller stores in `FieldInput.Value` (a Go `interface{}`): nothing
(the nil interface), a boolean, an integer of any integer type, a string, a finite
`float64`, a nil pointer, nil slice or nil map of some type (`nilPointer`: the
interface is not nil, what it holds is), a slice or a map with string keys. A map is kept
as an association list with one entry per key. These are the values whose JSON does not
depend on a declared type; `json.Marshal` returns an error and no text for a value it does
not support (a channel, a function, NaN, an infinity), and such values are not among
them. -/
inductive InputValue where
  | nil
  | bool (b : Bool)
  | int (n : Int)
  | str (s : String)
  | float (x : Float64)
  | nilPointer
  | slice (xs : List InputValue)
  | map (kvs : List (String × InputValue))

set_option maxRecDepth 8000 in
mutual
/-- Equality of input values is decidable. -/
def InputValue.decEq : (a b : InputValue) → Decidable (a = b)
  | .nil, .nil => isTrue rfl
  | .bool x, .bool y => decidable_of_iff (x = y) (by simp)
  | .int x, .int y => decidable_of_iff (x = y) (by simp)
  | .str x, .str y => decidable_of_iff (x = y) (by simp)
  | .float x, .float y => decidable_of_iff (x = y) (by simp)
  | .nilPointer, .nilPointer => isTrue rfl
  | .slice x, .slice y => @decidable_of_iff _ (x = y) (by simp) (InputValue.decEqList x y)
  | .map x, .map y => @decidable_of_iff _ (x = y) (by simp) (InputValue.decEqMembers x y)
  | .nil, .bool _ => isFalse (by simp)
  | .nil, .int _ => isFalse (by simp)
  | .nil, .str _ => isFalse (by simp)
  | .nil, .float _ => isFalse (by simp)
  | .nil, .nilPointer => isFalse (by simp)
  | .nil, .slice _ => isFalse (by simp)
  | .nil, .map _ => isFalse (by simp)
  | .bool _, .nil => isFalse (by simp)
  | .bool _, .int _ => isFalse (by simp)
  | .bool _, .str _ => isFalse (by simp)
  | .bool _, .float _ => isFalse (by simp)
  | .bool _, .nilPointer => isFalse (by simp)
  | .bool _, .slice _ => isFalse (by simp)
  | .bool _, .map _ => isFalse (by simp)
  | .int _, .nil => isFalse (by simp)
  | .int _, .bool _ => isFalse (by simp)
  | .int _, .str _ => isFalse (by simp)
  | .int _, .float _ => isFalse (by simp)
  | .int _, .nilPointer => isFalse (by simp)
  | .int _, .slice _ => isFalse (by simp)
  | .int _, .map _ => isFalse (by simp)
  | .str _, .nil => isFalse (by simp)
  | .str _, .bool _ => isFalse (by simp)
  | .str _, .int _ => isFalse (by simp)
  | .str _, .float _ => isFalse (by simp)
  | .str _, .nilPointer => isFalse (by simp)
  | .str _, .slice _ => isFalse (by simp)
  | .str _, .map _ => isFalse (by simp)
  | .float _, .nil => isFalse (by simp)
  | .float _, .bool _ => isFalse (by simp)
  | .float _, .int _ => isFalse (by simp)
  | .float _, .str _ => isFalse (by simp)
  | .float _, .nilPointer => isFalse (by simp)
  | .float _, .slice _ => isFalse (by simp)
  | .float _, .map _ => isFalse (by simp)
  | .nilPointer, .nil => isFalse (by simp)
  | .nilPointer, .bool _ => isFalse (by simp)
  | .nilPointer, .int _ => isFalse (by simp)
  | .nilPointer, .str _ => isFalse (by simp)
  | .nilPointer, .float _ => isFalse (by simp)
  | .nilPointer, .slice _ => isFalse (by simp)
  | .nilPointer, .map _ => isFalse (by simp)
  | .slice _, .nil => isFalse (by simp)
  | .slice _, .bool _ => isFalse (by simp)
  | .slice _, .int _ => isFalse (by simp)
  | .slice _, .str _ => isFalse (by simp)
  | .slice _, .float _ => isFalse (by simp)
  | .slice _, .nilPointer => isFalse (by simp)
  | .slice _, .map _ => isFalse (by simp)
  | .map _, .nil => isFalse (by simp)
  | .map _, .bool _ => isFalse (by simp)
  | .map _, .int _ => isFalse (by simp)
  | .map _, .str _ => isFalse (by simp)
  | .map _, .float _ => isFalse (by simp)
  | .map _, .nilPointer => isFalse (by simp)
  | .map _, .slice _ => isFalse (by simp)
/-- Equality of lists of input values is decidable. -/
def InputValue.decEqList : (a b : List InputValue) → Decidable (a = b)
  | [], [] => isTrue rfl
  | [], _ :: _ => isFalse (by simp)
  | _ :: _, [] => isFalse (by simp)
  | x :: xs, y :: ys =>
    @decidable_of_iff _ (x = y ∧ xs = ys) (by simp)
      (@instDecidableAnd _ _ (InputValue.decEq x y) (InputValue.decEqList xs ys))
/-- Equality of maps of input values, kept as association lists, is decidable. -/
def InputValue.decEqMembers : (a b : List (String × InputValue)) → Decidable (a = b)
  | [], [] => isTrue rfl
  | [], _ :: _ => isFalse (by simp)
  | _ :: _, [] => isFalse (by simp)
  | (k, x) :: xs, (l, y) :: ys =>
    @decidable_of_iff _ (k = l ∧ x = y ∧ xs = ys) (by simp [and_assoc])
      (@instDecidableAnd _ _ inferInstance
        (@instDecidableAnd _ _ (InputValue.decEq x y) (InputValue.decEqMembers xs ys)))
end

instance : DecidableEq InputValue := InputValue.decEq

/-- FieldInput is generic Name/Value struct applied to a few places.
Tags: `json:"name"` and `json:"value,omitempty"`. -/
structure FieldInput where
  Name : String
  Value : InputValue
deriving DecidableEq

/-- Whether the value is one of the four plain kinds: nil, a boolean, an integer or a
string. -/
def InputValue.isPlain : InputValue → Bool
  | .nil => true
  | .bool _ => true
  | .int _ => true
  | .str _ => true
  | _ => false

mutual
/-- Whether the value is one Go can hold and the encoder accepts: an integer from
`math.MinInt64` up to `math.MaxUint64`, a `float64` in its standard form, a map whose keys
are distinct, and so for the elements of slices and maps. -/
def InputValue.encodable : InputValue → Bool
  | .int n => decide (-(2 : Int) ^ 63 ≤ n ∧ n < (2 : Int) ^ 64)
  | .float x => x.valid
  | .slice xs => encodableElems xs
  | .map kvs => encodableMembers kvs && decide ((kvs.map Prod.fst).Nodup)
  | _ => true
/-- Whether all elements are encodable. -/
def encodableElems : List InputValue → Bool
  | [] => true
  | x :: rest => x.encodable && encodableElems rest
/-- Whether all values of the members are encodable. -/
def encodableMembers : List (String × InputValue) → Bool
  | [] => true
  | (_, x) :: rest => x.encodable && encodableMembers rest
end

/-- The emptiness test behind `omitempty` (`isEmptyValue`): a field of interface type
is empty exactly when the interface is nil, whatever it would otherwise hold. -/
def isEmptyValue : InputValue → Bool
  | .nil => true
  | _ => false

/-- The members of a map in the order the encoder writes them: sorted by key. -/
def sortMembers (kvs : List (String × JSON)) : List (String × JSON) :=
  List.insertionSort (fun a b : String × JSON => a.1.data ≤ b.1.data) kvs

mutual
/-- JSON value the encoder writes for the content of an interface: `null` for nil,
also for a nil pointer, slice or map; the literal of a number; an array for a slice; an
object with the keys sorted for a map. -/
def InputValue.toJSON : InputValue → JSON
  | .nil => .null
  | .bool b => .bool b
  | .int n => .num (JNumber.ofInt n)
  | .str s => .str s
  | .float x => .num (formatFloat x)
  | .nilPointer => .null
  | .slice xs => .arr (toJSONElems xs)
  | .map kvs => .obj (sortMembers (toJSONMembers kvs))
/-- The JSON values of the elements of a slice. -/
def toJSONElems : List InputValue → List JSON
  | [] => []
  | x :: rest => x.toJSON :: toJSONElems rest
/-- The JSON members of the entries of a map, in the order of the entries. -/
def toJSONMembers : List (String × InputValue) → List (String × JSON)
  | [] => []
  | (k, x) :: rest => (k, x.toJSON) :: toJSONMembers rest
end

/-- The JSON object of one `FieldInput`: members in declaration order, `value` left out
when empty. -/
def FieldInput.toJSON (f : FieldInput) : JSON :=
  .obj (("name", .str f.Name) ::
    (if isEmptyValue f.Value then [] else [("value", f.Value.toJSON)]))

/-- Serialization of one `FieldInput`, the bytes `json.Marshal` returns. -/
def FieldInput.marshal (f : FieldInput) : String :=
  f.toJSON.render

/-- The JSON array of a (non-nil) slice of `FieldInput` entries, as placed under the
`fields` key of a request. -/
def fieldsToJSON (fs : List FieldInput) : JSON :=
  .arr (fs.map FieldInput.toJSON)

/-- Serialization of a slice of `FieldInput` entries. -/
def marshalFields (fs : List FieldInput) : String :=
  (fieldsToJSON fs).render

/-! ## Decoding into Go values -/

/-- An `UnmarshalTypeError`: a JSON value that does not fit the Go type it is bound to.
`Value` describes the JSON value, `Type'` names the Go type. Where `Value` quotes a
number, the number is given in the spelling of `JNumber.render`, which for a literal with
an exponent can differ from the spelling of the text (`1e+400` for `1e400`). -/
structure UnmarshalTypeError where
  Value : String
  Type' : String
deriving DecidableEq, Repr

/-- The decoder keeps the first error it meets and goes on (`saveError`). -/
def saveError (saved new : Option UnmarshalTypeError) : Option UnmarshalTypeError :=
  match saved with
  | some e => some e
  | none => new

/-- Description of a JSON value in an `UnmarshalTypeError` raised for a value of the wrong
kind. (A number that is of the right kind but does not fit is described together with
its text, see `decodeInt64` and `decodeInterface`.) -/
def JSON.describe : JSON → String
  | .null => "null"
  | .bool _ => "bool"
  | .num _ => "number"
  | .str _ => "string"
  | .arr _ => "array"
  | .obj _ => "object"

/-- Dynamic value found in an `interface{}` after decoding: nil, `bool`, `float64`,
`string`, `[]interface{}` or `map[string]interface{}`. A `float64` is either finite,
`float64 x` with `x` its exact value, or one of the two infinities, `inf false` for
`+Inf` and `inf true` for `-Inf`. -/
inductive GoValue where
  | nil
  | bool (b : Bool)
  | float64 (x : ℚ)
  | inf (negative : Bool)
  | str (s : String)
  | slice (xs : List GoValue)
  | map (kvs : List (String × GoValue))

set_option maxRecDepth 8000 in
mutual
/-- Equality of dynamic values is decidable. -/
def GoValue.decEq : (a b : GoValue) → Decidable (a = b)
  | .nil, .nil => isTrue rfl
  | .bool x, .bool y => decidable_of_iff (x = y) (by simp)
  | .float64 x, .float64 y => decidable_of_iff (x = y) (by simp)
  | .inf x, .inf y => decidable_of_iff (x = y) (by simp)
  | .str x, .str y => decidable_of_iff (x = y) (by simp)
  | .slice x, .slice y => @decidable_of_iff _ (x = y) (by simp) (GoValue.decEqList x y)
  | .map x, .map y => @decidable_of_iff _ (x = y) (by simp) (GoValue.decEqMembers x y)
  | .nil, .bool _ => isFalse (by simp)
  | .nil, .float64 _ => isFalse (by simp)
  | .nil, .inf _ => isFalse (by simp)
  | .nil, .str _ => isFalse (by simp)
  | .nil, .slice _ => isFalse (by simp)
  | .nil, .map _ => isFalse (by simp)
  | .bool _, .nil => isFalse (by simp)
  | .bool _, .float64 _ => isFalse (by simp)
  | .bool _, .inf _ => isFalse (by simp)
  | .bool _, .str _ => isFalse (by simp)
  | .bool _, .slice _ => isFalse (by simp)
  | .bool _, .map _ => isFalse (by simp)
  | .float64 _, .nil => isFalse (by simp)
  | .float64 _, .bool _ => isFalse (by simp)
  | .float64 _, .inf _ => isFalse (by simp)
  | .float64 _, .str _ => isFalse (by simp)
  | .float64 _, .slice _ => isFalse (by simp)
  | .float64 _, .map _ => isFalse (by simp)
  | .inf _, .nil => isFalse (by simp)
  | .inf _, .bool _ => isFalse (by simp)
  | .inf _, .float64 _ => isFalse (by simp)
  | .inf _, .str _ => isFalse (by simp)
  | .inf _, .slice _ => isFalse (by simp)
  | .inf _, .map _ => isFalse (by simp)
  | .str _, .nil => isFalse (by simp)
  | .str _, .bool _ => isFalse (by simp)
  | .str _, .float64 _ => isFalse (by simp)
  | .str _, .inf _ => isFalse (by simp)
  | .str _, .slice _ => isFalse (by simp)
  | .str _, .map _ => isFalse (by simp)
  | .slice _, .nil => isFalse (by simp)
  | .slice _, .bool _ => isFalse (by simp)
  | .slice _, .float64 _ => isFalse (by simp)
  | .slice _, .inf _ => isFalse (by simp)
  | .slice _, .str _ => isFalse (by simp)
  | .slice _, .map _ => isFalse (by simp)
  | .map _, .nil => isFalse (by simp)
  | .map _, .bool _ => isFalse (by simp)
  | .map _, .float64 _ => isFalse (by simp)
  | .map _, .inf _ => isFalse (by simp)
  | .map _, .str _ => isFalse (by simp)
  | .map _, .slice _ => isFalse (by simp)
/-- Equality of lists of dynamic values is decidable. -/
def GoValue.decEqList : (a b : List GoValue) → Decidable (a = b)
  | [], [] => isTrue rfl
  | [], _ :: _ => isFalse (by simp)
  | _ :: _, [] => isFalse (by simp)
  | x :: xs, y :: ys =>
    @decidable_of_iff _ (x = y ∧ xs = ys) (by simp)
      (@instDecidableAnd _ _ (GoValue.decEq x y) (GoValue.decEqList xs ys))
/-- Equality of maps of dynamic values, kept as association lists, is decidable. -/
def GoValue.decEqMembers : (a b : List (String × GoValue)) → Decidable (a = b)
  | [], [] => isTrue rfl
  | [], _ :: _ => isFalse (by simp)
  | _ :: _, [] => isFalse (by simp)
  | (k, x) :: xs, (l, y) :: ys =>
    @decidable_of_iff _ (k = l ∧ x = y ∧ xs = ys) (by simp [and_assoc])
      (@instDecidableAnd _ _ inferInstance
        (@instDecidableAnd _ _ (GoValue.decEq x y) (GoValue.decEqMembers xs ys)))
end

instance : DecidableEq GoValue := GoValue.decEq

/-- Assignment `m[k] = v` on a map kept as an association list. -/
def mapSet (m : List (String × GoValue)) (k : String) (v : GoValue) :
    List (String × GoValue) :=
  match m with
  | [] => [(k, v)]
  | (k', v') :: rest => if k' = k then (k, v) :: rest else (k', v') :: mapSet rest k v

mutual
/-- Decoding of a JSON value with no type to guide it: a number becomes the nearest
`float64`; a number beyond the float64 range becomes the infinity of its sign and is
recorded as an error. -/
def decodeAny : JSON → GoValue × Option UnmarshalTypeError
  | .null => (.nil, none)
  | .bool b => (.bool b, none)
  | .num n =>
    match parseFloat64 n with
    | some x => (.float64 x, none)
    | none => (.inf n.neg, some ⟨"number " ++ n.render, "float64"⟩)
  | .str s => (.str s, none)
  | .arr xs => let r := decodeAnyElems xs; (.slice r.1, r.2)
  | .obj kvs =>
    let r := decodeAnyMembers kvs
    (.map (r.1.foldl (fun m kv => mapSet m kv.1 kv.2) []), r.2)
/-- Elements of an array decoded in order (`arrayInterface`). -/
def decodeAnyElems : List JSON → List GoValue × Option UnmarshalTypeError
  | [] => ([], none)
  | x :: rest =>
    let r := decodeAny x
    let rs := decodeAnyElems rest
    (r.1 :: rs.1, saveError r.2 rs.2)
/-- Members of an object decoded in order (`objectInterface`), before they are stored
in the map. -/
def decodeAnyMembers : List (String × JSON) →
    List (String × GoValue) × Option UnmarshalTypeError
  | [] => ([], none)
  | (k, x) :: rest =>
    let r := decodeAny x
    let rs := decodeAnyMembers rest
    ((k, r.1) :: rs.1, saveError r.2 rs.2)
end

/-- Decoding of a JSON value into a field of type `interface{}` whose current content
is `cur`: the decoded value replaces the content, whatever it was. -/
def decodeInterface (_cur : GoValue) (j : JSON) : GoValue × Option UnmarshalTypeError :=
  decodeAny j

/-- Whether a dynamic value is a `float64`, the numeric type of decoded JSON numbers. -/
def GoValue.isFloat64 : GoValue → Bool
  | .float64 _ => true
  | .inf _ => true
  | _ => false

/-- Decoding into a `bool` field: `null` is ignored, anything but a boolean is an error
that leaves the field as it was. -/
def decodeBool (cur : Bool) : JSON → Bool × Option UnmarshalTypeError
  | .null => (cur, none)
  | .bool b => (b, none)
  | j => (cur, some ⟨j.describe, "bool"⟩)

/-- Decoding into a `string` field. -/
def decodeString (cur : String) : JSON → String × Option UnmarshalTypeError
  | .null => (cur, none)
  | .str s => (s, none)
  | j => (cur, some ⟨j.describe, "string"⟩)

/-- Decoding into an `int64` field: the literal must be an integer in range. -/
def decodeInt64 (cur : Int) : JSON → Int × Option UnmarshalTypeError
  | .null => (cur, none)
  | .num n =>
    match parseInt64 n with
    | some v => (v, none)
    | none => (cur, some ⟨"number " ++ n.render, "int64"⟩)
  | j => (cur, some ⟨j.describe, "int64"⟩)

/-- Decoding into a pointer field: `null` makes the pointer nil, any other value is
decoded into the pointee, which is allocated first when the pointer is nil. -/
def decodePtr {α : Type} (dec : α → JSON → α × Option UnmarshalTypeError) (zero : α)
    (cur : Option α) : JSON → Option α × Option UnmarshalTypeError
  | .null => (none, none)
  | j => let r := dec (cur.getD zero) j; (some r.1, r.2)

/-- Elements of a JSON array decoded in order, element `i` into the slice element `i`
when the slice already has one and into a zero value otherwise. -/
def decodeElems {α : Type} (dec : α → JSON → α × Option UnmarshalTypeError) (zero : α) :
    List α → List JSON → List α × Option UnmarshalTypeError
  | _, [] => ([], none)
  | cur, x :: rest =>
    let r := dec (cur.headD zero) x
    let rs := decodeElems dec zero cur.tail rest
    (r.1 :: rs.1, saveError r.2 rs.2)

/-- Decoding into a slice field. `none` is the nil slice. `null` makes the slice nil, an
array gives a slice with one element per array element (the empty array gives an empty,
non-nil slice), anything else is an error that leaves the field as it was. -/
def decodeSlice {α : Type} (dec : α → JSON → α × Option UnmarshalTypeError) (zero : α)
    (typeName : String) (cur : Option (List α)) :
    JSON → Option (List α) × Option UnmarshalTypeError
  | .null => (none, none)
  | .arr xs => let r := decodeElems dec zero (cur.getD []) xs; (some r.1, r.2)
  | j => (cur, some ⟨j.describe, typeName⟩)

/-- The folding of a member name the decoder applies before comparing it with a field
name: ASCII letters to upper case, and the two non-ASCII letters that fold to ASCII ones
(long s and the Kelvin sign). Other characters are folded among themselves by the
library and never to an ASCII character, so this decides equality with an ASCII name. -/
def foldName (s : String) : String :=
  String.mk (s.toList.map fun c =>
    if 'a'.toNat ≤ c.toNat ∧ c.toNat ≤ 'z'.toNat then Char.ofNat (c.toNat - 32)
    else if c = Char.ofNat 383 then 'S'
    else if c = Char.ofNat 8490 then 'K'
    else c)

/-- A member named `key` is bound to the field tagged `name` when the two are equal up to
case (an exact match is preferred, which makes no difference for structs whose field
names are distinct up to case). -/
def keyMatches (key name : String) : Bool :=
  foldName key = foldName name

/-- Decoding of a struct: `null` is ignored, the members of an object are decoded in
order of appearance onto the fields, anything else is an error. -/
def decodeStruct {α : Type} (setMember : α → String → JSON → α × Option UnmarshalTypeError)
    (typeName : String) (cur : α) : JSON → α × Option UnmarshalTypeError
  | .null => (cur, none)
  | .obj kvs =>
    kvs.foldl (fun acc kv => let r := setMember acc.1 kv.1 kv.2; (r.1, saveError acc.2 r.2))
      (cur, none)
  | j => (cur, some ⟨j.describe, typeName⟩)

/-! ## FieldOutput: the read side -/

/-- SelectOption is part of Field. -/
structure SelectOption where
  DividerAfter : Bool
  Order : Int
  Value : Int
  Hint : String
  Name : String
deriving DecidableEq, Repr

/-- FieldOutput is generic Name/Value struct applied to a few places. `SelectOptions` is
a slice of pointers: `none` is the nil slice, and a `none` element is a nil pointer. -/
structure FieldOutput where
  Advanced : Bool
  Order : Int
  HelpLink : String
  HelpText : String
  Hidden : String
  Label : String
  Name : String
  SelectOptionsProviderAction : String
  Type' : String
  Privacy : String
  Value : GoValue
  SelectOptions : Option (List (Option SelectOption))
deriving DecidableEq

/-- The zero value of `SelectOption`. -/
def SelectOption.zero : SelectOption :=
  { DividerAfter := false, Order := 0, Value := 0, Hint := "", Name := "" }

/-- The zero value of `FieldOutput`, what `var output FieldOutput` declares. -/
def FieldOutput.zero : FieldOutput :=
  { Advanced := false, Order := 0, HelpLink := "", HelpText := "", Hidden := "",
    Label := "", Name := "", SelectOptionsProviderAction := "", Type' := "",
    Privacy := "", Value := .nil, SelectOptions := none }

/-- One member of a JSON object decoded onto a `SelectOption`, by the struct tags
`dividerAfter`, `order`, `value`, `hint`, `name`; a member bound to no field is skipped. -/
def SelectOption.setMember (o : SelectOption) (key : String) (j : JSON) :
    SelectOption × Option UnmarshalTypeError :=
  if keyMatches key "dividerAfter" then
    let r := decodeBool o.DividerAfter j; ({ o with DividerAfter := r.1 }, r.2)
  else if keyMatches key "order" then
    let r := decodeInt64 o.Order j; ({ o with Order := r.1 }, r.2)
  else if keyMatches key "value" then
    let r := decodeInt64 o.Value j; ({ o with Value := r.1 }, r.2)
  else if keyMatches key "hint" then
    let r := decodeString o.Hint j; ({ o with Hint := r.1 }, r.2)
  else if keyMatches key "name" then
    let r := decodeString o.Name j; ({ o with Name := r.1 }, r.2)
  else (o, none)

/-- Decoding of a JSON value onto a `SelectOption`. -/
def SelectOption.decode (cur : SelectOption) (j : JSON) :
    SelectOption × Option UnmarshalTypeError :=
  decodeStruct SelectOption.setMember "starr.SelectOption" cur j

/-- One member of a JSON object decoded onto a `FieldOutput`, by the struct tags of
`shared.go`; a member bound to no field is skipped. -/
def FieldOutput.setMember (o : FieldOutput) (key : String) (j : JSON) :
    FieldOutput × Option UnmarshalTypeError :=
  if keyMatches key "advanced" then
    let r := decodeBool o.Advanced j; ({ o with Advanced := r.1 }, r.2)
  else if keyMatches key "order" then
    let r := decodeInt64 o.Order j; ({ o with Order := r.1 }, r.2)
  else if keyMatches key "helpLink" then
    let r := decodeString o.HelpLink j; ({ o with HelpLink := r.1 }, r.2)
  else if keyMatches key "helpText" then
    let r := decodeString o.HelpText j; ({ o with HelpText := r.1 }, r.2)
  else if keyMatches key "hidden" then
    let r := decodeString o.Hidden j; ({ o with Hidden := r.1 }, r.2)
  else if keyMatches key "label" then
    let r := decodeString o.Label j; ({ o with Label := r.1 }, r.2)
  else if keyMatches key "name" then
    let r := decodeString o.Name j; ({ o with Name := r.1 }, r.2)
  else if keyMatches key "selectOptionsProviderAction" then
    let r := decodeString o.SelectOptionsProviderAction j
    ({ o with SelectOptionsProviderAction := r.1 }, r.2)
  else if keyMatches key "type" then
    let r := decodeString o.Type' j; ({ o with Type' := r.1 }, r.2)
  else if keyMatches key "privacy" then
    let r := decodeString o.Privacy j; ({ o with Privacy := r.1 }, r.2)
  else if keyMatches key "value" then
    let r := decodeInterface o.Value j; ({ o with Value := r.1 }, r.2)
  else if keyMatches key "selectOptions" then
    let r := decodeSlice (decodePtr SelectOption.decode SelectOption.zero) none
      "[]*starr.SelectOption" o.SelectOptions j
    ({ o with SelectOptions := r.1 }, r.2)
  else (o, none)

/-- Decoding of a JSON value onto a `FieldOutput`. -/
def FieldOutput.decode (cur : FieldOutput) (j : JSON) :
    FieldOutput × Option UnmarshalTypeError :=
  decodeStruct FieldOutput.setMember "starr.FieldOutput" cur j

/-- Result of `json.Unmarshal(body, &out)` for a fresh `var out FieldOutput`: the
decoded struct and the error, if any. -/
def FieldOutput.unmarshal (j : JSON) : FieldOutput × Option UnmarshalTypeError :=
  FieldOutput.decode FieldOutput.zero j

/-- Result of `json.Unmarshal(body, &out)` for a fresh `var out []*FieldOutput`, the type
of the `Fields` member of the output resources. `none` is the nil slice, a `none`
element a nil pointer. -/
def unmarshalFields (j : JSON) :
    Option (List (Option FieldOutput)) × Option UnmarshalTypeError :=
  decodeSlice (decodePtr FieldOutput.decode FieldOutput.zero) none "[]*starr.FieldOutput"
    none j

/-- Length of a Go slice, `len(s)`; the nil slice has length zero. -/
def sliceLen {α : Type} (s : Option (List α)) : Nat :=
  (s.getD []).length

/-! ## Reading JSON text -/

/-- The white space of JSON: space, tab, carriage return and line feed. -/
def isWS (c : Char) : Bool :=
  c = ' ' || c = '\t' || c = '\r' || c = '\n'

/-- The text after its leading white space. -/
def skipWS (cs : List Char) : List Char :=
  cs.dropWhile isWS

/-- Value of a hexadecimal digit, of either case. -/
def hexValue (c : Char) : Option Nat :=
  if c.isDigit then some (c.toNat - 48)
  else if 'a'.toNat ≤ c.toNat ∧ c.toNat ≤ 'f'.toNat then some (c.toNat - 87)
  else if 'A'.toNat ≤ c.toNat ∧ c.toNat ≤ 'F'.toNat then some (c.toNat - 55)
  else none

/-- The number of an escape `\uXXXX` at the head of the text (`getu4`); `none` when the
text does not start with such an escape. -/
def getu4 (cs : List Char) : Option Nat :=
  match cs with
  | b :: u :: h1 :: h2 :: h3 :: h4 :: _ =>
    if b = '\\' ∧ u = 'u' then
      match hexValue h1, hexValue h2, hexValue h3, hexValue h4 with
      | some a, some b, some c, some d => some (((a * 16 + b) * 16 + c) * 16 + d)
      | _, _, _, _ => none
    else none
  | _ => none

/-- The character a one-letter escape stands for. -/
def unescapeChar (e : Char) : Option Char :=
  if e = '"' then some '"'
  else if e = '\\' then some '\\'
  else if e = '/' then some '/'
  else if e = 'b' then some (Char.ofNat 8)
  else if e = 'f' then some (Char.ofNat 12)
  else if e = 'n' then some '\n'
  else if e = 'r' then some '\r'
  else if e = 't' then some '\t'
  else none

/-- The rest of a string literal after its opening quote, `acc` being the characters read
so far: up to the closing quote, with the escapes replaced by what they stand for. An
escaped surrogate pair is one character; a surrogate half without its other half is
U+FFFD. A control character is not allowed. The result is the string and the text after
the closing quote. -/
def parseStringBody : Nat → List Char → List Char → Option (String × List Char)
  | 0, _, _ => none
  | _ + 1, [], _ => none
  | fuel + 1, c :: rest, acc =>
    if c = '"' then some (String.mk acc, rest)
    else if c = '\\' then
      (if rest.head? = some 'u' then
        match getu4 (c :: rest) with
        | none => none
        | some rr =>
          if 55296 ≤ rr ∧ rr < 57344 then
            match getu4 (rest.drop 5) with
            | some rr1 =>
              if rr < 56320 ∧ 56320 ≤ rr1 ∧ rr1 < 57344 then
                parseStringBody fuel (rest.drop 11)
                  (acc ++ [Char.ofNat ((rr - 55296) * 1024 + (rr1 - 56320) + 65536)])
              else parseStringBody fuel (rest.drop 5) (acc ++ [Char.ofNat 65533])
            | none => parseStringBody fuel (rest.drop 5) (acc ++ [Char.ofNat 65533])
          else parseStringBody fuel (rest.drop 5) (acc ++ [Char.ofNat rr])
      else
        match rest.head?.bind unescapeChar with
        | some ch => parseStringBody fuel rest.tail (acc ++ [ch])
        | none => none)
    else if c.toNat < 32 then none
    else parseStringBody fuel rest (acc ++ [c])

/-- The digit a decimal digit character stands for. -/
def digitOf (c : Char) : Fin 10 :=
  ⟨(c.toNat - 48) % 10, Nat.mod_lt _ (by decide)⟩

/-- The fraction part of a number literal, if the text starts with one: a point and one or
more digits. -/
def parseFrac (cs : List Char) : Option (List (Fin 10) × List Char) :=
  if cs.head? = some '.' then
    (if cs.tail.takeWhile Char.isDigit = [] then none
     else some ((cs.tail.takeWhile Char.isDigit).map digitOf, cs.tail.dropWhile Char.isDigit))
  else some ([], cs)

/-- The exponent part of a number literal, if the text starts with one: `e` or `E`, an
optional sign and one or more digits. -/
def parseExp (cs : List Char) : Option (Option Int × List Char) :=
  if cs.head? = some 'e' ∨ cs.head? = some 'E' then
    let rest := cs.tail
    let digits :=
      if rest.head? = some '-' ∨ rest.head? = some '+' then rest.tail else rest
    if digits.takeWhile Char.isDigit = [] then none
    else
      some (some (if rest.head? = some '-'
                  then -(decimalValue (digits.takeWhile Char.isDigit) : Int)
                  else (decimalValue (digits.takeWhile Char.isDigit) : Int)),
            digits.dropWhile Char.isDigit)
  else some (none, cs)

/-- A number literal at the head of the text: an optional minus sign, an integer part
without superfluous leading zero, an optional fraction part and an optional exponent
part. -/
def parseNumber (cs : List Char) : Option (JNumber × List Char) :=
  let neg : Bool := cs.head? = some '-'
  let cs1 := if cs.head? = some '-' then cs.tail else cs
  let intRun := cs1.takeWhile Char.isDigit
  if intRun = [] ∨ (intRun.head? = some '0' ∧ 1 < intRun.length) then none
  else
    match parseFrac (cs1.dropWhile Char.isDigit) with
    | none => none
    | some (frac, cs2) =>
      match parseExp cs2 with
      | none => none
      | some (exp, cs3) =>
        some ({ neg := neg, int := decimalValue intRun, frac := frac, exp := exp }, cs3)

mutual
/-- A JSON value at the head of the text: the value and the text after it. `fuel` bounds
the number of values read. -/
def parseValue : Nat → List Char → Option (JSON × List Char)
  | 0, _ => none
  | _ + 1, [] => none
  | fuel + 1, c :: rest =>
    if c = 'n' then
      (if rest.take 3 = ['u', 'l', 'l'] then some (.null, rest.drop 3) else none)
    else if c = 't' then
      (if rest.take 3 = ['r', 'u', 'e'] then some (.bool true, rest.drop 3) else none)
    else if c = 'f' then
      (if rest.take 4 = ['a', 'l', 's', 'e'] then some (.bool false, rest.drop 4) else none)
    else if c = '"' then
      match parseStringBody (rest.length + 1) rest [] with
      | some (s, rest1) => some (.str s, rest1)
      | none => none
    else if c = '[' then
      (if (skipWS rest).head? = some ']' then some (.arr [], (skipWS rest).tail)
       else
        match parseElems fuel (skipWS rest) with
        | some (xs, rest1) => some (.arr xs, rest1)
        | none => none)
    else if c = '\x7b' then
      (if (skipWS rest).head? = some '\x7d' then some (.obj [], (skipWS rest).tail)
       else
        match parseMembers fuel (skipWS rest) with
        | some (kvs, rest1) => some (.obj kvs, rest1)
        | none => none)
    else
      match parseNumber (c :: rest) with
      | some (n, rest1) => some (.num n, rest1)
      | none => none
/-- The elements of an array from the first one on, up to and including the closing
bracket. -/
def parseElems : Nat → List Char → Option (List JSON × List Char)
  | 0, _ => none
  | fuel + 1, cs =>
    match parseValue fuel cs with
    | none => none
    | some (x, rest) =>
      if (skipWS rest).head? = some ',' then
        match parseElems fuel (skipWS (skipWS rest).tail) with
        | some (xs, rest1) => some (x :: xs, rest1)
        | none => none
      else if (skipWS rest).head? = some ']' then some ([x], (skipWS rest).tail)
      else none
/-- The members of an object from the first one on, up to and including the closing
brace. -/
def parseMembers : Nat → List Char → Option (List (String × JSON) × List Char)
  | 0, _ => none
  | fuel + 1, cs =>
    if cs.head? = some '"' then
      match parseStringBody (cs.tail.length + 1) cs.tail [] with
      | none => none
      | some (k, rest) =>
        if (skipWS rest).head? = some ':' then
          match parseValue fuel (skipWS (skipWS rest).tail) with
          | none => none
          | some (x, rest1) =>
            if (skipWS rest1).head? = some ',' then
              match parseMembers fuel (skipWS (skipWS rest1).tail) with
              | some (kvs, rest2) => some ((k, x) :: kvs, rest2)
              | none => none
            else if (skipWS rest1).head? = some '\x7d' then
              some ([(k, x)], (skipWS rest1).tail)
            else none
        else none
    else none
end

/-- The JSON value a text is, as `encoding/json` reads it: one value, with white space
allowed around it and between its tokens; `none` for a text that is not JSON (a
`SyntaxError`). The limit the library puts on the depth of nesting is not part of it. -/
def JSON.parse (s : String) : Option JSON :=
  match parseValue (s.length + 1) (skipWS s.toList) with
  | some (j, rest) => if skipWS rest = [] then some j else none
  | none => none

/-- An error of `json.Unmarshal`: a `SyntaxError` for a text that is not JSON, or an
`UnmarshalTypeError`. -/
inductive UnmarshalError where
  | syntaxError
  | typeError (e : UnmarshalTypeError)
deriving DecidableEq, Repr

/-- The function `json.Unmarshal(data, &v)` for a fresh destination `v` whose decoder on
JSON values is `decode`: a text that is not JSON is a syntax error and leaves the
destination as it was, `zero`; otherwise the value is decoded. -/
def unmarshalText {α : Type} (decode : JSON → α × Option UnmarshalTypeError) (zero : α)
    (data : String) : α × Option UnmarshalError :=
  match JSON.parse data with
  | none => (zero, some .syntaxError)
  | some j => ((decode j).1, (decode j).2.map .typeError)

/-- Result of `json.Unmarshal(data, &out)` for a fresh `var out []*FieldOutput` and the
bytes `data`. -/
def unmarshalFieldsText (data : String) :
    Option (List (Option FieldOutput)) × Option UnmarshalError :=
  unmarshalText unmarshalFields none data

/-! ## The round trip contract -/

/-- The entries of a decoded map in the order in which the decoder stored them when the
text had its keys sorted. -/
def sortDecoded (ms : List (String × GoValue)) : List (String × GoValue) :=
  List.insertionSort (fun a b : String × GoValue => a.1.data ≤ b.1.data) ms

mutual
/-- What the field round trip promises for one value, in the words of the specification
where it has them: a nil value comes back nil, a boolean as the same boolean, a string as
the same string, a floating point number as the same `float64`, and an integer `n` as a
`float64`, namely the one nearest to `n`, which is `n` itself when the magnitude of `n` is
at most `2 ^ 53`. A nil pointer comes back as nil, a slice as a slice of what its elements
come back as, a map as a map of what its values come back as. -/
def RoundTripsTo : InputValue → GoValue → Prop
  | .nil, g => g = .nil
  | .bool b, g => g = .bool b
  | .str s, g => g = .str s
  | .int n, g => ∃ x, parseFloat64 (JNumber.ofInt n) = some x ∧ g = .float64 x ∧
      (n.natAbs ≤ 2 ^ 53 → x = (n : ℚ))
  | .float x, g => g = .float64 x.toRat
  | .nilPointer, g => g = .nil
  | .slice xs, g => ∃ gs, g = .slice gs ∧ RoundTripsElems xs gs
  | .map kvs, g => ∃ ms, g = .map (sortDecoded ms) ∧ RoundTripsMembers kvs ms
/-- Element by element, the values of a slice and what they come back as. -/
def RoundTripsElems : List InputValue → List GoValue → Prop
  | [], gs => gs = []
  | x :: xs, gs => ∃ g rest, gs = g :: rest ∧ RoundTripsTo x g ∧ RoundTripsElems xs rest
/-- Entry by entry, the values of a map and what they come back as, under the same
keys. -/
def RoundTripsMembers : List (String × InputValue) → List (String × GoValue) → Prop
  | [], ms => ms = []
  | (k, x) :: xs, ms =>
    ∃ g rest, ms = (k, g) :: rest ∧ RoundTripsTo x g ∧ RoundTripsMembers xs rest
end

/-! ## The request engine and its errors

The request engine (`http.go`) and the per-application methods are not among the sources
at hand: only their tests are. The definitions of this section follow the specification
(sections 3, 4.3, 4.4 and 4.5) and the way the tests use the client. -/

/-- Modelled from the spec: the `ReqError` type, declared in the request engine which is
missing from the sources. "ReqError: {httpStatusCode: int, underlying cause (optional)}";
the tests build it as `&starr.ReqError{Code: http.StatusNotFound}`. `Msg` stands for the
message text and `Err` for the description of the optional underlying cause. -/
structure ReqError where
  Code : Int
  Msg : String
  Err : Option String
deriving DecidableEq, Repr

/-- Modelled from the spec: the match method of `ReqError`, missing from the sources.
"Two errors are considered the same kind if and only if their status codes match;
message text is not part of identity." -/
def ReqError.Is (r target : ReqError) : Bool :=
  decide (r.Code = target.Code)

/-- An error value as a caller receives it: a `ReqError`, a transport failure, a decode
failure, or any of these wrapped with context by `fmt.Errorf("...: %w", err)`. -/
inductive GoError where
  | req (r : ReqError)
  | transport (msg : String)
  | decode (msg : String)
  | wrap (context : String) (inner : GoError)
deriving DecidableEq, Repr

/-- The standard `errors.Is(err, target)` for a `*ReqError` target: the chain of wrapped
errors is walked, and a `ReqError` in it is asked through its `Is` method. -/
def errorsIs : GoError → ReqError → Bool
  | .req r, target => r.Is target
  | .transport _, _ => false
  | .decode _, _ => false
  | .wrap _ inner, target => errorsIs inner target

/-- An HTTP response: status code and body. -/
structure Response where
  StatusCode : Int
  Body : String
deriving DecidableEq, Repr

/-- Outcome of sending a request: a response, or a transport failure (connection refused,
timeout, malformed response). -/
inductive Exchange where
  | response (resp : Response)
  | failure (msg : String)
deriving DecidableEq, Repr

/-- Modelled from the spec: the Error Classifier of the request engine, missing from the
sources. "Success result (status in 200-299): pass payload to the decoder"; a non-2xx
response becomes a "structured error carrying the numeric HTTP status code", a transport
failure a "structured error carrying a transport-failure marker". -/
def classify : Exchange → Except GoError String
  | .response resp =>
    if 200 ≤ resp.StatusCode ∧ resp.StatusCode ≤ 299 then .ok resp.Body
    else .error (.req { Code := resp.StatusCode, Msg := resp.Body, Err := none })
  | .failure msg => .error (.transport msg)

/-- Modelled from the spec: a typed get, list, add or update call of the facade, missing
from the sources. The classified payload is decoded into a fresh destination; "on
failure, returns via the Error Classifier; no partial/garbage decode into the destination
is permitted once an error is detected", so an error comes with a nil result (`none`:
the nil pointer of a single entity, the nil slice of a collection). `context` is the text
the method wraps the error with. -/
def callInto {α : Type} (context : String) (decode : String → Except String α)
    (x : Exchange) : Option α × Option GoError :=
  match classify x with
  | .error e => (none, some (.wrap context e))
  | .ok body =>
    match decode body with
    | .error msg => (none, some (.wrap context (.decode msg)))
    | .ok v => (some v, none)

/-! ## Typed inputs on the wire -/

/-- One field of a struct as the encoder sees it: the member name of its tag, whether the
tag says `omitempty`, whether the value is empty (false, 0, "", nil, or of length zero),
and the JSON value it is written as. -/
structure StructField where
  name : String
  omitEmpty : Bool
  isEmpty : Bool
  value : JSON

/-- Whether the encoder writes the field: always, unless it is tagged `omitempty` and
empty. -/
def StructField.kept (f : StructField) : Bool :=
  !(f.omitEmpty && f.isEmpty)

/-- The JSON object `encoding/json` writes for a struct: the fields that are kept, in the
order of their declaration. -/
def encodeStruct (fields : List StructField) : JSON :=
  .obj ((fields.filter StructField.kept).map fun f => (f.name, f.value))

/-- RemotePathMapping is the remotePathMapping endpoint. Tags: `json:"id,omitempty"`,
`json:"host"`, `json:"remotePath"`, `json:"localPath"`. -/
structure RemotePathMapping where
  ID : Int
  Host : String
  RemotePath : String
  LocalPath : String
deriving DecidableEq, Repr

/-- The fields of a `RemotePathMapping` in declaration order, as the encoder sees them. -/
def RemotePathMapping.fields (m : RemotePathMapping) : List StructField :=
  [ { name := "id", omitEmpty := true, isEmpty := decide (m.ID = 0),
      value := .num (JNumber.ofInt m.ID) },
    { name := "host", omitEmpty := false, isEmpty := decide (m.Host = ""),
      value := .str m.Host },
    { name := "remotePath", omitEmpty := false, isEmpty := decide (m.RemotePath = ""),
      value := .str m.RemotePath },
    { name := "localPath", omitEmpty := false, isEmpty := decide (m.LocalPath = ""),
      value := .str m.LocalPath } ]

/-- The JSON object of a `RemotePathMapping`. -/
def RemotePathMapping.toJSON (m : RemotePathMapping) : JSON :=
  encodeStruct m.fields

/-- Serialization of a `RemotePathMapping`, the bytes `json.Marshal` returns. -/
def RemotePathMapping.marshal (m : RemotePathMapping) : String :=
  m.toJSON.render

/-- Modelled from the spec: the body a POST or PUT call sends, built by the facade methods
which are missing from the sources. "Serializes the body as a JSON object with UTF-8
encoding and a trailing newline terminator"; the tests expect the serialization of the
input followed by a line feed. -/
def requestBody (input : JSON) : String :=
  input.render ++ "\n"

/-- The text has no line feed character. -/
def NoLF (s : String) : Prop := '\n' ∉ s.data

/-! ## Query parameters -/

/-- The type `url.Values` of the standard library: a map from a key to a list of values.
It is kept as an association list with one entry per key; a map has no order of its own,
and the only function that reads the entries, `Encode`, goes through the keys sorted. -/
def url.Values : Type := List (String × List String)

/-- The empty map, `make(url.Values)`. -/
def url.Values.empty : url.Values := ([] : List (String × List String))

/-- The method `Set` of `url.Values`: the key gets the single value given, replacing
whatever it was mapped to. -/
def url.Values.Set : url.Values → String → String → url.Values
  | [], key, value => [(key, [value])]
  | (k, vs) :: rest, key, value =>
    if k = key then (key, [value]) :: rest
    else (k, vs) :: url.Values.Set rest key value

/-- The values a key is mapped to, `v[key]`; none when the key is not in the map. -/
def url.Values.lookup : url.Values → String → List String
  | [], _ => []
  | (k, vs) :: rest, key => if k = key then vs else url.Values.lookup rest key

/-- The UTF-8 encoding of a character. -/
def utf8Bytes (c : Char) : List Nat :=
  let n := c.toNat
  if n < 128 then [n]
  else if n < 2048 then [192 + n / 64, 128 + n % 64]
  else if n < 65536 then [224 + n / 4096, 128 + n / 64 % 64, 128 + n % 64]
  else [240 + n / 262144, 128 + n / 4096 % 64, 128 + n / 64 % 64, 128 + n % 64]

/-- Upper-case hexadecimal digit, the table `upperhex` of `net/url`. -/
def upperHexDigit (n : Nat) : Char :=
  if n < 10 then Char.ofNat (48 + n) else Char.ofNat (55 + n)

/-- The characters `url.QueryEscape` leaves as they are: letters, digits, `-`, `_`, `.`
and `~`. -/
def isUnreserved (c : Char) : Bool :=
  c.isAlphanum || c = '-' || c = '_' || c = '.' || c = '~'

/-- The function `url.QueryEscape`: unreserved characters are kept, a space becomes `+`,
every other character is written as `%XX` for each byte of its UTF-8 encoding. -/
def url.QueryEscape (s : String) : String :=
  String.join (s.toList.map fun c =>
    if isUnreserved c then String.mk [c]
    else if c = ' ' then "+"
    else String.join ((utf8Bytes c).map fun b =>
      String.mk ['%', upperHexDigit (b / 16), upperHexDigit (b % 16)]))

/-- The keys of the map in the order `Encode` visits them: sorted, as strings are
compared in Go (byte by byte, which for valid text is character by character). -/
def url.Values.sortedKeys (v : url.Values) : List String :=
  List.insertionSort (fun a b : String => a.data ≤ b.data)
    ((v : List (String × List String)).map Prod.fst)

/-- The `key=value` pairs of the encoded form, in order. -/
def url.Values.encodedPairs (v : url.Values) : List String :=
  v.sortedKeys.flatMap fun k =>
    (v.lookup k).map fun x => url.QueryEscape k ++ "=" ++ url.QueryEscape x

/-- The method `Encode` of `url.Values`: the "URL encoded" form `bar=baz&foo=quux`,
sorted by key. -/
def url.Values.Encode (v : url.Values) : String :=
  "&".intercalate v.encodedPairs

/-- Modelled from the spec: the helper `Str` applied to a boolean, missing from the
sources; the query flags are "rendered as true or false" (`strconv.FormatBool`). -/
def Str (b : Bool) : String :=
  if b then "true" else "false"

/-- QueueDeleteOpts are the extra inputs when deleting an item from the Activity Queue.
`RemoveFromClient` is a `*bool`: `none` is the nil pointer. -/
structure QueueDeleteOpts where
  RemoveFromClient : Option Bool
  BlockList : Bool
  SkipRedownload : Bool
  ChangeCategory : Bool
deriving DecidableEq, Repr

/-- Values turns delete options into http get query parameters. The receiver is a
pointer: `none` is the nil receiver. -/
def QueueDeleteOpts.Values (o : Option QueueDeleteOpts) : url.Values :=
  let params := url.Values.empty.Set "removeFromClient" "true"
  match o with
  | none => params
  | some o =>
    let params := params.Set "blocklist" (Str o.BlockList)
    let params := params.Set "skipRedownload" (Str o.SkipRedownload)
    let params := params.Set "changeCategory" (Str o.ChangeCategory)
    match o.RemoveFromClient with
    | some b => params.Set "removeFromClient" (Str b)
    | none => params

/-! ## Endpoints and requests

The path builder, the request engine and the per-resource methods are not among the
sources at hand. The definitions of this section follow the specification (sections 3,
4.1, 4.4, 4.5 and 6) and the requests the tests expect. -/

/-- The pieces of a path component between slashes, the current piece being `cur`. Empty
pieces (a leading, trailing or doubled slash) are dropped. -/
def splitSegmentsAux : List Char → List Char → List (List Char)
  | [], cur => if cur = [] then [] else [cur]
  | c :: rest, cur =>
    if c = '/' then
      (if cur = [] then splitSegmentsAux rest [] else cur :: splitSegmentsAux rest [])
    else splitSegmentsAux rest (cur ++ [c])

/-- The non-empty pieces of a path component, in order. -/
def splitSegments (s : String) : List (List Char) :=
  splitSegmentsAux s.toList []

/-- A list of segments written as a path: each segment preceded by one slash; the
root path `/` when there is no segment. -/
def joinSegments (segs : List (List Char)) : String :=
  if segs = [] then "/" else String.mk (segs.flatMap fun seg => '/' :: seg)

/-- Whether a path component is a plain name: not empty and without a slash, as the
version and resource names of the applications are. -/
def isPlainName (s : String) : Bool :=
  decide (s.toList ≠ [] ∧ '/' ∉ s.toList)

/-- Modelled from the spec: the API root segment, a constant of the request engine which
is missing from the sources (`apiRoot="api"`). -/
def API : String := "api"

/-- Modelled from the spec: the Endpoint of section 3, built by code missing from the
sources. "{baseURL, apiRoot, apiVersion, resource, id (optional, 64-bit integer, 0 =
absent), queryParams}"; the query parameters are a `url.Values`, the type `shared.go`
uses for them. The base URL plays no part in the path. -/
structure Endpoint where
  apiRoot : String
  apiVersion : String
  resource : String
  id : Int
  queryParams : url.Values

/-- Modelled from the spec: the segments of the path of an endpoint, from the Path
Builder which is missing from the sources: API root, version, resource name, and the id
"rendered in base-10 with no leading zeros" unless it is absent. -/
def Endpoint.segments (e : Endpoint) : List (List Char) :=
  splitSegments e.apiRoot ++ splitSegments e.apiVersion ++ splitSegments e.resource
    ++ (if e.id = 0 then [] else [(toString e.id).toList])

/-- Modelled from the spec: the Path Builder, missing from the sources. It produces "a
normalized URL path with no duplicate or missing path separators":
`/{apiRoot}/{apiVersion}/{resource}[/{id}]`. -/
def Endpoint.path (e : Endpoint) : String :=
  joinSegments e.segments

/-- Modelled from the spec: the request target `path[?query]` of section 6, built by
code missing from the sources; the query string is the encoded form of the parameters
and is left out when there is none. -/
def Endpoint.target (e : Endpoint) : String :=
  if e.queryParams.Encode = "" then e.path else e.path ++ "?" ++ e.queryParams.Encode

/-- The HTTP methods the client uses. -/
inductive Method where
  | GET
  | POST
  | PUT
  | DELETE
deriving DecidableEq, Repr

/-- An outgoing request as the mock server of the tests observes it: method, endpoint
and body (`none` when the method carries no body). -/
structure Request where
  method : Method
  endpoint : Endpoint
  body : Option String

/-- Modelled from the spec: the typed `Add` call of the facade, missing from the sources.
It sends POST on the collection path with the serialized input as body. -/
def addRequest (version resource : String) (input : JSON) (query : url.Values) : Request :=
  { method := .POST,
    endpoint := { apiRoot := API, apiVersion := version, resource := resource, id := 0,
                  queryParams := query },
    body := some (requestBody input) }

/-- Modelled from the spec: the typed `Update` call of the facade, missing from the
sources: "ID embedded in input, used to build the path". It sends PUT on the path of the
entity with the serialized input as body. -/
def updateRequest (version resource : String) (id : Int) (input : JSON)
    (query : url.Values) : Request :=
  { method := .PUT,
    endpoint := { apiRoot := API, apiVersion := version, resource := resource, id := id,
                  queryParams := query },
    body := some (requestBody input) }

/-- Modelled from the spec: the typed `Delete` call of the facade, missing from the
sources. It sends DELETE on the path of the entity, without a body. -/
def deleteRequest (version resource : String) (id : Int) : Request :=
  { method := .DELETE,
    endpoint := { apiRoot := API, apiVersion := version, resource := resource, id := id,
                  queryParams := url.Values.empty },
    body := none }

/-- Modelled from the spec: the outcome of a `Delete` call, missing from the sources. The
error is nil for a success and the classified error, wrapped with context, otherwise;
"a non-empty unexpected body on 2xx is not an error - callers only care about the
status", so the body is not decoded. -/
def deleteCall (context : String) (x : Exchange) : Option GoError :=
  match classify x with
  | .error e => some (.wrap context e)
  | .ok _ => none

/-- Modelled from the spec: `UpdateRemotePathMapping` of the facade, missing from the
sources; the tests expect PUT on `remotePathMapping/<ID>` with the mapping as body. -/
def updateRemotePathMapping (version : String) (m : RemotePathMapping) : Request :=
  updateRequest version "remotePathMapping" m.ID m.toJSON url.Values.empty

/-- Modelled from the spec: the typed input of an `Update` call ("ID embedded in input,
used to build the path"), as the facade methods, which are missing from the sources, take
it. The inputs of the tests, `RemotePathMapping` and `NotificationInput`, hold the ID in
a field tagged `json:"id,omitempty"` among their other fields; `before` and `after` are
the fields declared before and after it. -/
structure TypedInput where
  before : List StructField
  ID : Int
  after : List StructField

/-- The fields of a typed input in declaration order, as the encoder sees them. -/
def TypedInput.fields (x : TypedInput) : List StructField :=
  x.before ++
    { name := "id", omitEmpty := true, isEmpty := decide (x.ID = 0),
      value := .num (JNumber.ofInt x.ID) } :: x.after

/-- The JSON object of a typed input. -/
def TypedInput.toJSON (x : TypedInput) : JSON :=
  encodeStruct x.fields

/-- The members the encoder writes for a list of fields: name and value of those that are
kept. -/
def keptMembers (fields : List StructField) : List (String × JSON) :=
  (fields.filter StructField.kept).map fun f => (f.name, f.value)

/-- Modelled from the spec: an `Update` method of the facade, missing from the sources,
applied to a typed input: the ID for the path is read from the input, and the input is
the body. -/
def update (version resource : String) (x : TypedInput) : Request :=
  updateRequest version resource x.ID x.toJSON url.Values.empty

/-- A `RemotePathMapping` as a typed input: the ID is its first field. -/
def RemotePathMapping.input (m : RemotePathMapping) : TypedInput :=
  { before := [], ID := m.ID, after := m.fields.tail }

/-- Modelled from the spec: the `NotificationInput` that `TestUpdateNotification` passes
to `UpdateNotification`, with the given ID. The struct is declared in code missing from
the sources; its members, their order and the `omitempty` of `id` are read off the request
bodies the tests expect (`addNotification` has no `id`, `updateNotification` has
`"id":3`). -/
def testNotificationInput (id : Int) : TypedInput :=
  { before :=
      [⟨"onGrab", false, true, .bool false⟩, ⟨"onHealthIssue", false, true, .bool false⟩,
       ⟨"onHealthRestored", false, true, .bool false⟩,
       ⟨"onApplicationUpdate", false, false, .bool true⟩,
       ⟨"supportsOnGrab", false, true, .bool false⟩,
       ⟨"includeManualGrabs", false, true, .bool false⟩,
       ⟨"supportsOnHealthIssue", false, true, .bool false⟩,
       ⟨"supportsOnHealthRestored", false, true, .bool false⟩,
       ⟨"includeHealthWarnings", false, true, .bool false⟩,
       ⟨"supportsOnApplicationUpdate", false, true, .bool false⟩],
    ID := id,
    after :=
      [⟨"name", false, false, .str "Test"⟩, ⟨"implementationName", false, true, .str ""⟩,
       ⟨"implementation", false, false, .str "CustomScript"⟩,
       ⟨"configContract", false, false, .str "CustomScriptSettings"⟩,
       ⟨"infoLink", false, true, .str ""⟩, ⟨"tags", false, true, .null⟩,
       ⟨"fields", false, false, fieldsToJSON [⟨"path", .str "/scripts/prowlarr.sh"⟩]⟩] }

/-- Modelled from the spec: `AddDownloadClient` of the facade, missing from the sources;
the tests expect POST on `downloadClient?forceSave=true`. The input is given by its JSON
object. -/
def addDownloadClient (version : String) (input : JSON) : Request :=
  addRequest version "downloadClient" input (url.Values.empty.Set "forceSave" "true")

/-- Modelled from the spec: `UpdateDownloadClient` of the facade, missing from the
sources; the tests expect PUT on `downloadClient/<ID>?forceSave=<force>`. The input is
given by its ID and its JSON object. -/
def updateDownloadClient (version : String) (id : Int) (input : JSON) (force : Bool) :
    Request :=
  updateRequest version "downloadClient" id input
    (url.Values.empty.Set "forceSave" (Str force))

/-! ## PlayTime -/

/-- Whether a character is in the cutset of `strings.Trim(s, "\"'")`: a double or a
single quote. -/
def isQuote (c : Char) : Bool :=
  c = '"' || c = '\''

/-- The function `strings.Trim` with the cutset of the two quote characters: all leading
and all trailing quote characters are removed. -/
def trimQuotes (s : String) : String :=
  String.mk ((s.toList.dropWhile isQuote).reverse.dropWhile isQuote).reverse

/-- The pieces of a text between colons, the current piece being `cur`; empty pieces are
kept. -/
def splitColonAux : List Char → List Char → List (List Char)
  | [], cur => [cur]
  | c :: rest, cur =>
    if c = ':' then cur :: splitColonAux rest [] else splitColonAux rest (cur ++ [c])

/-- The function `strings.Split(s, ":")`: one more piece than there are colons, so never
an empty list. -/
def splitColon (s : String) : List (List Char) :=
  splitColonAux s.toList []

/-- What the digit loop of `strconv.ParseUint` ends with. -/
inductive ParseUintResult where
  | ok (n : Nat)
  | syntaxError
  | rangeError
deriving DecidableEq, Repr

/-- The digit loop of `strconv.ParseUint(s, 10, 64)`, with `n` the number read so far. The
characters are taken one by one: a character that is not a decimal digit ends the loop
with a syntax error, and a digit that takes the number beyond 64 bits ends it with a
range error, whatever follows. -/
def parseUintLoop : List Char → Nat → ParseUintResult
  | [], n => .ok n
  | c :: rest, n =>
    if c.isDigit then
      (if 1844674407370955162 ≤ n then .rangeError
       else if 18446744073709551615 < n * 10 + (c.toNat - 48) then .rangeError
       else parseUintLoop rest (n * 10 + (c.toNat - 48)))
    else .syntaxError

/-- The value of `strconv.Atoi(s)` on a platform with 64-bit `int`, the error being
dropped as `UnmarshalJSON` does: an optional sign and decimal digits give their number, a
number beyond the `int` range gives the nearest end of the range, and a syntax error (no
digit at all, or a character that is not a digit) gives zero. -/
def Atoi (s : String) : Int :=
  let neg : Bool := s.toList.head? = some '-'
  let digits : List Char :=
    if s.toList.head? = some '-' ∨ s.toList.head? = some '+' then s.toList.tail
    else s.toList
  if digits = [] then 0
  else
    match parseUintLoop digits 0 with
    | .syntaxError => 0
    | .rangeError => if neg then -9223372036854775808 else 9223372036854775807
    | .ok un =>
      if neg then (if 9223372036854775808 < un then -9223372036854775808 else -(un : Int))
      else (if 9223372036854775808 ≤ un then 9223372036854775807 else (un : Int))

/-- The result of an `int64` operation whose exact result is `x`: the value wraps around
(two's complement). -/
def wrap64 (x : Int) : Int :=
  (x + 9223372036854775808) % 18446744073709551616 - 9223372036854775808

/-- The constant `time.Second`, in nanoseconds. -/
def Second : Int := 1000000000

/-- The constant `time.Minute`, in nanoseconds. -/
def Minute : Int := 60 * Second

/-- The constant `time.Hour`, in nanoseconds. -/
def Hour : Int := 60 * Minute

/-- PlayTime is used in at least Sonarr, maybe other places. Holds a string duration
converted from hh:mm:ss. `Duration` is the embedded `time.Duration`, an `int64` count of
nanoseconds. -/
structure PlayTime where
  Original : String
  Duration : Int
deriving DecidableEq, Repr

/-- The zero value of `PlayTime`. -/
def PlayTime.zero : PlayTime := { Original := "", Duration := 0 }

/-- UnmarshalJSON parses a run time duration in format hh:mm:ss. The receiver `d` is
updated in place; the result is the receiver after the call and the error returned, which
is always nil. -/
def PlayTime.UnmarshalJSON (d : PlayTime) (b : String) : PlayTime × Option GoError :=
  let original := trimQuotes b
  let d := { d with Original := original }
  let d :=
    match splitColon original with
    | [p0, p1, p2] =>
      let h := Atoi (String.mk p0)
      let m := Atoi (String.mk p1)
      let s := Atoi (String.mk p2)
      { d with Duration :=
          wrap64 (wrap64 (wrap64 (Hour * h) + wrap64 (Minute * m)) + wrap64 (Second * s)) }
    | [p0, p1] =>
      let m := Atoi (String.mk p0)
      let s := Atoi (String.mk p1)
      { d with Duration := wrap64 (wrap64 (Minute * m) + wrap64 (Second * s)) }
    | [p0] =>
      let s := Atoi (String.mk p0)
      { d with Duration := wrap64 (d.Duration + wrap64 (Second * s)) }
    | _ => d
  (d, none)

/-- The method `MarshalJSON` of `PlayTime`: the original text between double quotes, and
a nil error. -/
def PlayTime.MarshalJSON (d : PlayTime) : String × Option GoError :=
  ("\"" ++ d.Original ++ "\"", none)

/-- The characters of a text after its sign, if it starts with one. -/
def unsignedPart (s : String) : List Char :=
  if s.toList.head? = some '-' ∨ s.toList.head? = some '+' then s.toList.tail else s.toList

/-- Whether a text is an integer written in base 10: an optional sign, then one or more
decimal digits. -/
def isBase10 (s : String) : Bool :=
  !(unsignedPart s).isEmpty && (unsignedPart s).all Char.isDigit

/-- The integer that a text written in base 10 denotes. -/
def base10Value (s : String) : Int :=
  if s.toList.head? = some '-' then -(decimalValue (unsignedPart s) : Int)
  else (decimalValue (unsignedPart s) : Int)

/-- The number made by the digits of a text that come after its sign and before its first
character that is not a digit. -/
def leadingDigitsValue (s : String) : Nat :=
  decimalValue ((unsignedPart s).takeWhile Char.isDigit)

/-- What a component of the text counts for, in the words of the specification: zero when
it is not a valid base-10 integer, and otherwise the number `strconv.Atoi` reads. -/
def countedValue (s : String) : Int :=
  if isBase10 s then Atoi s else 0

/-- Whether an integer fits in a signed 64-bit integer. -/
def fitsInt64 (x : Int) : Prop :=
  -9223372036854775808 ≤ x ∧ x ≤ 9223372036854775807

/-! ## Decoding a response body -/

/-- The text of an `UnmarshalTypeError` that names no struct field, as `encoding/json`
prints it. -/
def UnmarshalTypeError.Error (e : UnmarshalTypeError) : String :=
  "json: cannot unmarshal " ++ e.Value ++ " into Go value of type " ++ e.Type'

/-- Modelled from the spec: the decoding step of the request engine, missing from the
sources. "On success, decodes the response body into the destination": the body is read
as JSON by `parse` (`none` for a text that is not JSON) and the value is handed to
`decode`, the decoder of the destination type, which starts from a fresh destination; an
error of either step is the decode error of the call. -/
def decodeBody {α : Type} (parse : String → Option JSON)
    (decode : JSON → α × Option UnmarshalTypeError) (body : String) : Except String α :=
  match parse body with
  | none => .error "invalid character in JSON input"
  | some j =>
    match decode j with
    | (v, none) => .ok v
    | (_, some e) => .error e.Error

/-! ## The calendar time layout -/

/-- CalendarTimeFilterFormat is the Go time format the calendar expects the filter to be
in. -/
def CalendarTimeFilterFormat : String := "2006-01-02T03:04:05.000Z"

/-- A time in UTC by its calendar and clock fields, as the methods `Year`, `Month`,
`Day`, `Hour`, `Minute`, `Second` and `Nanosecond` of `time.Time` give them. -/
structure UTCTime where
  Year : Nat
  Month : Nat
  Day : Nat
  Hour : Nat
  Minute : Nat
  Second : Nat
  Nanosecond : Nat
deriving DecidableEq, Repr

/-- The elements of a Go time layout that `CalendarTimeFilterFormat` is made of, and the
24-hour clock `15`. The other elements of the layout language (names of months and days,
zones, fields without padding) do not occur in it and are not modelled. -/
inductive Chunk where
  | literal (c : Char)
  | stdLongYear
  | stdZeroMonth
  | stdZeroDay
  | stdHour
  | stdZeroHour12
  | stdZeroMinute
  | stdZeroSecond
  | stdFracSecond0 (digits : Nat)
deriving DecidableEq, Repr

/-- The number of leading `0` characters of a text, and the text after them. -/
def spanZeros : List Char → Nat × List Char
  | [] => (0, [])
  | c :: rest =>
    if c = '0' then ((spanZeros rest).1 + 1, (spanZeros rest).2) else (0, c :: rest)

/-- The layout cut into its elements, as `nextStdChunk` of package `time` finds them from
left to right: `2006` is the year, `01` to `05` are month, day, hour on the 12-hour
clock, minute and second with two digits, `15` is the hour on the 24-hour clock, a point
followed by zeros and then by no digit is the fraction of a second with that many digits,
and any other character stands for itself. `fuel` bounds the number of elements. -/
def layoutChunks : Nat → List Char → List Chunk
  | 0, _ => []
  | _, [] => []
  | fuel + 1, c :: rest =>
    if c = '2' ∧ rest.take 3 = ['0', '0', '6'] then
      .stdLongYear :: layoutChunks fuel (rest.drop 3)
    else if c = '0' ∧ rest.head? = some '1' then .stdZeroMonth :: layoutChunks fuel rest.tail
    else if c = '0' ∧ rest.head? = some '2' then .stdZeroDay :: layoutChunks fuel rest.tail
    else if c = '0' ∧ rest.head? = some '3' then .stdZeroHour12 :: layoutChunks fuel rest.tail
    else if c = '0' ∧ rest.head? = some '4' then .stdZeroMinute :: layoutChunks fuel rest.tail
    else if c = '0' ∧ rest.head? = some '5' then .stdZeroSecond :: layoutChunks fuel rest.tail
    else if c = '1' ∧ rest.head? = some '5' then .stdHour :: layoutChunks fuel rest.tail
    else if c = '.' ∧ rest.head? = some '0' ∧
        ¬ ((spanZeros rest).2.head?.any Char.isDigit) then
      .stdFracSecond0 (spanZeros rest).1 :: layoutChunks fuel (spanZeros rest).2
    else .literal c :: layoutChunks fuel rest

/-- A number in decimal, padded with zeros on the left to at least `width` digits
(`appendInt`). -/
def appendInt (x width : Nat) : String :=
  String.mk (List.replicate (width - (toString x).length) '0') ++ toString x

/-- The text one element of the layout stands for at the time `t`. The hour of the
12-hour clock is the hour modulo 12, with 12 in place of 0. -/
def Chunk.format (t : UTCTime) : Chunk → String
  | .literal c => String.mk [c]
  | .stdLongYear => appendInt t.Year 4
  | .stdZeroMonth => appendInt t.Month 2
  | .stdZeroDay => appendInt t.Day 2
  | .stdHour => appendInt t.Hour 2
  | .stdZeroHour12 => appendInt (if t.Hour % 12 = 0 then 12 else t.Hour % 12) 2
  | .stdZeroMinute => appendInt t.Minute 2
  | .stdZeroSecond => appendInt t.Second 2
  | .stdFracSecond0 n => "." ++ appendInt (t.Nanosecond / 10 ^ (9 - n)) n

/-- The method `Format` of `time.Time` for a time in UTC and a layout made of the
elements of `Chunk`. -/
def UTCTime.Format (t : UTCTime) (layout : String) : String :=
  String.join ((layoutChunks layout.length layout.toList).map (Chunk.format t))

/-- Whether the fields are those of a time of day on a calendar date: month 1 to 12, day
1 to 31, hour below 24, minute and second below 60, a whole number of milliseconds below
one second. -/
def UTCTime.valid (t : UTCTime) : Bool :=
  1 ≤ t.Month && t.Month ≤ 12 && 1 ≤ t.Day && t.Day ≤ 31 && t.Hour < 24 &&
    t.Minute < 60 && t.Second < 60 && t.Nanosecond < 1000000000 &&
    t.Nanosecond % 1000000 = 0

/-! # Theorems -/

/-! ## Rendering lemmas -/

@[simp] theorem render_null : JSON.null.render = "null" := by rw [JSON.render]

@[simp] theorem render_bool (b : Bool) :
    (JSON.bool b).render = if b then "true" else "false" := by
  cases b <;> rw [JSON.render] <;> rfl

@[simp] theorem render_num (n : JNumber) : (JSON.num n).render = n.render := by
  rw [JSON.render]

@[simp] theorem render_str (s : String) : (JSON.str s).render = appendString s := by
  rw [JSON.render]

@[simp] theorem render_arr (xs : List JSON) :
    (JSON.arr xs).render = "[" ++ renderElems xs ++ "]" := by
  rw [JSON.render]

@[simp] theorem render_obj (kvs : List (String × JSON)) :
    (JSON.obj kvs).render = "\x7b" ++ renderMembers kvs ++ "\x7d" := by
  rw [JSON.render]

theorem renderMembers_one (k : String) (v : JSON) :
    renderMembers [(k, v)] = appendString k ++ ":" ++ v.render := by
  rw [renderMembers]

theorem renderMembers_two (k : String) (v : JSON) (k2 : String) (v2 : JSON) :
    renderMembers [(k, v), (k2, v2)]
      = appendString k ++ ":" ++ v.render ++ "," ++ (appendString k2 ++ ":" ++ v2.render) := by
  rw [renderMembers, renderMembers_one]

theorem isEmptyValue_eq_false {v : InputValue} (hv : v ≠ .nil) : isEmptyValue v = false := by
  cases v <;> simp_all [isEmptyValue]

/-- Text of a `FieldInput` with a nil value: the `value` member is left out. -/
theorem marshal_nil (name : String) :
    FieldInput.marshal ⟨name, .nil⟩ = "\x7b\"name\":" ++ appendString name ++ "\x7d" := by
  have h : appendString "name" = "\"name\"" := by decide
  simp only [FieldInput.marshal, FieldInput.toJSON, isEmptyValue, if_true, render_obj,
    renderMembers_one, render_str, h]
  apply String.ext
  simp [String.data_append]

/-- Text of a `FieldInput` with a non-nil value. -/
theorem marshal_value (name : String) (v : InputValue) (hv : v ≠ .nil) :
    FieldInput.marshal ⟨name, v⟩
      = "\x7b\"name\":" ++ appendString name ++ ",\"value\":" ++ v.toJSON.render ++ "\x7d" := by
  have h : appendString "name" = "\"name\"" := by decide
  have h2 : appendString "value" = "\"value\"" := by decide
  simp only [FieldInput.marshal, FieldInput.toJSON, isEmptyValue_eq_false hv, render_obj,
    renderMembers_two, render_str, h, h2, Bool.false_eq_true, if_false]
  apply String.ext
  simp [String.data_append]

/-! ## FieldInput on the wire -/

/-- C1: the serialization of a `FieldInput` has a `value` member if and only if `Value`
is non-nil. A nil `Value` gives exactly the object with the single member `name`, with no
`value` member and no `null`; any other `Value` gives the object with the members `name`
and `value`. In particular `false`, `0`, the empty string and the float zero are
transmitted, and so is a nil pointer held in the interface, which is written as
`"value":null`. -/
theorem fieldInput_value_member_iff_nonnil (f : FieldInput) :
    ("value" ∈ f.toJSON.keys ↔ f.Value ≠ .nil) ∧
    f.toJSON =
      (if f.Value = .nil then .obj [("name", .str f.Name)]
       else .obj [("name", .str f.Name), ("value", f.Value.toJSON)]) ∧
    f.marshal =
      (if f.Value = .nil then "\x7b\"name\":" ++ appendString f.Name ++ "\x7d"
       else "\x7b\"name\":" ++ appendString f.Name ++ ",\"value\":"
              ++ f.Value.toJSON.render ++ "\x7d") ∧
    FieldInput.marshal ⟨f.Name, .bool false⟩
      = "\x7b\"name\":" ++ appendString f.Name ++ ",\"value\":false\x7d" ∧
    FieldInput.marshal ⟨f.Name, .int 0⟩
      = "\x7b\"name\":" ++ appendString f.Name ++ ",\"value\":0\x7d" ∧
    FieldInput.marshal ⟨f.Name, .str ""⟩
      = "\x7b\"name\":" ++ appendString f.Name ++ ",\"value\":\"\"\x7d" ∧
    FieldInput.marshal ⟨f.Name, .float ⟨false, 0, -1074⟩⟩
      = "\x7b\"name\":" ++ appendString f.Name ++ ",\"value\":0\x7d" ∧
    FieldInput.marshal ⟨f.Name, .nilPointer⟩
      = "\x7b\"name\":" ++ appendString f.Name ++ ",\"value\":null\x7d" := by
  obtain ⟨name, v⟩ := f
  refine ⟨?_, ?_, ?_, ?_, ?_, ?_, ?_, ?_⟩
  · cases v <;> simp [FieldInput.toJSON, isEmptyValue, JSON.keys]
  · cases v <;> simp [FieldInput.toJSON, isEmptyValue]
  · by_cases hv : v = .nil
    · subst hv
      simp only [if_true]
      exact marshal_nil name
    · simp only [hv, if_false]
      exact marshal_value name v hv
  · rw [marshal_value name (.bool false) (by simp)]
    apply String.ext
    simp [String.data_append, InputValue.toJSON]
  · rw [marshal_value name (.int 0) (by simp)]
    have h0 : (JNumber.ofInt 0).render = "0" := by decide
    apply String.ext
    simp [String.data_append, InputValue.toJSON, h0]
  · rw [marshal_value name (.str "") (by simp)]
    have h0 : appendString "" = "\"\"" := by decide
    apply String.ext
    simp [String.data_append, InputValue.toJSON, h0]
  · rw [marshal_value name (.float ⟨false, 0, -1074⟩) (by simp)]
    have h0 : (formatFloat ⟨false, 0, -1074⟩).render = "0" := by decide
    apply String.ext
    simp [String.data_append, InputValue.toJSON, h0]
  · rw [marshal_value name .nilPointer (by simp)]
    apply String.ext
    simp [String.data_append, InputValue.toJSON]

/-- C2: a boolean `Value` is written as the JSON literal `true` or `false`: the member is
a JSON boolean, never a JSON string, and `false` is not dropped. -/
theorem fieldInput_bool_literal (name : String) (b : Bool) :
    FieldInput.toJSON ⟨name, .bool b⟩ = .obj [("name", .str name), ("value", .bool b)] ∧
    FieldInput.marshal ⟨name, .bool b⟩
      = "\x7b\"name\":" ++ appendString name ++ ",\"value\":"
          ++ (if b then "true" else "false") ++ "\x7d" ∧
    (∀ s : String, FieldInput.toJSON ⟨name, .bool b⟩
      ≠ .obj [("name", .str name), ("value", .str s)]) ∧
    FieldInput.marshal ⟨name, .bool false⟩
      = "\x7b\"name\":" ++ appendString name ++ ",\"value\":false\x7d" := by
  refine ⟨?_, ?_, ?_, ?_⟩
  · simp [FieldInput.toJSON, isEmptyValue, InputValue.toJSON]
  · rw [marshal_value name (.bool b) (by simp)]
    simp [InputValue.toJSON]
  · intro s
    simp [FieldInput.toJSON, isEmptyValue, InputValue.toJSON]
  · rw [marshal_value name (.bool false) (by simp)]
    apply String.ext
    simp [String.data_append, InputValue.toJSON]

theorem digitChar_spec : ∀ d : Fin 10,
    (Nat.digitChar d.val).isDigit = true ∧ (Nat.digitChar d.val).toNat - 48 = d.val := by
  decide

theorem digitChar_mod (n : Nat) :
    (Nat.digitChar (n % 10)).isDigit = true ∧ (Nat.digitChar (n % 10)).toNat - 48 = n % 10 :=
  digitChar_spec ⟨n % 10, Nat.mod_lt _ (by decide)⟩

theorem toDigitsCore_isDigit (fuel : Nat) : ∀ (n : Nat) (acc : List Char),
    (∀ c ∈ acc, c.isDigit = true) → ∀ c ∈ Nat.toDigitsCore 10 fuel n acc, c.isDigit = true := by
  induction fuel with
  | zero => intro n acc h; simpa [Nat.toDigitsCore] using h
  | succ fuel ih =>
    intro n acc h
    have hd := (digitChar_mod n).1
    simp only [Nat.toDigitsCore]
    split
    · intro c hc
      rcases List.mem_cons.1 hc with rfl | hc
      · exact hd
      · exact h c hc
    · apply ih
      intro c hc
      rcases List.mem_cons.1 hc with rfl | hc
      · exact hd
      · exact h c hc

theorem foldl_decimal (cs : List Char) : ∀ a : Nat,
    cs.foldl (fun acc c => 10 * acc + (c.toNat - 48)) a = a * 10 ^ cs.length + decimalValue cs := by
  induction cs with
  | nil => intro a; simp [decimalValue]
  | cons c cs ih =>
    intro a
    simp only [List.foldl_cons, List.length_cons, decimalValue]
    rw [ih, ih (10 * 0 + (c.toNat - 48))]
    ring

theorem decimalValue_cons (c : Char) (cs : List Char) :
    decimalValue (c :: cs) = (c.toNat - 48) * 10 ^ cs.length + decimalValue cs := by
  simp only [decimalValue, List.foldl_cons]
  rw [foldl_decimal]
  simp [decimalValue]

theorem toDigitsCore_value (fuel : Nat) : ∀ (n : Nat) (acc : List Char), n < fuel →
    decimalValue (Nat.toDigitsCore 10 fuel n acc) = n * 10 ^ acc.length + decimalValue acc := by
  induction fuel with
  | zero => intro n acc h; omega
  | succ fuel ih =>
    intro n acc h
    have hd := (digitChar_mod n).2
    simp only [Nat.toDigitsCore]
    split
    · rename_i h0
      rw [decimalValue_cons, hd]
      have : n % 10 = n := by omega
      rw [this]
    · rename_i h0
      rw [ih (n / 10) _ (by omega), decimalValue_cons, hd, List.length_cons, pow_succ]
      have hn : n = 10 * (n / 10) + n % 10 := (Nat.div_add_mod n 10).symm
      generalize n / 10 = q at hn ⊢
      generalize n % 10 = r at hn ⊢
      subst hn
      ring

theorem toString_nat_toList (k : Nat) : (toString k).toList = Nat.toDigits 10 k := rfl

theorem toString_nat_isDigit (k : Nat) : ∀ c ∈ (toString k).toList, c.isDigit = true := by
  rw [toString_nat_toList]
  exact toDigitsCore_isDigit _ _ _ (by simp)

theorem toString_nat_value (k : Nat) : decimalValue (toString k).toList = k := by
  rw [toString_nat_toList, Nat.toDigits, toDigitsCore_value _ _ _ (by omega)]
  simp [decimalValue]

theorem render_ofInt (n : Int) :
    (JNumber.ofInt n).render = (if n < 0 then "-" else "") ++ toString n.natAbs := by
  simp [JNumber.render, JNumber.ofInt]

/-- C3: an integer `Value` is written as a JSON number literal in base 10: an optional
minus sign followed by decimal digits that denote the magnitude, with no quotes, no
fraction part and no exponent part. -/
theorem fieldInput_int_base10 (name : String) (n : Int) :
    FieldInput.toJSON ⟨name, .int n⟩
      = .obj [("name", .str name),
          ("value", .num { neg := decide (n < 0), int := n.natAbs, frac := [], exp := none })] ∧
    FieldInput.marshal ⟨name, .int n⟩
      = "\x7b\"name\":" ++ appendString name ++ ",\"value\":"
          ++ ((if n < 0 then "-" else "") ++ toString n.natAbs) ++ "\x7d" ∧
    (∀ c ∈ (toString n.natAbs).toList, c.isDigit = true) ∧
    decimalValue (toString n.natAbs).toList = n.natAbs ∧
    FieldInput.marshal ⟨name, .int 9091⟩
      = "\x7b\"name\":" ++ appendString name ++ ",\"value\":9091\x7d" := by
  refine ⟨?_, ?_, toString_nat_isDigit _, toString_nat_value _, ?_⟩
  · simp [FieldInput.toJSON, isEmptyValue, InputValue.toJSON, JNumber.ofInt]
  · rw [marshal_value name (.int n) (by simp)]
    simp only [InputValue.toJSON, render_num, render_ofInt]
  · rw [marshal_value name (.int 9091) (by simp)]
    have h0 : (JNumber.ofInt 9091).render = "9091" := by decide
    apply String.ext
    simp [String.data_append, InputValue.toJSON, h0]

theorem intercalate_cons_cons (s a b : String) (rest : List String) :
    s.intercalate (a :: b :: rest) = a ++ s ++ s.intercalate (b :: rest) := by
  have go_append : ∀ (l : List String) (acc t : String),
      String.intercalate.go (acc ++ t) s l = acc ++ String.intercalate.go t s l := by
    intro l
    induction l with
    | nil => intro acc t; simp [String.intercalate.go]
    | cons x l ih =>
      intro acc t
      simp only [String.intercalate.go]
      rw [← ih]
      simp only [String.append_assoc]
  simp only [String.intercalate, String.intercalate.go]
  rw [← go_append, String.append_assoc]

theorem renderElems_eq_intercalate (xs : List JSON) :
    renderElems xs = ",".intercalate (xs.map JSON.render) := by
  induction xs with
  | nil => rw [renderElems]; rfl
  | cons x rest ih =>
    cases rest with
    | nil => rw [renderElems]; simp [String.intercalate, String.intercalate.go]
    | cons y rest =>
      rw [renderElems, ih]
      simp only [List.map_cons]
      rw [intercalate_cons_cons]

theorem ofInt_injective {n m : Int} (h : JNumber.ofInt n = JNumber.ofInt m) : n = m := by
  simp only [JNumber.ofInt, JNumber.mk.injEq, decide_eq_decide, and_true] at h
  omega

theorem toJSON_injective {f g : FieldInput} (hf : f.Value.isPlain = true)
    (hg : g.Value.isPlain = true) (h : f.toJSON = g.toJSON) : f = g := by
  obtain ⟨fn, fv⟩ := f
  obtain ⟨gn, gv⟩ := g
  cases fv <;> cases gv <;>
    simp [FieldInput.toJSON, isEmptyValue, InputValue.toJSON, InputValue.isPlain]
      at h hf hg ⊢ <;>
    first
      | exact h
      | exact ⟨h.1, h.2⟩
      | exact ⟨h.1, ofInt_injective h.2⟩

theorem map_toJSON_injective : ∀ (gs fs : List FieldInput),
    (∀ f ∈ fs, f.Value.isPlain = true) → (∀ g ∈ gs, g.Value.isPlain = true) →
    gs.map FieldInput.toJSON = fs.map FieldInput.toJSON → gs = fs := by
  intro gs
  induction gs with
  | nil =>
    intro fs _ _ h
    cases fs with
    | nil => rfl
    | cons f fs => simp at h
  | cons g gs ih =>
    intro fs hf hg h
    cases fs with
    | nil => simp at h
    | cons f fs =>
      simp only [List.map_cons, List.cons.injEq] at h
      have e1 : g = f :=
        toJSON_injective (hg g (List.mem_cons_self _ _)) (hf f (List.mem_cons_self _ _)) h.1
      have e2 : gs = fs :=
        ih fs (fun x hx => hf x (List.mem_cons_of_mem _ hx))
          (fun x hx => hg x (List.mem_cons_of_mem _ hx)) h.2
      rw [e1, e2]

theorem toJSON_name (f : FieldInput) :
    ∃ rest, f.toJSON = .obj (("name", .str f.Name) :: rest) := by
  simp [FieldInput.toJSON]

theorem map_toJSON_names : ∀ (gs fs : List FieldInput),
    gs.map FieldInput.toJSON = fs.map FieldInput.toJSON →
    gs.map FieldInput.Name = fs.map FieldInput.Name := by
  intro gs
  induction gs with
  | nil =>
    intro fs h
    cases fs with
    | nil => rfl
    | cons f fs => simp at h
  | cons g gs ih =>
    intro fs h
    cases fs with
    | nil => simp at h
    | cons f fs =>
      simp only [List.map_cons, List.cons.injEq] at h ⊢
      refine ⟨?_, ih fs h.2⟩
      have h1 := h.1
      simp only [FieldInput.toJSON, JSON.obj.injEq, List.cons.injEq, Prod.mk.injEq,
        JSON.str.injEq, true_and] at h1
      exact h1.1

/-- C7: the `fields` array of a request has one element per `FieldInput` entry, in the
order of the list: element `i` is the object of entry `i`, whose members are `name` and
then `value`; the text is the comma-separated texts of the entries between brackets. Two
lists that give the same array have the same length and the same names in the same
order, and are the same list when their values are nil, booleans, integers or strings,
so no entry is moved, merged or dropped. -/
theorem fields_array_keeps_order (fs : List FieldInput) :
    (∃ xs, fieldsToJSON fs = .arr xs ∧ xs.length = fs.length ∧
      ∀ i : Nat, xs[i]? = fs[i]?.map FieldInput.toJSON) ∧
    marshalFields fs = "[" ++ ",".intercalate (fs.map FieldInput.marshal) ++ "]" ∧
    (∀ f ∈ fs, f.toJSON.keys = ["name"] ∨ f.toJSON.keys = ["name", "value"]) ∧
    (∀ gs, fieldsToJSON gs = fieldsToJSON fs →
      gs.length = fs.length ∧ gs.map FieldInput.Name = fs.map FieldInput.Name ∧
      ((∀ f ∈ fs, f.Value.isPlain = true) → (∀ g ∈ gs, g.Value.isPlain = true) →
        gs = fs)) := by
  refine ⟨⟨fs.map FieldInput.toJSON, rfl, by simp, ?_⟩, ?_, ?_, ?_⟩
  · intro i
    simp
  · simp only [marshalFields, fieldsToJSON, render_arr, renderElems_eq_intercalate,
      List.map_map]
    rfl
  · intro f _
    obtain ⟨name, v⟩ := f
    cases v <;> simp [FieldInput.toJSON, isEmptyValue, JSON.keys]
  · intro gs h
    simp only [fieldsToJSON, JSON.arr.injEq] at h
    refine ⟨?_, map_toJSON_names gs fs h, fun hf hg => map_toJSON_injective gs fs hf hg h⟩
    have := congrArg List.length h
    simpa using this

/-- Witness for C7: two fields of the download client of the tests, whose values are a
string and an integer. -/
theorem fields_array_keeps_order_witness :
    (∀ f ∈ [(⟨"host", .str "transmission"⟩ : FieldInput), ⟨"port", .int 9091⟩],
      f.Value.isPlain = true) ∧
    ([(⟨"host", .str "transmission"⟩ : FieldInput), ⟨"port", .int 9091⟩]
      = [⟨"host", .str "transmission"⟩, ⟨"port", .int 9091⟩]) :=
  ⟨by decide,
   ((fields_array_keeps_order [⟨"host", .str "transmission"⟩, ⟨"port", .int 9091⟩]).2.2.2
      [⟨"host", .str "transmission"⟩, ⟨"port", .int 9091⟩] rfl).2.2
      (by decide) (by decide)⟩

/-! ## Rounding to float64 -/

theorem bitLenAux_spec (fuel : Nat) : ∀ n : Nat, n ≤ fuel → 0 < n →
    0 < bitLenAux fuel n ∧ 2 ^ (bitLenAux fuel n - 1) ≤ n ∧ n < 2 ^ bitLenAux fuel n := by
  induction fuel with
  | zero => intro n h h0; omega
  | succ fuel ih =>
    intro n h h0
    have hn : n ≠ 0 := by omega
    simp only [bitLenAux, hn, if_false]
    by_cases h2 : n / 2 = 0
    · have h1 : n = 1 := by omega
      subst h1
      cases fuel <;> simp [bitLenAux]
    · obtain ⟨hp, hl, hu⟩ := ih (n / 2) (by omega) (by omega)
      refine ⟨by omega, ?_, ?_⟩
      · have : bitLenAux fuel (n / 2) + 1 - 1 = (bitLenAux fuel (n / 2) - 1) + 1 := by omega
        rw [this, pow_succ]
        omega
      · rw [pow_succ]
        omega

theorem bitLen_spec (n : Nat) (h0 : 0 < n) :
    0 < bitLen n ∧ 2 ^ (bitLen n - 1) ≤ n ∧ n < 2 ^ bitLen n :=
  bitLenAux_spec n n (le_refl n) h0

theorem bitLen_le_of_lt_pow {n k : Nat} (h0 : 0 < n) (h : n < 2 ^ k) : bitLen n ≤ k := by
  obtain ⟨hp, hl, _⟩ := bitLen_spec n h0
  by_contra hc
  have : 2 ^ k ≤ 2 ^ (bitLen n - 1) := Nat.pow_le_pow_right (by decide) (by omega)
  omega

theorem binaryExponent_one (n : Nat) (h0 : 0 < n) :
    binaryExponent n 1 = (bitLen n : Int) - 1 := by
  obtain ⟨hp, hl, _⟩ := bitLen_spec n h0
  have h1 : bitLen 1 = 1 := by decide
  have hk : (0 : Int) ≤ (bitLen n : Int) - 1 := by omega
  have ht : ((bitLen n : Int) - 1).toNat = bitLen n - 1 := by omega
  simp only [binaryExponent, h1, Nat.cast_one, hk, if_true, ht, one_mul, hl]

theorem divRoundHalfEven_one (a : Nat) : divRoundHalfEven a 1 = a := by
  simp [divRoundHalfEven, Nat.mod_one]

theorem divRoundHalfEven_le (a b : Nat) : divRoundHalfEven a b ≤ a / b + 1 := by
  simp only [divRoundHalfEven]
  split
  · omega
  · split
    · omega
    · split <;> omega

theorem roundFloat64_exact (n : Nat) (h : n ≤ 2 ^ 53) : roundFloat64 n 1 = some (n : ℚ) := by
  by_cases h0 : n = 0
  · subst h0; simp [roundFloat64]
  · have hpos : 0 < n := by omega
    by_cases htop : n = 2 ^ 53
    · subst htop
      decide!
    · have hlt : n < 2 ^ 53 := by omega
      have hb := bitLen_le_of_lt_pow hpos hlt
      obtain ⟨hp, _, _⟩ := bitLen_spec n hpos
      have he : max (binaryExponent n 1 - 52) (-1074) = (bitLen n : Int) - 53 := by
        rw [binaryExponent_one n hpos]; omega
      simp only [roundFloat64, h0, if_false, he]
      by_cases hz : (0 : Int) ≤ (bitLen n : Int) - 53
      · have hb53 : bitLen n = 53 := by omega
        have ht : ((bitLen n : Int) - 53).toNat = 0 := by omega
        have hno : ¬ (2 ^ 1024 ≤ n) :=
          Nat.not_le.2 (Nat.lt_of_lt_of_le hlt (Nat.pow_le_pow_right (Nat.succ_pos 1) (by omega)))
        simp [hz, ht, divRoundHalfEven_one, hno]
      · have hsplit : ¬ ((0 : Int) ≤ (bitLen n : Int) - 53 ∧
            2 ^ 1024 ≤ divRoundHalfEven (n * 2 ^ (-((bitLen n : Int) - 53)).toNat) 1
              * 2 ^ ((bitLen n : Int) - 53).toNat) := fun hc => hz hc.1
        simp only [hz, if_false, hsplit, divRoundHalfEven_one]
        have hne : ((2 ^ (-((bitLen n : Int) - 53)).toNat : Nat) : ℚ) ≠ 0 := by positivity
        rw [Nat.cast_mul]
        field_simp

/-! ## Member binding -/

theorem keyMatches_other {k a b : String} (h : keyMatches k a = true)
    (hab : foldName a ≠ foldName b) : keyMatches k b = false := by
  simp only [keyMatches, decide_eq_true_eq, decide_eq_false_iff_not] at h ⊢
  rw [h]
  exact hab

/-- A member bound to `value` is decoded onto `Value` and touches nothing else. -/
theorem setMember_value (o : FieldOutput) (k : String) (j : JSON)
    (h : keyMatches k "value" = true) :
    FieldOutput.setMember o k j
      = ({ o with Value := (decodeInterface o.Value j).1 }, (decodeInterface o.Value j).2) := by
  simp only [FieldOutput.setMember, h, if_true,
    keyMatches_other h (show foldName "value" ≠ foldName "advanced" by decide),
    keyMatches_other h (show foldName "value" ≠ foldName "order" by decide),
    keyMatches_other h (show foldName "value" ≠ foldName "helpLink" by decide),
    keyMatches_other h (show foldName "value" ≠ foldName "helpText" by decide),
    keyMatches_other h (show foldName "value" ≠ foldName "hidden" by decide),
    keyMatches_other h (show foldName "value" ≠ foldName "label" by decide),
    keyMatches_other h (show foldName "value" ≠ foldName "name" by decide),
    keyMatches_other h (show foldName "value" ≠ foldName "selectOptionsProviderAction" by decide),
    keyMatches_other h (show foldName "value" ≠ foldName "type" by decide),
    keyMatches_other h (show foldName "value" ≠ foldName "privacy" by decide),
    Bool.false_eq_true, if_false]

/-- A member not bound to `value` leaves `Value` as it was. -/
theorem setMember_value_unchanged (o : FieldOutput) (k : String) (j : JSON)
    (h : keyMatches k "value" = false) :
    (FieldOutput.setMember o k j).1.Value = o.Value := by
  simp only [FieldOutput.setMember, apply_ite Prod.fst, apply_ite FieldOutput.Value, h,
    Bool.false_eq_true, if_false, ite_self]

/-- A member bound to `selectOptions` is decoded onto `SelectOptions`. -/
theorem setMember_selectOptions (o : FieldOutput) (k : String) (j : JSON)
    (h : keyMatches k "selectOptions" = true) :
    (FieldOutput.setMember o k j).1.SelectOptions
      = (decodeSlice (decodePtr SelectOption.decode SelectOption.zero) none
          "[]*starr.SelectOption" o.SelectOptions j).1 := by
  simp only [FieldOutput.setMember, h, if_true,
    keyMatches_other h (show foldName "selectOptions" ≠ foldName "advanced" by decide),
    keyMatches_other h (show foldName "selectOptions" ≠ foldName "order" by decide),
    keyMatches_other h (show foldName "selectOptions" ≠ foldName "helpLink" by decide),
    keyMatches_other h (show foldName "selectOptions" ≠ foldName "helpText" by decide),
    keyMatches_other h (show foldName "selectOptions" ≠ foldName "hidden" by decide),
    keyMatches_other h (show foldName "selectOptions" ≠ foldName "label" by decide),
    keyMatches_other h (show foldName "selectOptions" ≠ foldName "name" by decide),
    keyMatches_other h
      (show foldName "selectOptions" ≠ foldName "selectOptionsProviderAction" by decide),
    keyMatches_other h (show foldName "selectOptions" ≠ foldName "type" by decide),
    keyMatches_other h (show foldName "selectOptions" ≠ foldName "privacy" by decide),
    keyMatches_other h (show foldName "selectOptions" ≠ foldName "value" by decide),
    Bool.false_eq_true, if_false]

/-- A member not bound to `selectOptions` leaves `SelectOptions` as it was. -/
theorem setMember_selectOptions_unchanged (o : FieldOutput) (k : String) (j : JSON)
    (h : keyMatches k "selectOptions" = false) :
    (FieldOutput.setMember o k j).1.SelectOptions = o.SelectOptions := by
  simp only [FieldOutput.setMember, apply_ite Prod.fst, apply_ite FieldOutput.SelectOptions,
    h, Bool.false_eq_true, if_false, ite_self]

theorem decode_obj (cur : FieldOutput) (kvs : List (String × JSON)) :
    FieldOutput.decode cur (.obj kvs)
      = kvs.foldl (fun acc kv =>
          let r := FieldOutput.setMember acc.1 kv.1 kv.2; (r.1, saveError acc.2 r.2))
          (cur, none) := rfl

theorem loop_value_unchanged (kvs : List (String × JSON))
    (h : ∀ kv ∈ kvs, keyMatches kv.1 "value" = false) :
    ∀ acc : FieldOutput × Option UnmarshalTypeError,
      (kvs.foldl (fun acc kv =>
          let r := FieldOutput.setMember acc.1 kv.1 kv.2; (r.1, saveError acc.2 r.2))
          acc).1.Value = acc.1.Value := by
  induction kvs with
  | nil => intro acc; rfl
  | cons kv rest ih =>
    intro acc
    rw [List.foldl_cons, ih (fun x hx => h x (List.mem_cons_of_mem _ hx))]
    exact setMember_value_unchanged _ _ _ (h kv (List.mem_cons_self _ _))

theorem loop_selectOptions_unchanged (kvs : List (String × JSON))
    (h : ∀ kv ∈ kvs, keyMatches kv.1 "selectOptions" = false) :
    ∀ acc : FieldOutput × Option UnmarshalTypeError,
      (kvs.foldl (fun acc kv =>
          let r := FieldOutput.setMember acc.1 kv.1 kv.2; (r.1, saveError acc.2 r.2))
          acc).1.SelectOptions = acc.1.SelectOptions := by
  induction kvs with
  | nil => intro acc; rfl
  | cons kv rest ih =>
    intro acc
    rw [List.foldl_cons, ih (fun x hx => h x (List.mem_cons_of_mem _ hx))]
    exact setMember_selectOptions_unchanged _ _ _ (h kv (List.mem_cons_self _ _))

theorem saveError_isSome_right (a b : Option UnmarshalTypeError) (h : b.isSome = true) :
    (saveError a b).isSome = true := by
  cases a <;> simp [saveError, h]

theorem saveError_isSome_left (a b : Option UnmarshalTypeError) (h : a.isSome = true) :
    (saveError a b).isSome = true := by
  cases a <;> simp_all [saveError]

theorem loop_error_kept (kvs : List (String × JSON)) :
    ∀ acc : FieldOutput × Option UnmarshalTypeError, acc.2.isSome = true →
      (kvs.foldl (fun acc kv =>
          let r := FieldOutput.setMember acc.1 kv.1 kv.2; (r.1, saveError acc.2 r.2))
          acc).2.isSome = true := by
  induction kvs with
  | nil => intro acc h; exact h
  | cons kv rest ih =>
    intro acc h
    rw [List.foldl_cons]
    exact ih _ (saveError_isSome_left _ _ h)

/-- Decoding of an object whose last member bound to `value` holds `j`: `Value` is the
result of decoding `j`, whatever comes before. -/
theorem unmarshal_last_value (pre post : List (String × JSON)) (k : String) (j : JSON)
    (hk : keyMatches k "value" = true)
    (hpost : ∀ kv ∈ post, keyMatches kv.1 "value" = false) :
    (FieldOutput.unmarshal (.obj (pre ++ (k, j) :: post))).1.Value = (decodeAny j).1 := by
  rw [FieldOutput.unmarshal, decode_obj, List.foldl_append, List.foldl_cons,
    loop_value_unchanged post hpost]
  simp only [setMember_value _ _ _ hk]
  rfl

/-- Decoding of an object with exactly one member bound to `value`: `Value` is the result
of decoding that member into the nil interface. -/
theorem unmarshal_single_value (pre post : List (String × JSON)) (k : String) (j : JSON)
    (hk : keyMatches k "value" = true)
    (hpost : ∀ kv ∈ post, keyMatches kv.1 "value" = false) :
    (FieldOutput.unmarshal (.obj (pre ++ (k, j) :: post))).1.Value
      = (decodeInterface .nil j).1 :=
  unmarshal_last_value pre post k j hk hpost

/-- A member bound to `value` that cannot be decoded makes the whole decode fail. -/
theorem unmarshal_value_error (pre post : List (String × JSON)) (k : String) (j : JSON)
    (hk : keyMatches k "value" = true)
    (hpre : ∀ kv ∈ pre, keyMatches kv.1 "value" = false)
    (herr : (decodeInterface .nil j).2.isSome = true) :
    (FieldOutput.unmarshal (.obj (pre ++ (k, j) :: post))).2.isSome = true := by
  rw [FieldOutput.unmarshal, decode_obj, List.foldl_append, List.foldl_cons]
  apply loop_error_kept
  simp only [setMember_value _ _ _ hk]
  rw [loop_value_unchanged pre hpre]
  exact saveError_isSome_right _ _ herr

/-- Decoding of an object with no member bound to `value` leaves `Value` nil. -/
theorem unmarshal_no_value (kvs : List (String × JSON))
    (h : ∀ kv ∈ kvs, keyMatches kv.1 "value" = false) :
    (FieldOutput.unmarshal (.obj kvs)).1.Value = .nil := by
  rw [FieldOutput.unmarshal, decode_obj, loop_value_unchanged kvs h]
  rfl

theorem roundFloat64_isSome (n : Nat) (h : n ≤ 2 ^ 64) : ∃ x, roundFloat64 n 1 = some x := by
  by_cases h0 : n = 0
  · exact ⟨0, by simp [roundFloat64, h0]⟩
  · have hpos : 0 < n := by omega
    have hb : bitLen n ≤ 65 := bitLen_le_of_lt_pow hpos (by omega)
    obtain ⟨hp, _, _⟩ := bitLen_spec n hpos
    have he : max (binaryExponent n 1 - 52) (-1074) = (bitLen n : Int) - 53 := by
      rw [binaryExponent_one n hpos]; omega
    simp only [roundFloat64, h0, if_false, he]
    by_cases hz : (0 : Int) ≤ (bitLen n : Int) - 53
    · have hle : ((bitLen n : Int) - 53).toNat ≤ 12 := by omega
      have hpw : 2 ^ ((bitLen n : Int) - 53).toNat ≤ 2 ^ 12 :=
        Nat.pow_le_pow_right (Nat.succ_pos 1) hle
      have hm := divRoundHalfEven_le n (1 * 2 ^ ((bitLen n : Int) - 53).toNat)
      have hno : ¬ (2 ^ 1024 ≤
          divRoundHalfEven n (1 * 2 ^ ((bitLen n : Int) - 53).toNat)
            * 2 ^ ((bitLen n : Int) - 53).toNat) := by
        apply Nat.not_le.2
        have h1 : divRoundHalfEven n (1 * 2 ^ ((bitLen n : Int) - 53).toNat)
            * 2 ^ ((bitLen n : Int) - 53).toNat
            ≤ (n / (1 * 2 ^ ((bitLen n : Int) - 53).toNat) + 1)
              * 2 ^ ((bitLen n : Int) - 53).toNat := Nat.mul_le_mul_right _ hm
        have h2 : (n / (1 * 2 ^ ((bitLen n : Int) - 53).toNat) + 1)
              * 2 ^ ((bitLen n : Int) - 53).toNat ≤ n + 2 ^ 12 := by
          rw [one_mul, Nat.add_mul, one_mul]
          exact Nat.add_le_add (Nat.div_mul_le_self _ _) hpw
        have h3 : n + 2 ^ 12 < 2 ^ 65 := by omega
        have h4 : (2 : Nat) ^ 65 ≤ 2 ^ 1024 := Nat.pow_le_pow_right (Nat.succ_pos 1) (by omega)
        exact Nat.lt_of_lt_of_le (Nat.lt_of_le_of_lt (le_trans h1 h2) h3) h4
      simp only [hz, true_and, hno, if_false, if_true]
      exact ⟨_, rfl⟩
    · have hsplit : ¬ ((0 : Int) ≤ (bitLen n : Int) - 53 ∧
          2 ^ 1024 ≤ divRoundHalfEven (n * 2 ^ (-((bitLen n : Int) - 53)).toNat) 1
            * 2 ^ ((bitLen n : Int) - 53).toNat) := fun hc => hz hc.1
      simp only [hz, if_false, hsplit]
      exact ⟨_, rfl⟩

theorem parseFloat64_ofInt (n : Int) :
    parseFloat64 (JNumber.ofInt n)
      = (roundFloat64 n.natAbs 1).map fun x => if n < 0 then -x else x := by
  simp [parseFloat64, JNumber.ofInt, JNumber.exponent, JNumber.mantissa, digitsValue]

/-- An integer of magnitude at most `2 ^ 53` is read back as the float64 of that value. -/
theorem parseFloat64_ofInt_exact (n : Int) (h : n.natAbs ≤ 2 ^ 53) :
    parseFloat64 (JNumber.ofInt n) = some (n : ℚ) := by
  rw [parseFloat64_ofInt, roundFloat64_exact _ h]
  simp only [Option.map_some']
  congr 1
  by_cases hn : n < 0
  · simp only [hn, if_true]
    have h1 : (n.natAbs : Int) = -n := by omega
    rw [← Int.cast_natCast, h1, Int.cast_neg, neg_neg]
  · simp only [hn, if_false]
    have h1 : (n.natAbs : Int) = n := by omega
    rw [← Int.cast_natCast, h1]

/-- Every Go integer (from `math.MinInt64` to `math.MaxUint64`) is read back as some
float64. -/
theorem parseFloat64_ofInt_isSome (n : Int) (h : n.natAbs ≤ 2 ^ 64) :
    ∃ x, parseFloat64 (JNumber.ofInt n) = some x := by
  obtain ⟨x, hx⟩ := roundFloat64_isSome _ h
  rw [parseFloat64_ofInt, hx]
  exact ⟨_, rfl⟩

/-! ## FieldOutput off the wire -/

theorem decodeAny_num_isFloat64 (n : JNumber) :
    (decodeAny (.num n)).1.isFloat64 = true := by
  rw [decodeAny]
  cases parseFloat64 n <;> rfl

/-- C4: decoding a `FieldOutput` object keeps the JSON type of the member bound to
`value` (the last one, should there be several; names are matched up to letter case): a
string gives a Go string, `true`/`false` a Go bool, and a number a `float64`, never a
string: the nearest float64 when the number is in range (an integer of magnitude at most
`2 ^ 53`, such as 9091, exactly itself) and the infinity of its sign when it is not (such
as `1e400`). Without a member bound to `value`, `Value` is nil. -/
theorem fieldOutput_value_keeps_type (pre post : List (String × JSON)) (k : String) (j : JSON)
    (hk : keyMatches k "value" = true)
    (hpost : ∀ kv ∈ post, keyMatches kv.1 "value" = false) :
    (∀ s, j = .str s →
      (FieldOutput.unmarshal (.obj (pre ++ (k, j) :: post))).1.Value = .str s) ∧
    (∀ b, j = .bool b →
      (FieldOutput.unmarshal (.obj (pre ++ (k, j) :: post))).1.Value = .bool b) ∧
    (∀ n, j = .num n →
      (FieldOutput.unmarshal (.obj (pre ++ (k, j) :: post))).1.Value.isFloat64 = true ∧
      ∀ s, (FieldOutput.unmarshal (.obj (pre ++ (k, j) :: post))).1.Value ≠ .str s) ∧
    (∀ n x, j = .num n → parseFloat64 n = some x →
      (FieldOutput.unmarshal (.obj (pre ++ (k, j) :: post))).1.Value = .float64 x) ∧
    (∀ n, j = .num n → parseFloat64 n = none →
      (FieldOutput.unmarshal (.obj (pre ++ (k, j) :: post))).1.Value = .inf n.neg) ∧
    (∀ n : Int, n.natAbs ≤ 2 ^ 53 → j = .num (JNumber.ofInt n) →
      (FieldOutput.unmarshal (.obj (pre ++ (k, j) :: post))).1.Value = .float64 (n : ℚ)) ∧
    (∀ kvs : List (String × JSON), (∀ kv ∈ kvs, keyMatches kv.1 "value" = false) →
      (FieldOutput.unmarshal (.obj kvs)).1.Value = .nil) ∧
    (FieldOutput.unmarshal
        (.obj [("name", .str "port"),
               ("value", .num { neg := false, int := 1, frac := [], exp := some 400 })])).1.Value
      = .inf false := by
  have hv := unmarshal_last_value pre post k j hk hpost
  refine ⟨?_, ?_, ?_, ?_, ?_, ?_, ?_, ?_⟩
  · intro s hj
    rw [hv, hj]
    simp [decodeAny]
  · intro b hj
    rw [hv, hj]
    simp [decodeAny]
  · intro n hj
    rw [hv, hj]
    have h := decodeAny_num_isFloat64 n
    refine ⟨h, ?_⟩
    intro s hs
    rw [hs] at h
    exact Bool.noConfusion h
  · intro n x hj hx
    rw [hv, hj]
    simp [decodeAny, hx]
  · intro n hj hx
    rw [hv, hj]
    simp [decodeAny, hx]
  · intro n hn hj
    rw [hv, hj]
    simp [decodeAny, parseFloat64_ofInt_exact n hn]
  · intro kvs h
    exact unmarshal_no_value kvs h
  · decide!

/-- Witness for C4: the `port` field of the download client test body, whose number 9091
is decoded as `float64(9091)`. -/
theorem fieldOutput_value_keeps_type_witness :
    keyMatches "value" "value" = true ∧
    (∀ kv ∈ [("type", JSON.str "textbox"), ("advanced", JSON.bool false)],
        keyMatches kv.1 "value" = false) ∧
    (FieldOutput.unmarshal
        (.obj ([("order", .num (JNumber.ofInt 1)), ("name", .str "port"),
                ("label", .str "Port")]
          ++ ("value", .num (JNumber.ofInt 9091))
              :: [("type", .str "textbox"), ("advanced", .bool false)]))).1.Value
      = .float64 ((9091 : Int) : ℚ) :=
  ⟨by decide, by decide,
   (fieldOutput_value_keeps_type
      [("order", .num (JNumber.ofInt 1)), ("name", .str "port"), ("label", .str "Port")]
      [("type", .str "textbox"), ("advanced", .bool false)]
      "value" (.num (JNumber.ofInt 9091))
      (by decide) (by decide)).2.2.2.2.2.1 9091 (by decide) rfl⟩

/-- C6 (as a counterexample): an empty `selectOptions` array and an absent
`selectOptions` member do not decode to the same sequence. The empty array gives an empty
slice, the absent member leaves the slice nil. -/
theorem selectOptions_empty_differs_from_absent :
    (FieldOutput.unmarshal
        (.obj [("name", .str "host"), ("selectOptions", .arr [])])).1.SelectOptions = some [] ∧
    (FieldOutput.unmarshal (.obj [("name", .str "host")])).1.SelectOptions = none ∧
    (FieldOutput.unmarshal
        (.obj [("name", .str "host"), ("selectOptions", .arr [])])).1.SelectOptions
      ≠ (FieldOutput.unmarshal (.obj [("name", .str "host")])).1.SelectOptions := by
  decide

/-- C6 (amended): for a list-valued member such as `selectOptions`, the empty array
decodes to an empty, non-nil slice, while an object without the member (or with `null`
in its place) leaves the slice nil; both have length zero, so ranging over either one
visits no element. The same holds for a whole `fields` array. -/
theorem selectOptions_empty_and_absent (pre post : List (String × JSON)) (k : String)
    (hk : keyMatches k "selectOptions" = true)
    (hpre : ∀ kv ∈ pre, keyMatches kv.1 "selectOptions" = false)
    (hpost : ∀ kv ∈ post, keyMatches kv.1 "selectOptions" = false) :
    (FieldOutput.unmarshal (.obj (pre ++ (k, .arr []) :: post))).1.SelectOptions = some [] ∧
    (FieldOutput.unmarshal (.obj (pre ++ (k, .null) :: post))).1.SelectOptions = none ∧
    (FieldOutput.unmarshal (.obj (pre ++ post))).1.SelectOptions = none ∧
    sliceLen (FieldOutput.unmarshal (.obj (pre ++ (k, .arr []) :: post))).1.SelectOptions = 0 ∧
    sliceLen (FieldOutput.unmarshal (.obj (pre ++ post))).1.SelectOptions = 0 ∧
    unmarshalFields (.arr []) = (some [], none) ∧
    unmarshalFields .null = (none, none) := by
  have h1 : (FieldOutput.unmarshal (.obj (pre ++ (k, .arr []) :: post))).1.SelectOptions
      = some [] := by
    rw [FieldOutput.unmarshal, decode_obj, List.foldl_append, List.foldl_cons,
      loop_selectOptions_unchanged post hpost]
    simp only [setMember_selectOptions _ _ _ hk]
    rfl
  have h2 : (FieldOutput.unmarshal (.obj (pre ++ (k, .null) :: post))).1.SelectOptions
      = none := by
    rw [FieldOutput.unmarshal, decode_obj, List.foldl_append, List.foldl_cons,
      loop_selectOptions_unchanged post hpost]
    simp only [setMember_selectOptions _ _ _ hk]
    rfl
  have h3 : (FieldOutput.unmarshal (.obj (pre ++ post))).1.SelectOptions = none := by
    rw [FieldOutput.unmarshal, decode_obj, loop_selectOptions_unchanged]
    · rfl
    · intro kv hkv
      rcases List.mem_append.1 hkv with h | h
      · exact hpre kv h
      · exact hpost kv h
  refine ⟨h1, h2, h3, ?_, ?_, rfl, rfl⟩
  · rw [h1]; rfl
  · rw [h3]; rfl

/-- Witness for C6: the `host` field of the download client test body, with and without
an empty `selectOptions` array. -/
theorem selectOptions_empty_and_absent_witness :
    keyMatches "selectOptions" "selectOptions" = true ∧
    (∀ kv ∈ [("name", JSON.str "host"), ("value", JSON.str "transmission")],
        keyMatches kv.1 "selectOptions" = false) ∧
    (∀ kv ∈ [("type", JSON.str "textbox")], keyMatches kv.1 "selectOptions" = false) ∧
    (FieldOutput.unmarshal
        (.obj ([("name", .str "host"), ("value", .str "transmission")]
          ++ ("selectOptions", .arr []) :: [("type", .str "textbox")]))).1.SelectOptions
      = some [] ∧
    (FieldOutput.unmarshal
        (.obj ([("name", .str "host"), ("value", .str "transmission")]
          ++ [("type", .str "textbox")]))).1.SelectOptions = none :=
  ⟨by decide, by decide, by decide,
   (selectOptions_empty_and_absent
      [("name", .str "host"), ("value", .str "transmission")] [("type", .str "textbox")]
      "selectOptions" (by decide) (by decide) (by decide)).1,
   (selectOptions_empty_and_absent
      [("name", .str "host"), ("value", .str "transmission")] [("type", .str "textbox")]
      "selectOptions" (by decide) (by decide) (by decide)).2.2.1⟩

/-! ## Request errors -/

/-- C8: matching one request error against another succeeds exactly when the status
codes are equal; message and underlying cause play no part, and wrapping the error with
context does not change the outcome. -/
theorem reqError_is_iff_code (a b : ReqError) :
    (errorsIs (.req a) b = true ↔ a.Code = b.Code) ∧
    (∀ msg cause msg2 cause2,
      errorsIs (.req { a with Msg := msg, Err := cause }) { b with Msg := msg2, Err := cause2 }
        = errorsIs (.req a) b) ∧
    (∀ context, errorsIs (.wrap context (.req a)) b = errorsIs (.req a) b) := by
  refine ⟨?_, ?_, ?_⟩
  · simp [errorsIs, ReqError.Is]
  · intro msg cause msg2 cause2
    simp [errorsIs, ReqError.Is]
  · intro context
    simp [errorsIs]

/-- C9: a response is a success, its body handed to the decoder, exactly when its status
code lies in 200..299; any other status code `c` gives a request error whose code is
`c`, so no such response is reported as a success. -/
theorem classify_success_iff_2xx (resp : Response) :
    (classify (.response resp) = .ok resp.Body
      ↔ 200 ≤ resp.StatusCode ∧ resp.StatusCode ≤ 299) ∧
    (¬ (200 ≤ resp.StatusCode ∧ resp.StatusCode ≤ 299) →
      ∃ r : ReqError, classify (.response resp) = .error (.req r)
        ∧ r.Code = resp.StatusCode) ∧
    ((∃ e, classify (.response resp) = .error e)
      ↔ ¬ (200 ≤ resp.StatusCode ∧ resp.StatusCode ≤ 299)) ∧
    classify (.response { StatusCode := 200, Body := resp.Body }) = .ok resp.Body ∧
    classify (.response { StatusCode := 201, Body := resp.Body }) = .ok resp.Body := by
  refine ⟨?_, ?_, ?_, ?_, ?_⟩
  · by_cases h : 200 ≤ resp.StatusCode ∧ resp.StatusCode ≤ 299 <;> simp [classify, h]
  · intro h
    exact ⟨{ Code := resp.StatusCode, Msg := resp.Body, Err := none },
      by simp [classify, h], rfl⟩
  · by_cases h : 200 ≤ resp.StatusCode ∧ resp.StatusCode ≤ 299 <;> simp [classify, h]
  · simp [classify]
  · simp [classify]

/-- C10: a typed call that ends in an error returns a nil result: whenever the error is
set the result is `none`, and whenever a result is returned the error is nil. For the
answer 404 with body `{"message": "NotFound"}` the result is nil and the error matches
`ReqError{Code: 404}`. -/
theorem callInto_error_gives_nil {α : Type} (context : String)
    (decode : String → Except String α) (x : Exchange) :
    ((callInto context decode x).2.isSome = true → (callInto context decode x).1 = none) ∧
    ((callInto context decode x).1.isSome = true → (callInto context decode x).2 = none) ∧
    ((callInto context decode x).1 = none → (callInto context decode x).2.isSome = true) ∧
    (callInto context decode
        (.response { StatusCode := 404, Body := "\x7b\"message\": \"NotFound\"\x7d" })).1 = none ∧
    (∃ e, (callInto context decode
        (.response { StatusCode := 404, Body := "\x7b\"message\": \"NotFound\"\x7d" })).2 = some e
      ∧ errorsIs e { Code := 404, Msg := "", Err := none } = true) := by
  refine ⟨?_, ?_, ?_, ?_, ?_⟩
  · unfold callInto
    cases classify x with
    | error e => simp
    | ok body => cases h : decode body <;> simp [h]
  · unfold callInto
    cases classify x with
    | error e => simp
    | ok body => cases h : decode body <;> simp [h]
  · unfold callInto
    cases classify x with
    | error e => simp
    | ok body => cases h : decode body <;> simp [h]
  · simp [callInto, classify]
  · refine ⟨.wrap context (.req ⟨404, "\x7b\"message\": \"NotFound\"\x7d", none⟩), ?_, ?_⟩
    · simp [callInto, classify]
    · simp [errorsIs, ReqError.Is]

/-! ## No line feed in the compact text -/

theorem noLF_append {a b : String} (ha : NoLF a) (hb : NoLF b) : NoLF (a ++ b) := by
  simp only [NoLF, String.data_append, List.mem_append, not_or] at *
  exact ⟨ha, hb⟩

theorem noLF_foldl (l : List String) (h : ∀ s ∈ l, NoLF s) :
    ∀ init : String, NoLF init → NoLF (l.foldl (fun a b => a ++ b) init) := by
  induction l with
  | nil => intro init hi; exact hi
  | cons x rest ih =>
    intro init hi
    rw [List.foldl_cons]
    exact ih (fun s hs => h s (List.mem_cons_of_mem _ hs)) _
      (noLF_append hi (h x (List.mem_cons_self _ _)))

theorem noLF_join (l : List String) (h : ∀ s ∈ l, NoLF s) : NoLF (String.join l) :=
  noLF_foldl l h "" (by simp [NoLF])

theorem noLF_of_isDigit (s : String) (h : ∀ c ∈ s.toList, c.isDigit = true) : NoLF s := by
  intro hmem
  have := h '\n' hmem
  revert this
  decide

theorem noLF_toString_nat (k : Nat) : NoLF (toString k) :=
  noLF_of_isDigit _ (toString_nat_isDigit k)

theorem noLF_toString_int (i : Int) : NoLF (toString i) := by
  cases i with
  | ofNat m => exact noLF_toString_nat m
  | negSucc m =>
    show NoLF ("-" ++ toString (m + 1))
    exact noLF_append (by unfold NoLF; decide) (noLF_toString_nat _)

theorem hexDigit_ne_lf : ∀ n : Fin 16, hexDigit n.val ≠ '\n' := by decide

theorem noLF_escapeChar (c : Char) : NoLF (escapeChar c) := by
  unfold escapeChar
  split
  · unfold NoLF; decide
  split
  · unfold NoLF; decide
  split
  · unfold NoLF; decide
  split
  · unfold NoLF; decide
  split
  · unfold NoLF; decide
  rename_i hlf
  split
  · unfold NoLF; decide
  split
  · unfold NoLF; decide
  split
  · rename_i h8
    apply noLF_append (by unfold NoLF; decide)
    have hlt : c.toNat / 16 < 16 := by
      rcases h8 with h | h | h | h
      · omega
      · subst h; decide
      · subst h; decide
      · subst h; decide
    have hm : c.toNat % 16 < 16 := Nat.mod_lt _ (by decide)
    have a1 := hexDigit_ne_lf ⟨_, hlt⟩
    have a2 := hexDigit_ne_lf ⟨_, hm⟩
    simp only [NoLF, List.mem_cons, List.mem_singleton, List.not_mem_nil, or_false, not_or]
    exact ⟨fun h => a1 h.symm, fun h => a2 h.symm⟩
  split
  · unfold NoLF; decide
  split
  · unfold NoLF; decide
  · simp only [NoLF, List.mem_singleton]
    exact fun h => hlf h.symm

theorem noLF_appendString (s : String) : NoLF (appendString s) := by
  unfold appendString
  refine noLF_append (noLF_append (by unfold NoLF; decide) (noLF_join _ ?_))
    (by unfold NoLF; decide)
  intro t ht
  obtain ⟨c, _, rfl⟩ := List.mem_map.1 ht
  exact noLF_escapeChar c

theorem noLF_renderNumber (n : JNumber) : NoLF n.render := by
  unfold JNumber.render
  refine noLF_append (noLF_append (noLF_append ?_ (noLF_toString_nat _)) ?_) ?_
  · split <;> (unfold NoLF; decide)
  · split
    · unfold NoLF; decide
    · refine noLF_append (by unfold NoLF; decide) (noLF_join _ ?_)
      intro t ht
      obtain ⟨d, _, rfl⟩ := List.mem_map.1 ht
      exact noLF_toString_nat _
  · split
    · unfold NoLF; decide
    · refine noLF_append (noLF_append (by unfold NoLF; decide) ?_) (noLF_toString_nat _)
      split <;> (unfold NoLF; decide)

mutual
theorem noLF_render : ∀ j : JSON, NoLF j.render
  | .null => by rw [render_null]; unfold NoLF; decide
  | .bool b => by rw [render_bool]; cases b <;> (unfold NoLF; decide)
  | .num n => by rw [render_num]; exact noLF_renderNumber n
  | .str s => by rw [render_str]; exact noLF_appendString s
  | .arr xs => by
    rw [render_arr]
    exact noLF_append (noLF_append (by unfold NoLF; decide) (noLF_renderElems xs))
      (by unfold NoLF; decide)
  | .obj kvs => by
    rw [render_obj]
    exact noLF_append (noLF_append (by unfold NoLF; decide) (noLF_renderMembers kvs))
      (by unfold NoLF; decide)
theorem noLF_renderElems : ∀ xs : List JSON, NoLF (renderElems xs)
  | [] => by rw [renderElems]; unfold NoLF; decide
  | [x] => by rw [renderElems]; exact noLF_render x
  | x :: y :: rest => by
    rw [renderElems]
    exact noLF_append (noLF_append (noLF_render x) (by unfold NoLF; decide))
      (noLF_renderElems (y :: rest))
theorem noLF_renderMembers : ∀ kvs : List (String × JSON), NoLF (renderMembers kvs)
  | [] => by rw [renderMembers]; unfold NoLF; decide
  | [(k, v)] => by
    rw [renderMembers]
    exact noLF_append (noLF_append (noLF_appendString k) (by unfold NoLF; decide))
      (noLF_render v)
  | (k, v) :: m :: rest => by
    rw [renderMembers]
    exact noLF_append
      (noLF_append
        (noLF_append (noLF_append (noLF_appendString k) (by unfold NoLF; decide))
          (noLF_render v))
        (by unfold NoLF; decide))
      (noLF_renderMembers (m :: rest))
end

/-! ## Typed inputs: request body and RemotePathMapping -/

theorem renderMembers_cons (k : String) (v : JSON) (m : String × JSON)
    (rest : List (String × JSON)) :
    renderMembers ((k, v) :: m :: rest)
      = appendString k ++ ":" ++ v.render ++ "," ++ renderMembers (m :: rest) := by
  rw [renderMembers]

theorem requestBody_count_lf (j : JSON) : (requestBody j).data.count '\n' = 1 := by
  have h : List.count '\n' j.render.data = 0 := List.count_eq_zero.2 (noLF_render j)
  simp [requestBody, String.data_append, List.count_append, h]

/-- C13: the body of a POST or PUT call is the compact JSON object of the typed input
followed by one line feed: the members are the fields that are not both `omitempty` and
empty, in declaration order, and the line feed at the end is the only one in the body. -/
theorem requestBody_compact_object_newline (fields : List StructField) :
    requestBody (encodeStruct fields) = (encodeStruct fields).render ++ "\n" ∧
    (requestBody (encodeStruct fields)).data.count '\n' = 1 ∧
    (requestBody (encodeStruct fields)).data.getLast? = some '\n' ∧
    NoLF (encodeStruct fields).render ∧
    (encodeStruct fields).keys
      = (fields.filter fun f => !(f.omitEmpty && f.isEmpty)).map StructField.name ∧
    List.Sublist (encodeStruct fields).keys (fields.map StructField.name) ∧
    (∀ f ∈ fields, (f.omitEmpty = false ∨ f.isEmpty = false) →
      f.name ∈ (encodeStruct fields).keys) ∧
    (∀ (v r : String) (id : Int) (q : url.Values),
      (addRequest v r (encodeStruct fields) q).body
        = some ((encodeStruct fields).render ++ "\n") ∧
      (updateRequest v r id (encodeStruct fields) q).body
        = some ((encodeStruct fields).render ++ "\n")) ∧
    requestBody (RemotePathMapping.toJSON
        { ID := 0, Host := "transmission", RemotePath := "/remote/", LocalPath := "/local/" })
      = "\x7b\"host\":\"transmission\",\"remotePath\":\"/remote/\",\"localPath\":\"/local/\"\x7d\n" := by
  have hkeys : (encodeStruct fields).keys
      = (fields.filter fun f => !(f.omitEmpty && f.isEmpty)).map StructField.name := by
    simp only [encodeStruct, JSON.keys, List.map_map]
    rfl
  refine ⟨rfl, requestBody_count_lf _, ?_, noLF_render _, hkeys, ?_, ?_,
    fun _ _ _ _ => ⟨rfl, rfl⟩, by decide⟩
  · simp [requestBody, String.data_append]
  · rw [hkeys]
    exact List.Sublist.map _ (List.filter_sublist _)
  · intro f hf hkept
    rw [hkeys]
    refine List.mem_map.2 ⟨f, List.mem_filter.2 ⟨hf, ?_⟩, rfl⟩
    rcases hkept with h | h <;> simp [h]

theorem remotePathMapping_toJSON (m : RemotePathMapping) :
    m.toJSON =
      (if m.ID = 0 then
        .obj [("host", .str m.Host), ("remotePath", .str m.RemotePath),
              ("localPath", .str m.LocalPath)]
       else
        .obj [("id", .num (JNumber.ofInt m.ID)), ("host", .str m.Host),
              ("remotePath", .str m.RemotePath), ("localPath", .str m.LocalPath)]) := by
  by_cases h : m.ID = 0 <;>
    simp [RemotePathMapping.toJSON, RemotePathMapping.fields, encodeStruct,
      StructField.kept, h]

/-- C14: the serialization of a `RemotePathMapping` has the members `id`, `host`,
`remotePath`, `localPath` in that order; `id` is present exactly when `ID` is not zero,
the three others always, also when they are empty. -/
theorem remotePathMapping_serialization (m : RemotePathMapping) :
    m.toJSON.keys
      = (if m.ID = 0 then ["host", "remotePath", "localPath"]
         else ["id", "host", "remotePath", "localPath"]) ∧
    ("id" ∈ m.toJSON.keys ↔ m.ID ≠ 0) ∧
    ("host" ∈ m.toJSON.keys ∧ "remotePath" ∈ m.toJSON.keys ∧ "localPath" ∈ m.toJSON.keys) ∧
    m.marshal =
      (if m.ID = 0 then
        "\x7b\"host\":" ++ appendString m.Host ++ ",\"remotePath\":"
          ++ appendString m.RemotePath ++ ",\"localPath\":" ++ appendString m.LocalPath
          ++ "\x7d"
       else
        "\x7b\"id\":" ++ ((if m.ID < 0 then "-" else "") ++ toString m.ID.natAbs)
          ++ ",\"host\":" ++ appendString m.Host ++ ",\"remotePath\":"
          ++ appendString m.RemotePath ++ ",\"localPath\":" ++ appendString m.LocalPath
          ++ "\x7d") ∧
    RemotePathMapping.marshal { ID := 2, Host := "", RemotePath := "", LocalPath := "" }
      = "\x7b\"id\":2,\"host\":\"\",\"remotePath\":\"\",\"localPath\":\"\"\x7d" := by
  have hid : appendString "id" = "\"id\"" := by decide
  have hhost : appendString "host" = "\"host\"" := by decide
  have hrp : appendString "remotePath" = "\"remotePath\"" := by decide
  have hlp : appendString "localPath" = "\"localPath\"" := by decide
  refine ⟨?_, ?_, ?_, ?_, by decide⟩
  · rw [remotePathMapping_toJSON]
    by_cases h : m.ID = 0 <;> simp [h, JSON.keys]
  · rw [remotePathMapping_toJSON]
    by_cases h : m.ID = 0 <;> simp [h, JSON.keys]
  · rw [remotePathMapping_toJSON]
    by_cases h : m.ID = 0 <;> simp [h, JSON.keys]
  · rw [RemotePathMapping.marshal, remotePathMapping_toJSON]
    by_cases h : m.ID = 0
    · simp only [h, if_true, render_obj, renderMembers_cons, renderMembers_one, render_str,
        hhost, hrp, hlp]
      apply String.ext
      simp [String.data_append]
    · simp only [h, if_false, render_obj, renderMembers_cons, renderMembers_one, render_str,
        render_num, render_ofInt, hid, hhost, hrp, hlp]
      apply String.ext
      simp [String.data_append]

/-! ## Path segments -/

theorem splitSegmentsAux_noSlash (l : List Char) (h : '/' ∉ l) : ∀ cur : List Char,
    splitSegmentsAux l cur = if cur ++ l = [] then [] else [cur ++ l] := by
  induction l with
  | nil => intro cur; simp [splitSegmentsAux]
  | cons c rest ih =>
    intro cur
    have hc : c ≠ '/' := fun hc => h (hc ▸ List.mem_cons_self _ _)
    have hr : '/' ∉ rest := fun hr => h (List.mem_cons_of_mem _ hr)
    simp only [splitSegmentsAux, hc, if_false]
    rw [ih hr]
    simp

theorem splitSegments_plainName (s : String) (h : isPlainName s = true) :
    splitSegments s = [s.toList] := by
  simp only [isPlainName, decide_eq_true_eq] at h
  rw [splitSegments, splitSegmentsAux_noSlash _ h.2]
  have h1 : ¬ (([] : List Char) ++ s.toList = []) := by simpa using h.1
  rw [if_neg h1]
  rfl

/-- A segment as the path builder writes it: not empty and without a slash. -/
theorem splitSegmentsAux_good (l : List Char) : ∀ cur : List Char, '/' ∉ cur →
    ∀ seg ∈ splitSegmentsAux l cur, seg ≠ [] ∧ '/' ∉ seg := by
  induction l with
  | nil =>
    intro cur hcur seg hseg
    simp only [splitSegmentsAux] at hseg
    split at hseg
    · simp at hseg
    · rename_i hne
      simp only [List.mem_singleton] at hseg
      subst hseg
      exact ⟨hne, hcur⟩
  | cons c rest ih =>
    intro cur hcur seg hseg
    simp only [splitSegmentsAux] at hseg
    split at hseg
    · split at hseg
      · exact ih [] (by simp) seg hseg
      · rename_i hne
        rcases List.mem_cons.1 hseg with h | h
        · subst h; exact ⟨hne, hcur⟩
        · exact ih [] (by simp) seg h
    · rename_i hc
      refine ih (cur ++ [c]) ?_ seg hseg
      simp only [List.mem_append, List.mem_singleton, not_or]
      exact ⟨hcur, fun h => hc h.symm⟩

theorem splitSegments_good (s : String) :
    ∀ seg ∈ splitSegments s, seg ≠ [] ∧ '/' ∉ seg :=
  splitSegmentsAux_good _ [] (by simp)

theorem toDigitsCore_ne_nil (fuel : Nat) : ∀ (n : Nat) (acc : List Char), acc ≠ [] →
    Nat.toDigitsCore 10 fuel n acc ≠ [] := by
  induction fuel with
  | zero => intro n acc h; simpa [Nat.toDigitsCore] using h
  | succ fuel ih =>
    intro n acc h
    simp only [Nat.toDigitsCore]
    split
    · simp
    · exact ih _ _ (by simp)

theorem toString_nat_ne_nil (k : Nat) : (toString k).toList ≠ [] := by
  rw [toString_nat_toList, Nat.toDigits]
  simp only [Nat.toDigitsCore]
  split
  · simp
  · exact toDigitsCore_ne_nil _ _ _ (by simp)

theorem toString_nat_noSlash (k : Nat) : '/' ∉ (toString k).toList := by
  intro h
  have := toString_nat_isDigit k '/' h
  revert this
  decide

theorem toString_int_good (i : Int) : (toString i).toList ≠ [] ∧ '/' ∉ (toString i).toList := by
  cases i with
  | ofNat m => exact ⟨toString_nat_ne_nil m, toString_nat_noSlash m⟩
  | negSucc m =>
    have h : (toString (Int.negSucc m)).toList = '-' :: (toString (m + 1)).toList := rfl
    rw [h]
    refine ⟨by simp, ?_⟩
    simp only [List.mem_cons, not_or]
    exact ⟨by decide, toString_nat_noSlash _⟩

theorem segments_good (e : Endpoint) : ∀ seg ∈ e.segments, seg ≠ [] ∧ '/' ∉ seg := by
  intro seg hseg
  simp only [Endpoint.segments, List.mem_append] at hseg
  rcases hseg with ((h | h) | h) | h
  · exact splitSegments_good _ seg h
  · exact splitSegments_good _ seg h
  · exact splitSegments_good _ seg h
  · split at h
    · simp at h
    · simp only [List.mem_singleton] at h
      subst h
      exact toString_int_good _

theorem joinSegments_toList (segs : List (List Char)) :
    (joinSegments segs).toList
      = if segs = [] then ['/'] else segs.flatMap fun seg => '/' :: seg := by
  unfold joinSegments
  split <;> rfl

theorem splitSegmentsAux_append (seg : List Char) (h : '/' ∉ seg) :
    ∀ (rest cur : List Char),
      splitSegmentsAux (seg ++ rest) cur = splitSegmentsAux rest (cur ++ seg) := by
  induction seg with
  | nil => intro rest cur; simp
  | cons c seg ih =>
    intro rest cur
    have hc : c ≠ '/' := fun hc => h (hc ▸ List.mem_cons_self _ _)
    have hr : '/' ∉ seg := fun hr => h (List.mem_cons_of_mem _ hr)
    simp only [List.cons_append, splitSegmentsAux, hc, if_false, List.append_eq]
    rw [ih hr]
    simp

theorem splitSegmentsAux_join (segs : List (List Char))
    (h : ∀ seg ∈ segs, seg ≠ [] ∧ '/' ∉ seg) : ∀ cur : List Char,
    splitSegmentsAux (segs.flatMap fun seg => '/' :: seg) cur
      = (if cur = [] then [] else [cur]) ++ segs := by
  induction segs with
  | nil => intro cur; simp [splitSegmentsAux]
  | cons seg rest ih =>
    intro cur
    obtain ⟨hne, hns⟩ := h seg (List.mem_cons_self _ _)
    have hrest := ih (fun s hs => h s (List.mem_cons_of_mem _ hs))
    simp only [List.flatMap_cons, List.cons_append, splitSegmentsAux, if_true,
      List.append_eq]
    rw [← List.flatMap_def, splitSegmentsAux_append seg hns, hrest]
    simp only [List.nil_append, hne, if_false, List.singleton_append]
    split <;> simp

theorem splitSegments_joinSegments (segs : List (List Char))
    (h : ∀ seg ∈ segs, seg ≠ [] ∧ '/' ∉ seg) :
    splitSegments (joinSegments segs) = segs := by
  rw [splitSegments, joinSegments_toList]
  split
  · rename_i hnil
    subst hnil
    simp [splitSegmentsAux]
  · rw [splitSegmentsAux_join segs h]
    simp

theorem noDoubleSlash_append (seg : List Char) (h : '/' ∉ seg) (rest : List Char)
    (hrest : ¬ ['/', '/'] <:+: rest) : ¬ ['/', '/'] <:+: seg ++ rest := by
  induction seg with
  | nil => simpa using hrest
  | cons c seg ih =>
    have hc : c ≠ '/' := fun hc => h (hc ▸ List.mem_cons_self _ _)
    have hr : '/' ∉ seg := fun hr => h (List.mem_cons_of_mem _ hr)
    rw [List.cons_append, List.infix_cons_iff]
    rintro (hp | hi)
    · obtain ⟨t, ht⟩ := hp
      simp only [List.cons_append, List.cons.injEq] at ht
      exact hc ht.1.symm
    · exact ih hr hi

theorem noDoubleSlash_join (segs : List (List Char))
    (h : ∀ seg ∈ segs, seg ≠ [] ∧ '/' ∉ seg) :
    ¬ ['/', '/'] <:+: segs.flatMap fun seg => '/' :: seg := by
  induction segs with
  | nil => simp
  | cons seg rest ih =>
    obtain ⟨hne, hns⟩ := h seg (List.mem_cons_self _ _)
    have hrest := ih (fun s hs => h s (List.mem_cons_of_mem _ hs))
    rw [List.flatMap_cons, List.cons_append, List.infix_cons_iff]
    rintro (hp | hi)
    · obtain ⟨t, ht⟩ := hp
      cases seg with
      | nil => exact hne rfl
      | cons c seg =>
        simp only [List.cons_append, List.cons.injEq, true_and] at ht
        exact hns (ht.1 ▸ List.mem_cons_self _ _)
    · exact noDoubleSlash_append seg hns _ hrest hi

/-- C18: for all components, with or without leading, trailing or doubled slashes, the
path is normalized: it starts with a slash, never contains two slashes in a row (so it
starts with exactly one), does not end with a slash unless it is the root, and read back
it has exactly the non-empty pieces of the API root, the version and the resource, in
that order, followed by the id when there is one: no separator is missing. -/
theorem path_is_normalized (e : Endpoint) :
    e.path.toList.head? = some '/' ∧
    ¬ ("//".toList <:+: e.path.toList) ∧
    splitSegments e.path = e.segments ∧
    e.segments = splitSegments e.apiRoot ++ splitSegments e.apiVersion
      ++ splitSegments e.resource ++ (if e.id = 0 then [] else [(toString e.id).toList]) ∧
    (∀ seg ∈ e.segments, seg ≠ [] ∧ '/' ∉ seg) ∧
    e.path = joinSegments e.segments ∧
    Endpoint.path { apiRoot := "/api/", apiVersion := "v3/", resource := "//rootFolder",
                    id := 0, queryParams := url.Values.empty } = "/api/v3/rootFolder" ∧
    Endpoint.path { apiRoot := "api", apiVersion := "v1", resource := "remotePathMapping",
                    id := 0, queryParams := url.Values.empty } = "/api/v1/remotePathMapping" := by
  have hgood := segments_good e
  refine ⟨?_, ?_, splitSegments_joinSegments _ hgood, rfl, hgood, rfl, by decide, by decide⟩
  · rw [Endpoint.path, joinSegments_toList]
    split
    · rfl
    · rename_i hne
      cases hs : e.segments with
      | nil => exact absurd hs hne
      | cons seg rest => simp
  · rw [Endpoint.path, joinSegments_toList]
    split
    · decide
    · exact noDoubleSlash_join _ hgood

/-! ## Paths of plain names -/

theorem joinSegments_of_ne_nil (segs : List (List Char)) (h : segs ≠ []) :
    joinSegments segs = String.mk (segs.flatMap fun seg => '/' :: seg) := by
  simp [joinSegments, h]

theorem joinSegments_append_singleton (segs : List (List Char)) (h : segs ≠ [])
    (s : String) :
    joinSegments (segs ++ [s.toList]) = joinSegments segs ++ "/" ++ s := by
  rw [joinSegments_of_ne_nil _ (by simp), joinSegments_of_ne_nil _ h]
  apply String.ext
  simp [String.data_append, List.flatMap_append]

theorem joinSegments_singleton (s : String) : joinSegments [s.toList] = "/" ++ s := by
  rw [joinSegments_of_ne_nil _ (by simp)]
  apply String.ext
  simp [String.data_append]

/-- The segments of an endpoint whose resource is a plain name. -/
theorem segments_plain_resource (e : Endpoint) (hr : isPlainName e.resource = true) :
    e.segments = (splitSegments e.apiRoot ++ splitSegments e.apiVersion ++ [e.resource.toList])
      ++ (if e.id = 0 then [] else [(toString e.id).toList]) := by
  rw [Endpoint.segments, splitSegments_plainName _ hr]

theorem path_collection (e : Endpoint) (hr : isPlainName e.resource = true)
    (h0 : e.id = 0) :
    e.path = (if splitSegments e.apiRoot ++ splitSegments e.apiVersion = [] then ""
              else joinSegments (splitSegments e.apiRoot ++ splitSegments e.apiVersion))
             ++ "/" ++ e.resource := by
  rw [Endpoint.path, segments_plain_resource e hr]
  simp only [h0, if_true, List.append_nil]
  split
  · rename_i hnil
    rw [hnil, List.nil_append, joinSegments_singleton]
    rfl
  · rename_i hne
    exact joinSegments_append_singleton _ hne _

theorem path_entity (e : Endpoint) (hr : isPlainName e.resource = true) (h0 : e.id ≠ 0) :
    e.path = Endpoint.path { e with id := 0 } ++ "/" ++ toString e.id := by
  rw [Endpoint.path, Endpoint.path, segments_plain_resource e hr,
    segments_plain_resource { e with id := 0 } hr]
  simp only [h0, if_false, if_true, List.append_nil]
  exact joinSegments_append_singleton _ (by simp) _

theorem path_of_plain_names (v r : String) (hv : isPlainName v = true)
    (hr : isPlainName r = true) (q : url.Values) :
    Endpoint.path { apiRoot := API, apiVersion := v, resource := r, id := 0,
                    queryParams := q } = "/api/" ++ v ++ "/" ++ r := by
  rw [path_collection _ hr rfl]
  have hapi : splitSegments API = ["api".toList] := by decide
  simp only [hapi, splitSegments_plainName v hv]
  rw [if_neg (by simp)]
  have : joinSegments (["api".toList] ++ [v.toList]) = "/api/" ++ v := by
    rw [joinSegments_append_singleton _ (by simp), joinSegments_singleton]
    rfl
  rw [this]

theorem path_of_plain_names_id (v r : String) (hv : isPlainName v = true)
    (hr : isPlainName r = true) (q : url.Values) (n : Int) (hn : n ≠ 0) :
    Endpoint.path { apiRoot := API, apiVersion := v, resource := r, id := n,
                    queryParams := q } = "/api/" ++ v ++ "/" ++ r ++ "/" ++ toString n := by
  rw [path_entity _ hr hn]
  simp only
  rw [path_of_plain_names v r hv hr q]

theorem toString_int (i : Int) :
    toString i = (if i < 0 then "-" else "") ++ toString i.natAbs := by
  cases i with
  | ofNat m =>
    have h : ¬ (Int.ofNat m < 0) := by simp
    simp only [h, if_false]
    show toString m = "" ++ toString m
    simp
  | negSucc m =>
    have h : Int.negSucc m < 0 := Int.negSucc_lt_zero m
    simp only [h, if_true]
    rfl

theorem digitChar_ne_zero : ∀ d : Fin 10, d.val ≠ 0 → Nat.digitChar d.val ≠ '0' := by
  decide

theorem toDigitsCore_head (fuel : Nat) : ∀ (n : Nat) (acc : List Char), 0 < n → n < fuel →
    (Nat.toDigitsCore 10 fuel n acc).head? ≠ some '0' := by
  induction fuel with
  | zero => intro n acc h0 h; omega
  | succ fuel ih =>
    intro n acc h0 h
    simp only [Nat.toDigitsCore]
    split
    · rename_i hq
      have hlt : n < 10 := by omega
      have := digitChar_ne_zero ⟨n % 10, Nat.mod_lt _ (by decide)⟩
        (by simp only; omega)
      simpa using this
    · rename_i hq
      exact ih _ _ (by omega) (by omega)

/-- The decimal text of a non-zero number does not start with the digit zero. -/
theorem toString_nat_no_leading_zero (k : Nat) (h : 0 < k) :
    (toString k).toList.head? ≠ some '0' := by
  rw [toString_nat_toList, Nat.toDigits]
  exact toDigitsCore_head _ _ _ h (by omega)

/-- C15: for a version and a resource that are plain names, the collection path is
`/api/<version>/<resource>` and the path of the entity with id `n` is that path followed
by `/` and `n`; with version `v3` and resource `rootFolder` this gives
`/api/v3/rootFolder/2` for id 2 and `/api/v3/rootFolder` without an id. -/
theorem request_path_of_names (v r : String) (hv : isPlainName v = true)
    (hr : isPlainName r = true) (q : url.Values) :
    Endpoint.path { apiRoot := API, apiVersion := v, resource := r, id := 0,
                    queryParams := q } = "/api/" ++ v ++ "/" ++ r ∧
    (∀ n : Int, n ≠ 0 →
      Endpoint.path { apiRoot := API, apiVersion := v, resource := r, id := n,
                      queryParams := q } = "/api/" ++ v ++ "/" ++ r ++ "/" ++ toString n) ∧
    Endpoint.path { apiRoot := "api", apiVersion := "v3", resource := "rootFolder", id := 2,
                    queryParams := url.Values.empty } = "/api/v3/rootFolder/2" ∧
    Endpoint.path { apiRoot := "api", apiVersion := "v3", resource := "rootFolder", id := 0,
                    queryParams := url.Values.empty } = "/api/v3/rootFolder" := by
  exact ⟨path_of_plain_names v r hv hr q, path_of_plain_names_id v r hv hr q,
    by decide, by decide⟩

/-- Witness for C15: version `v1` and resource `remotePathMapping`, as in the tests. -/
theorem request_path_of_names_witness :
    isPlainName "v1" = true ∧ isPlainName "remotePathMapping" = true ∧
    Endpoint.path { apiRoot := API, apiVersion := "v1", resource := "remotePathMapping",
                    id := 0, queryParams := url.Values.empty }
      = "/api/" ++ "v1" ++ "/" ++ "remotePathMapping" :=
  ⟨by decide, by decide,
   (request_path_of_names "v1" "remotePathMapping" (by decide) (by decide)
      url.Values.empty).1⟩

/-- C16: an id equal to 0 means absent: the path then has no id segment and ends with the
resource name. Any other id gives the collection path followed by `/` and the id, so a
path ending in `/<resource>/<id>`, the id being written in base 10: an optional minus
sign and decimal digits that denote its magnitude, the first of which is not zero. -/
theorem id_zero_is_absent (e : Endpoint) (hr : isPlainName e.resource = true) :
    (e.id = 0 →
      e.segments = splitSegments e.apiRoot ++ splitSegments e.apiVersion
        ++ [e.resource.toList] ∧
      ∃ p, e.path = p ++ "/" ++ e.resource) ∧
    (e.id ≠ 0 →
      e.path = Endpoint.path { e with id := 0 } ++ "/" ++ toString e.id ∧
      ∃ p, e.path = p ++ "/" ++ e.resource ++ "/" ++ toString e.id) ∧
    toString e.id = (if e.id < 0 then "-" else "") ++ toString e.id.natAbs ∧
    (∀ c ∈ (toString e.id.natAbs).toList, c.isDigit = true) ∧
    decimalValue (toString e.id.natAbs).toList = e.id.natAbs ∧
    (e.id ≠ 0 → (toString e.id.natAbs).toList.head? ≠ some '0') := by
  refine ⟨?_, ?_, toString_int _, toString_nat_isDigit _, toString_nat_value _, ?_⟩
  · intro h0
    refine ⟨?_, _, path_collection e hr h0⟩
    rw [segments_plain_resource e hr]
    simp [h0]
  · intro h0
    refine ⟨path_entity e hr h0, ?_⟩
    rw [path_entity e hr h0, path_collection { e with id := 0 } hr rfl]
    exact ⟨_, rfl⟩
  · intro h0
    exact toString_nat_no_leading_zero _ (by omega)

/-- Witness for C16: the root folder with id 1 of the tests. -/
theorem id_zero_is_absent_witness :
    isPlainName "rootFolder" = true ∧
    Endpoint.path { apiRoot := "api", apiVersion := "v3", resource := "rootFolder",
                    id := 1, queryParams := url.Values.empty }
      = Endpoint.path { apiRoot := "api", apiVersion := "v3", resource := "rootFolder",
                        id := 0, queryParams := url.Values.empty } ++ "/" ++ toString (1 : Int) :=
  ⟨by decide,
   ((id_zero_is_absent ⟨"api", "v3", "rootFolder", 1, url.Values.empty⟩
      (by decide)).2.1 (by decide)).1⟩

/-! ## Query strings -/

theorem keyLE_total (a b : String) : a.data ≤ b.data ∨ b.data ≤ a.data := le_total _ _

theorem keyLE_trans (a b c : String) (h1 : a.data ≤ b.data) (h2 : b.data ≤ c.data) :
    a.data ≤ c.data := le_trans h1 h2

theorem keyLE_antisymm (a b : String) (h1 : a.data ≤ b.data) (h2 : b.data ≤ a.data) :
    a = b := String.ext (le_antisymm h1 h2)

theorem sortedKeys_sorted (v : url.Values) :
    List.Sorted (fun a b : String => a.data ≤ b.data) v.sortedKeys := by
  haveI : IsTotal String (fun a b : String => a.data ≤ b.data) := ⟨keyLE_total⟩
  haveI : IsTrans String (fun a b : String => a.data ≤ b.data) := ⟨keyLE_trans⟩
  exact List.sorted_insertionSort _ _

theorem sortedKeys_perm (v : url.Values) :
    v.sortedKeys.Perm ((v : List (String × List String)).map Prod.fst) :=
  List.perm_insertionSort _ _

theorem sortedKeys_eq_of_perm (v w : url.Values)
    (h : List.Perm (v : List (String × List String)) w) : v.sortedKeys = w.sortedKeys := by
  haveI : IsAntisymm String (fun a b : String => a.data ≤ b.data) := ⟨keyLE_antisymm⟩
  refine List.eq_of_perm_of_sorted ?_ (sortedKeys_sorted v) (sortedKeys_sorted w)
  exact (sortedKeys_perm v).trans ((h.map Prod.fst).trans (sortedKeys_perm w).symm)

theorem lookup_of_not_mem (l : List (String × List String)) (k : String)
    (h : k ∉ l.map Prod.fst) : url.Values.lookup l k = [] := by
  induction l with
  | nil => rfl
  | cons x rest ih =>
    obtain ⟨k', vs⟩ := x
    simp only [List.map_cons, List.mem_cons, not_or] at h
    simp only [url.Values.lookup, if_neg (Ne.symm h.1)]
    exact ih h.2

theorem lookup_perm {l₁ l₂ : List (String × List String)} (h : l₁.Perm l₂)
    (hn : (l₁.map Prod.fst).Nodup) (k : String) :
    url.Values.lookup l₁ k = url.Values.lookup l₂ k := by
  induction h with
  | nil => rfl
  | cons x _ ih =>
    obtain ⟨k', vs⟩ := x
    simp only [List.map_cons, List.nodup_cons] at hn
    simp only [url.Values.lookup]
    rw [ih hn.2]
  | swap x y l =>
    obtain ⟨kx, vx⟩ := x
    obtain ⟨ky, vy⟩ := y
    simp only [List.map_cons, List.nodup_cons, List.mem_cons, not_or] at hn
    simp only [url.Values.lookup]
    by_cases h1 : kx = k
    · have h2 : ¬ ky = k := fun h2 => hn.1.1 (h2.trans h1.symm)
      simp [h1, h2]
    · simp [h1]
  | trans h₁ _ ih₁ ih₂ =>
    rw [ih₁ hn, ih₂ ((h₁.map Prod.fst).nodup_iff.1 hn)]

/-- The encoded form does not depend on the order in which the keys were set. -/
theorem encode_perm (v w : url.Values)
    (hn : ((v : List (String × List String)).map Prod.fst).Nodup)
    (h : List.Perm (v : List (String × List String)) w) : v.Encode = w.Encode := by
  unfold url.Values.Encode url.Values.encodedPairs
  rw [sortedKeys_eq_of_perm v w h]
  congr 1
  apply List.flatMap_congr
  intro k _
  rw [lookup_perm h hn k]

/-- C17 (as a counterexample): the parameters of `QueueDeleteOpts.Values` are set in the
order removeFromClient, blocklist, skipRedownload, changeCategory, but the encoded query
lists them as blocklist, changeCategory, removeFromClient, skipRedownload. -/
theorem queueDelete_query_not_in_insertion_order :
    (QueueDeleteOpts.Values (some ⟨none, false, false, false⟩)).Encode
      = "blocklist=false&changeCategory=false&removeFromClient=true&skipRedownload=false" ∧
    (QueueDeleteOpts.Values (some ⟨none, false, false, false⟩)).Encode
      ≠ "removeFromClient=true&blocklist=false&skipRedownload=false&changeCategory=false" := by
  decide

/-- C17 (amended): the encoded query string lists the parameters sorted by key, not in
the order of insertion: the keys it goes through are those of the map in ascending
order, and two maps holding the same entries, entered in whatever order, have the same
encoded form. The parameters of `QueueDeleteOpts.Values` appear as blocklist,
changeCategory, removeFromClient, skipRedownload. -/
theorem query_sorted_by_key (v w : url.Values)
    (hn : ((v : List (String × List String)).map Prod.fst).Nodup)
    (h : List.Perm (v : List (String × List String)) w) :
    List.Sorted (fun a b : String => a.data ≤ b.data) v.sortedKeys ∧
    v.sortedKeys.Perm ((v : List (String × List String)).map Prod.fst) ∧
    v.Encode = "&".intercalate (v.sortedKeys.flatMap fun k =>
      (v.lookup k).map fun x => url.QueryEscape k ++ "=" ++ url.QueryEscape x) ∧
    v.Encode = w.Encode ∧
    (∀ o : QueueDeleteOpts,
      (QueueDeleteOpts.Values (some o)).Encode
        = "blocklist=" ++ Str o.BlockList ++ "&changeCategory=" ++ Str o.ChangeCategory
          ++ "&removeFromClient=" ++ Str (o.RemoveFromClient.getD true)
          ++ "&skipRedownload=" ++ Str o.SkipRedownload) := by
  refine ⟨sortedKeys_sorted v, sortedKeys_perm v, rfl, encode_perm v w hn h, ?_⟩
  intro o
  obtain ⟨rc, bl, sr, cc⟩ := o
  cases bl <;> cases sr <;> cases cc <;> rcases rc with _ | (_ | _) <;> decide

/-- Witness for C17: the same two parameters entered in the two possible orders. -/
theorem query_sorted_by_key_witness :
    (List.map Prod.fst
      ((url.Values.empty.Set "skipRedownload" "true").Set "blocklist" "false"
        : List (String × List String))).Nodup ∧
    List.Perm
      ((url.Values.empty.Set "skipRedownload" "true").Set "blocklist" "false"
        : List (String × List String))
      ((url.Values.empty.Set "blocklist" "false").Set "skipRedownload" "true") ∧
    ((url.Values.empty.Set "skipRedownload" "true").Set "blocklist" "false").Encode
      = ((url.Values.empty.Set "blocklist" "false").Set "skipRedownload" "true").Encode :=
  ⟨by decide, by decide,
   (query_sorted_by_key
      ((url.Values.empty.Set "skipRedownload" "true").Set "blocklist" "false")
      ((url.Values.empty.Set "blocklist" "false").Set "skipRedownload" "true")
      (by decide) (by decide)).2.2.2.1⟩

/-! ## Typed calls -/

theorem target_without_query (e : Endpoint) (h : e.queryParams = url.Values.empty) :
    e.target = e.path := by
  have h0 : url.Values.empty.Encode = "" := by decide
  simp [Endpoint.target, h, h0]

/-- C11: a delete call sends DELETE, without a body, on `/api/<version>/<resource>/<id>`;
it returns a nil error when the answer has a 2xx status and an error that matches
`ReqError{Code: 404}` when the answer is 404. -/
theorem delete_call (v r : String) (id : Int) (hv : isPlainName v = true)
    (hr : isPlainName r = true) (hid : id ≠ 0) (context body : String) :
    (deleteRequest v r id).method = .DELETE ∧
    (deleteRequest v r id).body = none ∧
    (deleteRequest v r id).endpoint.target
      = "/api/" ++ v ++ "/" ++ r ++ "/" ++ toString id ∧
    (∀ c : Int, 200 ≤ c → c ≤ 299 →
      deleteCall context (.response { StatusCode := c, Body := body }) = none) ∧
    (∃ e, deleteCall context (.response { StatusCode := 404, Body := body }) = some e ∧
      errorsIs e { Code := 404, Msg := "", Err := none } = true) := by
  refine ⟨rfl, rfl, ?_, ?_, ?_⟩
  · rw [target_without_query _ rfl]
    exact path_of_plain_names_id v r hv hr url.Values.empty id hid
  · intro c h1 h2
    simp [deleteCall, classify, h1, h2]
  · refine ⟨.wrap context (.req ⟨404, body, none⟩), ?_, ?_⟩
    · simp [deleteCall, classify]
    · simp [errorsIs, ReqError.Is]

/-- Witness for C11: deleting root folder 2, as in the tests. -/
theorem delete_call_witness :
    isPlainName "v3" = true ∧ isPlainName "rootFolder" = true ∧ (2 : Int) ≠ 0 ∧
    (deleteRequest "v3" "rootFolder" 2).endpoint.target
      = "/api/" ++ "v3" ++ "/" ++ "rootFolder" ++ "/" ++ toString (2 : Int) :=
  ⟨by decide, by decide, by decide,
   (delete_call "v3" "rootFolder" 2 (by decide) (by decide) (by decide)
      "api.Delete" "\x7b\x7d").2.2.1⟩

/-- C12: whether a delete call returns a nil error depends on the status code only: the
error is nil exactly for a 2xx status, whatever the body is, be it empty, an empty
object or anything else. -/
theorem delete_outcome_ignores_body (context : String) (c : Int) (body body' : String) :
    ((deleteCall context (.response { StatusCode := c, Body := body })).isNone
      = decide (200 ≤ c ∧ c ≤ 299)) ∧
    ((deleteCall context (.response { StatusCode := c, Body := body })).isNone
      = (deleteCall context (.response { StatusCode := c, Body := body' })).isNone) ∧
    deleteCall context (.response { StatusCode := 200, Body := body }) = none ∧
    deleteCall context (.response { StatusCode := 200, Body := "" }) = none ∧
    deleteCall context (.response { StatusCode := 200, Body := "\x7b\x7d" }) = none := by
  have h : ∀ b : String, (deleteCall context (.response { StatusCode := c, Body := b })).isNone
      = decide (200 ≤ c ∧ c ≤ 299) := by
    intro b
    by_cases hc : 200 ≤ c ∧ c ≤ 299 <;> simp [deleteCall, classify, hc]
  refine ⟨h body, by rw [h body, h body'], ?_, ?_, ?_⟩ <;> simp [deleteCall, classify]

theorem encodeStruct_append (a b : List StructField) :
    encodeStruct (a ++ b) = .obj (keptMembers a ++ keptMembers b) := by
  simp [encodeStruct, keptMembers]

theorem typedInput_toJSON (x : TypedInput) :
    x.toJSON =
      (if x.ID = 0 then .obj (keptMembers x.before ++ keptMembers x.after)
       else .obj (keptMembers x.before
          ++ ("id", .num (JNumber.ofInt x.ID)) :: keptMembers x.after)) := by
  rw [TypedInput.toJSON, TypedInput.fields, encodeStruct_append]
  by_cases h : x.ID = 0 <;> simp [keptMembers, StructField.kept, h]

/-- C19 counterexample: an update call whose input has ID 0 sends PUT on the collection
path, with no `/0` after it, and the body has no `id` member. -/
theorem update_with_id_zero :
    (updateRemotePathMapping "v1" ⟨0, "transmission", "/remote/", "/local/"⟩).endpoint.target
      = "/api/v1/remotePathMapping" ∧
    (updateRemotePathMapping "v1" ⟨0, "transmission", "/remote/", "/local/"⟩).body
      = some ("\x7b\"host\":\"transmission\",\"remotePath\":\"/remote/\","
          ++ "\"localPath\":\"/local/\"\x7d\n") := by
  decide

/-- C19, amended: an update call with typed input `x` sends PUT with the serialization of
`x` as body. When the ID of `x` is not zero the path is the collection path followed by
`/` and that ID, and the body carries the member `id` with that same ID, between the
members declared before and after it. When the ID is zero the path is the collection
path and the body has no member for the ID. `UpdateRemotePathMapping` is this call for a
`RemotePathMapping`; ID 2 gives `/api/v1/remotePathMapping/2` and the notification of
the tests, ID 3, gives `/api/v1/notification/3`, each with the body the tests expect. -/
theorem update_uses_input_id (v r : String) (hv : isPlainName v = true)
    (hr : isPlainName r = true) (x : TypedInput) :
    (update v r x).method = .PUT ∧
    (update v r x).body = some (x.toJSON.render ++ "\n") ∧
    (x.ID ≠ 0 →
      (update v r x).endpoint.target = "/api/" ++ v ++ "/" ++ r ++ "/" ++ toString x.ID ∧
      x.toJSON = .obj (keptMembers x.before
        ++ ("id", .num (JNumber.ofInt x.ID)) :: keptMembers x.after)) ∧
    (x.ID = 0 →
      (update v r x).endpoint.target = "/api/" ++ v ++ "/" ++ r ∧
      x.toJSON = .obj (keptMembers x.before ++ keptMembers x.after)) ∧
    (∀ m : RemotePathMapping,
      updateRemotePathMapping v m = update v "remotePathMapping" m.input ∧
      (updateRemotePathMapping v m).body = some (m.marshal ++ "\n")) ∧
    (update "v1" "remotePathMapping"
        (RemotePathMapping.input ⟨2, "transmission", "/remote/", "/local/"⟩)).endpoint.target
      = "/api/v1/remotePathMapping/2" ∧
    (update "v1" "remotePathMapping"
        (RemotePathMapping.input ⟨2, "transmission", "/remote/", "/local/"⟩)).body
      = some ("\x7b\"id\":2,\"host\":\"transmission\",\"remotePath\":\"/remote/\","
          ++ "\"localPath\":\"/local/\"\x7d\n") ∧
    (update "v1" "notification" (testNotificationInput 3)).endpoint.target
      = "/api/v1/notification/3" ∧
    (update "v1" "notification" (testNotificationInput 3)).body
      = some ("\x7b\"onGrab\":false,\"onHealthIssue\":false,\"onHealthRestored\":false,"
          ++ "\"onApplicationUpdate\":true,\"supportsOnGrab\":false,"
          ++ "\"includeManualGrabs\":false,\"supportsOnHealthIssue\":false,"
          ++ "\"supportsOnHealthRestored\":false,\"includeHealthWarnings\":false,"
          ++ "\"supportsOnApplicationUpdate\":false,\"id\":3,\"name\":\"Test\","
          ++ "\"implementationName\":\"\",\"implementation\":\"CustomScript\","
          ++ "\"configContract\":\"CustomScriptSettings\",\"infoLink\":\"\",\"tags\":null,"
          ++ "\"fields\":[\x7b\"name\":\"path\",\"value\":\"/scripts/prowlarr.sh\"\x7d]\x7d\n") := by
  refine ⟨rfl, rfl, ?_, ?_, ?_, by decide, by decide, by decide, by decide!⟩
  · intro hid
    refine ⟨?_, ?_⟩
    · rw [target_without_query _ rfl]
      exact path_of_plain_names_id v r hv hr url.Values.empty x.ID hid
    · rw [typedInput_toJSON, if_neg hid]
  · intro hid
    refine ⟨?_, ?_⟩
    · rw [target_without_query _ rfl]
      have e : (update v r x).endpoint
          = { apiRoot := API, apiVersion := v, resource := r, id := 0,
              queryParams := url.Values.empty } := by
        simp [update, updateRequest, hid]
      rw [e]
      exact path_of_plain_names v r hv hr url.Values.empty
    · rw [typedInput_toJSON, if_pos hid]
  · intro m
    exact ⟨rfl, rfl⟩

/-- Witness for C19: the update of remote path mapping 2 of the tests. -/
theorem update_uses_input_id_witness :
    isPlainName "v1" = true ∧ isPlainName "remotePathMapping" = true ∧
    (RemotePathMapping.input ⟨2, "transmission", "/remote/", "/local/"⟩).ID ≠ 0 ∧
    (update "v1" "remotePathMapping"
        (RemotePathMapping.input ⟨2, "transmission", "/remote/", "/local/"⟩)).endpoint.target
      = "/api/" ++ "v1" ++ "/" ++ "remotePathMapping" ++ "/"
        ++ toString (RemotePathMapping.input ⟨2, "transmission", "/remote/", "/local/"⟩).ID :=
  ⟨by decide, by decide, by decide,
   ((update_uses_input_id "v1" "remotePathMapping" (by decide) (by decide)
      (RemotePathMapping.input ⟨2, "transmission", "/remote/", "/local/"⟩)).2.2.1
      (by decide)).1⟩

/-- C20: adding a download client sends POST on `/api/<version>/downloadClient` with the
query string `forceSave=true`; updating one sends PUT on
`/api/<version>/downloadClient/<ID>` with the query string `forceSave=true` or
`forceSave=false` according to the flag. `forceSave` is the only query parameter. -/
theorem downloadClient_forceSave (v : String) (hv : isPlainName v = true) (id : Int)
    (hid : id ≠ 0) (input : JSON) (force : Bool) :
    (addDownloadClient v input).method = .POST ∧
    (addDownloadClient v input).endpoint.path = "/api/" ++ v ++ "/" ++ "downloadClient" ∧
    (addDownloadClient v input).endpoint.queryParams.Encode = "forceSave=true" ∧
    (addDownloadClient v input).endpoint.target
      = "/api/" ++ v ++ "/" ++ "downloadClient" ++ "?" ++ "forceSave=true" ∧
    (updateDownloadClient v id input force).method = .PUT ∧
    (updateDownloadClient v id input force).endpoint.path
      = "/api/" ++ v ++ "/" ++ "downloadClient" ++ "/" ++ toString id ∧
    (updateDownloadClient v id input force).endpoint.queryParams.Encode
      = "forceSave=" ++ (if force then "true" else "false") ∧
    (updateDownloadClient v id input force).endpoint.target
      = "/api/" ++ v ++ "/" ++ "downloadClient" ++ "/" ++ toString id ++ "?"
        ++ ("forceSave=" ++ (if force then "true" else "false")) ∧
    (addDownloadClient v input).endpoint.queryParams.sortedKeys = ["forceSave"] ∧
    (updateDownloadClient v id input force).endpoint.queryParams.sortedKeys
      = ["forceSave"] := by
  have hadd : (addDownloadClient v input).endpoint.path
      = "/api/" ++ v ++ "/" ++ "downloadClient" :=
    path_of_plain_names v "downloadClient" hv (by decide) _
  have hupd : (updateDownloadClient v id input force).endpoint.path
      = "/api/" ++ v ++ "/" ++ "downloadClient" ++ "/" ++ toString id :=
    path_of_plain_names_id v "downloadClient" hv (by decide) _ id hid
  have e1 : (url.Values.empty.Set "forceSave" "true").Encode = "forceSave=true" := by
    decide
  have e2 : (url.Values.empty.Set "forceSave" "false").Encode = "forceSave=false" := by
    decide
  have k1 : (url.Values.empty.Set "forceSave" "true").sortedKeys = ["forceSave"] := by
    decide
  have k2 : (url.Values.empty.Set "forceSave" "false").sortedKeys = ["forceSave"] := by
    decide
  have hq1 : (addDownloadClient v input).endpoint.queryParams.Encode = "forceSave=true" :=
    e1
  have hq2 : (updateDownloadClient v id input force).endpoint.queryParams.Encode
      = "forceSave=" ++ (if force then "true" else "false") := by
    cases force
    · exact e2
    · exact e1
  refine ⟨rfl, hadd, hq1, ?_, rfl, hupd, hq2, ?_, k1, ?_⟩
  · rw [Endpoint.target, hq1, hadd, if_neg (by decide)]
  · rw [Endpoint.target, hq2, hupd]
    cases force <;> rw [if_neg (by decide)]
  · cases force
    · exact k2
    · exact k1

/-- Witness for C20: the update of download client 3 without forcing, as in the tests. -/
theorem downloadClient_forceSave_witness :
    isPlainName "v3" = true ∧ (3 : Int) ≠ 0 ∧
    (updateDownloadClient "v3" 3 .null false).endpoint.target
      = "/api/" ++ "v3" ++ "/" ++ "downloadClient" ++ "/" ++ toString (3 : Int) ++ "?"
        ++ ("forceSave=" ++ (if false then "true" else "false")) :=
  ⟨by decide, by decide,
   (downloadClient_forceSave "v3" (by decide) 3 (by decide) .null false).2.2.2.2.2.2.2.1⟩

/-! ## Mismatched response bodies -/

/-- C21: on a successful (2xx) response, a call whose destination is a collection fails
with a decode error when the body is a single JSON object, and a call whose destination
is a single object fails with a decode error when the body is a JSON array; in both cases
the result is nil, nothing of the body being put into the destination. -/
theorem mismatched_body_is_decode_error {α β : Type} (context : String)
    (parse : String → Option JSON)
    (dec : α → JSON → α × Option UnmarshalTypeError) (zero : α) (sliceType : String)
    (setMember : β → String → JSON → β × Option UnmarshalTypeError) (structType : String)
    (fresh : β) (resp : Response)
    (h2xx : 200 ≤ resp.StatusCode ∧ resp.StatusCode ≤ 299) :
    (∀ kvs, parse resp.Body = some (.obj kvs) →
      callInto context (decodeBody parse (decodeSlice dec zero sliceType none))
          (.response resp) =
        (none, some (.wrap context (.decode
          ("json: cannot unmarshal object into Go value of type " ++ sliceType))))) ∧
    (∀ xs, parse resp.Body = some (.arr xs) →
      callInto context (decodeBody parse (decodeStruct setMember structType fresh))
          (.response resp) =
        (none, some (.wrap context (.decode
          ("json: cannot unmarshal array into Go value of type " ++ structType))))) := by
  constructor
  · intro kvs hp
    simp only [callInto, classify, h2xx, and_self, if_true, decodeBody, hp, decodeSlice,
      UnmarshalTypeError.Error, JSON.describe]
    rw [show "json: cannot unmarshal " ++ "object" ++ " into Go value of type "
      = "json: cannot unmarshal object into Go value of type " from by decide]
  · intro xs hp
    simp only [callInto, classify, h2xx, and_self, if_true, decodeBody, hp, decodeStruct,
      UnmarshalTypeError.Error, JSON.describe]
    rw [show "json: cannot unmarshal " ++ "array" ++ " into Go value of type "
      = "json: cannot unmarshal array into Go value of type " from by decide]

/-- Witness for C21: a list of fields answered with `{}` and a single field answered with
`[]`, both with status 200. -/
theorem mismatched_body_is_decode_error_witness :
    callInto "Get(fields)"
        (decodeBody (fun s => if s = "\x7b\x7d" then some (.obj []) else none) unmarshalFields)
        (.response ⟨200, "\x7b\x7d"⟩) =
      (none, some (.wrap "Get(fields)" (.decode
        "json: cannot unmarshal object into Go value of type []*starr.FieldOutput"))) ∧
    callInto "Get(field)"
        (decodeBody (fun s => if s = "[]" then some (.arr []) else none) FieldOutput.unmarshal)
        (.response ⟨200, "[]"⟩) =
      (none, some (.wrap "Get(field)" (.decode
        "json: cannot unmarshal array into Go value of type starr.FieldOutput"))) :=
  ⟨(mismatched_body_is_decode_error "Get(fields)"
      (fun s => if s = "\x7b\x7d" then some (.obj []) else none)
      (decodePtr FieldOutput.decode FieldOutput.zero) none "[]*starr.FieldOutput"
      FieldOutput.setMember "starr.FieldOutput" FieldOutput.zero ⟨200, "\x7b\x7d"⟩
      (by decide)).1 [] (by simp),
   (mismatched_body_is_decode_error "Get(field)"
      (fun s => if s = "[]" then some (.arr []) else none)
      (decodePtr FieldOutput.decode FieldOutput.zero) none "[]*starr.FieldOutput"
      FieldOutput.setMember "starr.FieldOutput" FieldOutput.zero ⟨200, "[]"⟩
      (by decide)).2 [] (by simp)⟩

/-! ## Queue delete options -/

/-- C22 counterexample: for the nil receiver `Values` has no `blocklist` parameter, while
for a receiver with every field unset it has `blocklist=false`; the encoded queries
differ. -/
theorem queueDelete_nil_differs_from_unset :
    (QueueDeleteOpts.Values none).lookup "blocklist" = [] ∧
    (QueueDeleteOpts.Values (some ⟨none, false, false, false⟩)).lookup "blocklist"
      = ["false"] ∧
    (QueueDeleteOpts.Values none).Encode ≠
      (QueueDeleteOpts.Values (some ⟨none, false, false, false⟩)).Encode := by
  decide

/-- C22, amended: for the nil receiver `Values` holds the single parameter
`removeFromClient=true` and nothing else; for a receiver whose fields are all unset it
holds the four parameters with the documented defaults. -/
theorem queueDelete_nil_values :
    (∀ key, (QueueDeleteOpts.Values none).lookup key =
      if key = "removeFromClient" then ["true"] else []) ∧
    (QueueDeleteOpts.Values none).Encode = "removeFromClient=true" ∧
    (∀ key, (QueueDeleteOpts.Values (some ⟨none, false, false, false⟩)).lookup key =
      if key = "removeFromClient" then ["true"]
      else if key = "blocklist" ∨ key = "skipRedownload" ∨ key = "changeCategory" then
        ["false"]
      else []) ∧
    (QueueDeleteOpts.Values (some ⟨none, false, false, false⟩)).Encode =
      "blocklist=false&changeCategory=false&removeFromClient=true&skipRedownload=false" := by
  refine ⟨?_, by decide, ?_, by decide⟩
  · intro key
    have e : (QueueDeleteOpts.Values none : List (String × List String))
        = [("removeFromClient", ["true"])] := rfl
    show url.Values.lookup (QueueDeleteOpts.Values none) key = _
    rw [show QueueDeleteOpts.Values none
      = ([("removeFromClient", ["true"])] : List (String × List String)) from e]
    simp only [url.Values.lookup]
    by_cases h : key = "removeFromClient"
    · simp [h]
    · have h2 : ¬ ("removeFromClient" = key) := fun x => h x.symm
      simp [h, h2]
  · intro key
    have e : (QueueDeleteOpts.Values (some ⟨none, false, false, false⟩) :
        List (String × List String))
        = [("removeFromClient", ["true"]), ("blocklist", ["false"]),
           ("skipRedownload", ["false"]), ("changeCategory", ["false"])] := rfl
    rw [show QueueDeleteOpts.Values (some ⟨none, false, false, false⟩)
      = ([("removeFromClient", ["true"]), ("blocklist", ["false"]),
           ("skipRedownload", ["false"]), ("changeCategory", ["false"])] :
           List (String × List String)) from e]
    simp only [url.Values.lookup]
    by_cases h1 : "removeFromClient" = key
    · subst h1; simp
    · by_cases h2 : "blocklist" = key
      · subst h2; simp
      · by_cases h3 : "skipRedownload" = key
        · subst h3; simp
        · by_cases h4 : "changeCategory" = key
          · subst h4; simp
          · have g1 : ¬ key = "removeFromClient" := fun x => h1 x.symm
            have g2 : ¬ key = "blocklist" := fun x => h2 x.symm
            have g3 : ¬ key = "skipRedownload" := fun x => h3 x.symm
            have g4 : ¬ key = "changeCategory" := fun x => h4 x.symm
            simp [h1, h2, h3, h4, g1, g2, g3, g4]

/-- C23: for every non-nil receiver `Values` has exactly the four keys
`removeFromClient`, `blocklist`, `skipRedownload` and `changeCategory`, each with exactly
one value: the three flags are `true` or `false` as the fields are, and
`removeFromClient` is `true` for a nil pointer and the boolean pointed to otherwise, so
it is `false` only when the caller set it to false. -/
theorem queueDelete_values_four_keys (o : QueueDeleteOpts) :
    (List.map Prod.fst (QueueDeleteOpts.Values (some o))).Perm
      ["removeFromClient", "blocklist", "skipRedownload", "changeCategory"] ∧
    (QueueDeleteOpts.Values (some o)).lookup "blocklist"
      = [if o.BlockList then "true" else "false"] ∧
    (QueueDeleteOpts.Values (some o)).lookup "skipRedownload"
      = [if o.SkipRedownload then "true" else "false"] ∧
    (QueueDeleteOpts.Values (some o)).lookup "changeCategory"
      = [if o.ChangeCategory then "true" else "false"] ∧
    (QueueDeleteOpts.Values (some o)).lookup "removeFromClient"
      = [match o.RemoveFromClient with
         | none => "true"
         | some b => if b then "true" else "false"] ∧
    ((QueueDeleteOpts.Values (some o)).lookup "removeFromClient" = ["false"]
      ↔ o.RemoveFromClient = some false) := by
  rcases o with ⟨_ | _ | _, _ | _, _ | _, _ | _⟩ <;> decide

/-! ## PlayTime: what the receiver keeps -/

/-- C27, the code at the failing input: the one-part text `"5"` decoded into a receiver
whose Duration is zero gives 5 seconds, decoded into a receiver whose Duration is one
second it gives 6 seconds; the two-part text `"0:5"` gives 5 seconds on both. -/
theorem playTime_previous_duration_leaks :
    (PlayTime.UnmarshalJSON ⟨"", 0⟩ "\"5\"").1 = ⟨"5", 5000000000⟩ ∧
    (PlayTime.UnmarshalJSON ⟨"", 1000000000⟩ "\"5\"").1 = ⟨"5", 6000000000⟩ ∧
    (PlayTime.UnmarshalJSON ⟨"", 0⟩ "\"0:5\"").1 = ⟨"0:5", 5000000000⟩ ∧
    (PlayTime.UnmarshalJSON ⟨"", 1000000000⟩ "\"0:5\"").1 = ⟨"0:5", 5000000000⟩ := by
  decide

/-! ## The calendar time layout -/

/-- C30, the code at the failing input: 15:04:05 and 03:04:05 of 2 January 2006 are
two different times, and `CalendarTimeFilterFormat` renders both as
`2006-01-02T03:04:05.000Z`; with `15` in place of `03` the layout tells them apart. -/
theorem calendarTimeFilterFormat_afternoon_as_morning :
    UTCTime.valid ⟨2006, 1, 2, 15, 4, 5, 0⟩ = true ∧
    UTCTime.valid ⟨2006, 1, 2, 3, 4, 5, 0⟩ = true ∧
    UTCTime.Format ⟨2006, 1, 2, 15, 4, 5, 0⟩ CalendarTimeFilterFormat
      = "2006-01-02T03:04:05.000Z" ∧
    UTCTime.Format ⟨2006, 1, 2, 3, 4, 5, 0⟩ CalendarTimeFilterFormat
      = "2006-01-02T03:04:05.000Z" ∧
    UTCTime.Format ⟨2006, 1, 2, 15, 4, 5, 0⟩ "2006-01-02T15:04:05.000Z"
      = "2006-01-02T15:04:05.000Z" ∧
    UTCTime.Format ⟨2006, 1, 2, 3, 4, 5, 0⟩ "2006-01-02T15:04:05.000Z"
      = "2006-01-02T03:04:05.000Z" := by
  decide

/-! ## Trimming quotes -/

theorem trimQuotes_toList (s : String) :
    (trimQuotes s).toList
      = ((s.toList.dropWhile isQuote).reverse.dropWhile isQuote).reverse := rfl

theorem dropWhile_all_append {p : Char → Bool} :
    ∀ (pre l : List Char), (∀ c ∈ pre, p c = true) →
      (pre ++ l).dropWhile p = l.dropWhile p := by
  intro pre
  induction pre with
  | nil => intro l _; rfl
  | cons c pre ih =>
    intro l h
    have hc : p c = true := h c (by simp)
    simp only [List.cons_append, List.dropWhile_cons, hc, if_true]
    exact ih l (fun x hx => h x (by simp [hx]))

theorem dropWhile_head_false {p : Char → Bool} :
    ∀ (l : List Char) (c : Char), (l.dropWhile p).head? = some c → p c = false := by
  intro l
  induction l with
  | nil => intro c h; simp at h
  | cons x l ih =>
    intro c h
    rw [List.dropWhile_cons] at h
    by_cases hx : p x = true
    · rw [if_pos hx] at h
      exact ih c h
    · rw [if_neg hx] at h
      simp only [List.head?_cons, Option.some.injEq] at h
      subst h
      simpa using hx

theorem dropWhile_of_head_false {p : Char → Bool} (l : List Char)
    (h : ∀ c, l.head? = some c → p c = false) : l.dropWhile p = l := by
  cases l with
  | nil => rfl
  | cons x l =>
    have hx : p x = false := h x rfl
    simp [List.dropWhile_cons, hx]

/-- Trimming a text that has quotes only around a core without quotes at its ends gives
the core. -/
theorem trim_wrap (pre s suf : List Char)
    (hpre : ∀ c ∈ pre, isQuote c = true) (hsuf : ∀ c ∈ suf, isQuote c = true)
    (hhead : ∀ c, s.head? = some c → isQuote c = false)
    (hlast : ∀ c, s.getLast? = some c → isQuote c = false) :
    (((pre ++ s ++ suf).dropWhile isQuote).reverse.dropWhile isQuote).reverse = s := by
  rw [List.append_assoc, dropWhile_all_append pre _ hpre]
  have h1 : (s ++ suf).dropWhile isQuote = s ++ suf ∨ s = [] := by
    cases s with
    | nil => right; rfl
    | cons x s =>
      left
      exact dropWhile_of_head_false _ (fun c hc => hhead c (by simpa using hc))
  rcases h1 with h1 | h1
  · rw [h1, List.reverse_append, dropWhile_all_append _ _ (by simpa using hsuf)]
    rw [dropWhile_of_head_false _ (by simpa [List.head?_reverse] using hlast)]
    exact List.reverse_reverse s
  · subst h1
    have h2 : suf.dropWhile isQuote = [] := by
      rw [List.dropWhile_eq_nil_iff]
      exact hsuf
    simp [h2]

/-- The trimmed text sits in the text between a run of quotes and a run of quotes, and
has no quote at either end. -/
theorem trim_decompose (l : List Char) :
    ∃ pre suf : List Char,
      (∀ c ∈ pre, isQuote c = true) ∧ (∀ c ∈ suf, isQuote c = true) ∧
      l = pre ++ ((l.dropWhile isQuote).reverse.dropWhile isQuote).reverse ++ suf ∧
      (∀ c, (((l.dropWhile isQuote).reverse.dropWhile isQuote).reverse).head? = some c →
        isQuote c = false) ∧
      (∀ c, (((l.dropWhile isQuote).reverse.dropWhile isQuote).reverse).getLast? = some c →
        isQuote c = false) := by
  have hm : l.dropWhile isQuote
      = ((l.dropWhile isQuote).reverse.dropWhile isQuote).reverse
        ++ ((l.dropWhile isQuote).reverse.takeWhile isQuote).reverse := by
    rw [← List.reverse_append, List.takeWhile_append_dropWhile, List.reverse_reverse]
  refine ⟨l.takeWhile isQuote, ((l.dropWhile isQuote).reverse.takeWhile isQuote).reverse,
    ?_, ?_, ?_, ?_, ?_⟩
  · intro c hc
    exact (List.mem_takeWhile_imp hc)
  · intro c hc
    rw [List.mem_reverse] at hc
    exact (List.mem_takeWhile_imp hc)
  · rw [List.append_assoc, ← hm, List.takeWhile_append_dropWhile]
  · intro c hc
    apply dropWhile_head_false l c
    rw [hm]
    generalize ((l.dropWhile isQuote).reverse.dropWhile isQuote).reverse = t at hc ⊢
    cases t with
    | nil => simp at hc
    | cons x t => simpa using hc
  · intro c hc
    rw [List.getLast?_reverse] at hc
    exact dropWhile_head_false _ c hc

theorem trimQuotes_wrap (pre s suf : String)
    (hpre : ∀ c ∈ pre.toList, isQuote c = true) (hsuf : ∀ c ∈ suf.toList, isQuote c = true)
    (hhead : ∀ c, s.toList.head? = some c → isQuote c = false)
    (hlast : ∀ c, s.toList.getLast? = some c → isQuote c = false) :
    trimQuotes (pre ++ s ++ suf) = s := by
  apply String.ext
  show (trimQuotes (pre ++ s ++ suf)).toList = s.toList
  rw [trimQuotes_toList]
  have e : (pre ++ s ++ suf).toList = pre.toList ++ s.toList ++ suf.toList := by
    simp [String.toList, String.data_append]
  rw [e]
  exact trim_wrap _ _ _ hpre hsuf hhead hlast

theorem trimQuotes_ends (b : String) :
    (∀ c, (trimQuotes b).toList.head? = some c → isQuote c = false) ∧
    (∀ c, (trimQuotes b).toList.getLast? = some c → isQuote c = false) := by
  obtain ⟨_, _, _, _, _, h4, h5⟩ := trim_decompose b.toList
  exact ⟨h4, h5⟩

theorem trimQuotes_quoted (s : String)
    (hhead : ∀ c, s.toList.head? = some c → isQuote c = false)
    (hlast : ∀ c, s.toList.getLast? = some c → isQuote c = false) :
    trimQuotes ("\"" ++ s ++ "\"") = s :=
  trimQuotes_wrap "\"" s "\"" (by decide) (by decide) hhead hlast

/-! ## Splitting at colons -/

theorem splitColonAux_noColon : ∀ (a cur : List Char), ':' ∉ a →
    splitColonAux a cur = [cur ++ a] := by
  intro a
  induction a with
  | nil => intro cur _; simp [splitColonAux]
  | cons c a ih =>
    intro cur h
    have hc : ¬ c = ':' := fun e => h (by simp [e])
    have ha : ':' ∉ a := fun e => h (by simp [e])
    simp only [splitColonAux, hc, if_false]
    rw [ih _ ha]
    simp

theorem splitColonAux_append : ∀ (a rest cur : List Char), ':' ∉ a →
    splitColonAux (a ++ ':' :: rest) cur = (cur ++ a) :: splitColonAux rest [] := by
  intro a
  induction a with
  | nil => intro rest cur _; simp [splitColonAux]
  | cons c a ih =>
    intro rest cur h
    have hc : ¬ c = ':' := fun e => h (by simp [e])
    have ha : ':' ∉ a := fun e => h (by simp [e])
    rw [List.cons_append]
    simp only [splitColonAux, hc, if_false]
    rw [ih _ _ ha]
    simp

theorem splitColonAux_length : ∀ (l cur : List Char),
    (splitColonAux l cur).length = l.count ':' + 1 := by
  intro l
  induction l with
  | nil => intro cur; simp [splitColonAux]
  | cons c l ih =>
    intro cur
    by_cases hc : c = ':'
    · subst hc
      simp [splitColonAux, ih]
    · have hc2 : ¬ (c == ':') = true := by simpa using hc
      simp [splitColonAux, hc, ih, List.count_cons, hc2]

theorem count_colon_dropWhile : ∀ l : List Char,
    (l.dropWhile isQuote).count ':' = l.count ':' := by
  intro l
  induction l with
  | nil => rfl
  | cons c l ih =>
    rw [List.dropWhile_cons]
    by_cases hq : isQuote c = true
    · rw [if_pos hq, ih]
      have hc : ¬ (c == ':') = true := by
        intro e
        have e2 : c = ':' := by simpa using e
        subst e2
        revert hq
        decide
      simp [List.count_cons, hc]
    · rw [if_neg hq]

theorem splitColon_trim_length (b : String) :
    (splitColon (trimQuotes b)).length = (splitColon b).length := by
  simp only [splitColon, splitColonAux_length, trimQuotes_toList, List.count_reverse,
    count_colon_dropWhile]

/-! ## PlayTime: the original text -/

theorem unmarshal_original (d : PlayTime) (b : String) :
    (d.UnmarshalJSON b).1.Original = trimQuotes b := by
  simp only [PlayTime.UnmarshalJSON]
  split <;> rfl

theorem unmarshal_parts3 (d : PlayTime) (b : String) (p0 p1 p2 : List Char)
    (h : splitColon (trimQuotes b) = [p0, p1, p2]) :
    (d.UnmarshalJSON b).1.Duration =
      wrap64 (wrap64 (wrap64 (Hour * Atoi (String.mk p0)) + wrap64 (Minute * Atoi (String.mk p1)))
        + wrap64 (Second * Atoi (String.mk p2))) := by
  simp only [PlayTime.UnmarshalJSON, h]

theorem unmarshal_parts2 (d : PlayTime) (b : String) (p0 p1 : List Char)
    (h : splitColon (trimQuotes b) = [p0, p1]) :
    (d.UnmarshalJSON b).1.Duration =
      wrap64 (wrap64 (Minute * Atoi (String.mk p0)) + wrap64 (Second * Atoi (String.mk p1))) := by
  simp only [PlayTime.UnmarshalJSON, h]

theorem unmarshal_parts1 (d : PlayTime) (b : String) (p0 : List Char)
    (h : splitColon (trimQuotes b) = [p0]) :
    (d.UnmarshalJSON b).1.Duration =
      wrap64 (d.Duration + wrap64 (Second * Atoi (String.mk p0))) := by
  simp only [PlayTime.UnmarshalJSON, h]

theorem unmarshal_many_parts (d : PlayTime) (b : String)
    (h : 3 < (splitColon (trimQuotes b)).length) :
    (d.UnmarshalJSON b).1.Duration = d.Duration := by
  simp only [PlayTime.UnmarshalJSON]
  split
  · rename_i e; rw [e] at h; simp at h
  · rename_i e; rw [e] at h; simp at h
  · rename_i e; rw [e] at h; simp at h
  · rfl

/-- The Duration after decoding into a zero-valued receiver is a function of the trimmed
text alone. -/
theorem unmarshal_zero_of_trim (b c : String) (h : trimQuotes b = trimQuotes c) :
    (PlayTime.zero.UnmarshalJSON b).1 = (PlayTime.zero.UnmarshalJSON c).1 := by
  simp only [PlayTime.UnmarshalJSON, h]

/-- C25: after `UnmarshalJSON(b)` the field Original is `b` without its leading and
trailing quote characters: `b` is a run of double and single quotes, then Original, then
a run of double and single quotes, and Original neither starts nor ends with a quote, so
the characters in between are unchanged. -/
theorem playTime_original_is_trimmed (d : PlayTime) (b : String) :
    ∃ pre suf : List Char,
      (∀ c ∈ pre, c = '"' ∨ c = '\'') ∧ (∀ c ∈ suf, c = '"' ∨ c = '\'') ∧
      b.toList = pre ++ (d.UnmarshalJSON b).1.Original.toList ++ suf ∧
      (∀ c, (d.UnmarshalJSON b).1.Original.toList.head? = some c → c ≠ '"' ∧ c ≠ '\'') ∧
      (∀ c, (d.UnmarshalJSON b).1.Original.toList.getLast? = some c →
        c ≠ '"' ∧ c ≠ '\'') := by
  rw [unmarshal_original, trimQuotes_toList]
  obtain ⟨pre, suf, h1, h2, h3, h4, h5⟩ := trim_decompose b.toList
  refine ⟨pre, suf, ?_, ?_, h3, ?_, ?_⟩
  · intro c hc; simpa [isQuote] using h1 c hc
  · intro c hc; simpa [isQuote] using h2 c hc
  · intro c hc; simpa [isQuote] using h4 c hc
  · intro c hc; simpa [isQuote] using h5 c hc

/-- C26: for a text `s` that neither starts nor ends with a quote character,
unmarshalling the bytes of `s` between double quotes and marshalling the result gives
these bytes back; and a PlayTime that was unmarshalled into a zero-valued receiver comes
back with the same Original and the same Duration when its marshalled form is
unmarshalled into a zero-valued receiver. -/
theorem playTime_round_trip :
    (∀ (d : PlayTime) (s : String),
      (∀ c, s.toList.head? = some c → c ≠ '"' ∧ c ≠ '\'') →
      (∀ c, s.toList.getLast? = some c → c ≠ '"' ∧ c ≠ '\'') →
      (d.UnmarshalJSON ("\"" ++ s ++ "\"")).1.MarshalJSON = ("\"" ++ s ++ "\"", none)) ∧
    (∀ b : String,
      (PlayTime.zero.UnmarshalJSON (PlayTime.zero.UnmarshalJSON b).1.MarshalJSON.1).1
        = (PlayTime.zero.UnmarshalJSON b).1) := by
  constructor
  · intro d s hh hl
    have e : trimQuotes ("\"" ++ s ++ "\"") = s :=
      trimQuotes_quoted s (fun c hc => by simpa [isQuote] using hh c hc)
        (fun c hc => by simpa [isQuote] using hl c hc)
    simp only [PlayTime.MarshalJSON, unmarshal_original, e]
  · intro b
    apply unmarshal_zero_of_trim
    simp only [PlayTime.MarshalJSON, unmarshal_original]
    exact trimQuotes_quoted _ (trimQuotes_ends b).1 (trimQuotes_ends b).2

/-- Witness for C26: the text `01:02:03`. -/
theorem playTime_round_trip_witness :
    (PlayTime.UnmarshalJSON ⟨"old", 7⟩ ("\"" ++ "01:02:03" ++ "\"")).1.MarshalJSON
      = ("\"" ++ "01:02:03" ++ "\"", none) :=
  playTime_round_trip.1 ⟨"old", 7⟩ "01:02:03" (by decide) (by decide)

/-- C28: `UnmarshalJSON` returns a nil error for every input and every receiver, and
sets Original; when the input splits at the colons into more than three parts, Duration
is left as it was. -/
theorem playTime_unmarshal_never_fails (d : PlayTime) (b : String) :
    (d.UnmarshalJSON b).2 = none ∧
    (d.UnmarshalJSON b).1.Original = trimQuotes b ∧
    (3 < (splitColon b).length → (d.UnmarshalJSON b).1.Duration = d.Duration) := by
  refine ⟨rfl, unmarshal_original d b, ?_⟩
  intro h
  exact unmarshal_many_parts d b (by rw [splitColon_trim_length]; exact h)

/-- Witness for C28: the text `1:2:3:4` has four parts. -/
theorem playTime_unmarshal_never_fails_witness :
    3 < (splitColon "\"1:2:3:4\"").length ∧
    (PlayTime.UnmarshalJSON ⟨"old", 7⟩ "\"1:2:3:4\"").1.Duration = 7 :=
  ⟨by decide, (playTime_unmarshal_never_fails ⟨"old", 7⟩ "\"1:2:3:4\"").2.2 (by decide)⟩

/-! ## Reading integers -/

theorem parseUintLoop_ok : ∀ (ds : List Char) (n : Nat), (∀ c ∈ ds, c.isDigit = true) →
    n * 10 ^ ds.length + decimalValue ds ≤ 18446744073709551615 →
    parseUintLoop ds n = .ok (n * 10 ^ ds.length + decimalValue ds) := by
  intro ds
  induction ds with
  | nil => intro n _ _; simp [parseUintLoop, decimalValue]
  | cons c ds ih =>
    intro n hd hle
    have hc : c.isDigit = true := hd c (by simp)
    have hds : ∀ x ∈ ds, x.isDigit = true := fun x hx => hd x (by simp [hx])
    have ih2 := ih (n * 10 + (c.toNat - 48)) hds
    rw [decimalValue_cons, List.length_cons, pow_succ] at hle ⊢
    have hP : 1 ≤ 10 ^ ds.length := Nat.one_le_pow _ _ (by decide)
    generalize 10 ^ ds.length = P at hle hP ih2 ⊢
    have e1 : n * (P * 10) = 10 * (n * P) := by ring
    have h1 : n ≤ n * P := Nat.le_mul_of_pos_right n hP
    have h2 : c.toNat - 48 ≤ (c.toNat - 48) * P := Nat.le_mul_of_pos_right _ hP
    have e2 : (n * 10 + (c.toNat - 48)) * P = 10 * (n * P) + (c.toNat - 48) * P := by ring
    rw [e1] at hle ⊢
    rw [e2] at ih2
    have g1 : ¬ 1844674407370955162 ≤ n := by omega
    have g2 : ¬ 18446744073709551615 < n * 10 + (c.toNat - 48) := by omega
    rw [parseUintLoop]
    simp only [hc, if_true, g1, g2, if_false]
    rw [ih2 (by omega)]
    congr 1
    omega

theorem parseUintLoop_syntax : ∀ (pre : List Char) (n : Nat) (c : Char) (rest : List Char),
    (∀ x ∈ pre, x.isDigit = true) → c.isDigit = false →
    n * 10 ^ pre.length + decimalValue pre ≤ 18446744073709551615 →
    parseUintLoop (pre ++ c :: rest) n = .syntaxError := by
  intro pre
  induction pre with
  | nil =>
    intro n c rest _ hc _
    rw [List.nil_append, parseUintLoop]
    simp [hc]
  | cons x pre ih =>
    intro n c rest hd hc hle
    have hx : x.isDigit = true := hd x (by simp)
    have hds : ∀ y ∈ pre, y.isDigit = true := fun y hy => hd y (by simp [hy])
    have ih2 := ih (n * 10 + (x.toNat - 48)) c rest hds hc
    rw [decimalValue_cons, List.length_cons, pow_succ] at hle
    have hP : 1 ≤ 10 ^ pre.length := Nat.one_le_pow _ _ (by decide)
    generalize 10 ^ pre.length = P at hle hP ih2
    have e1 : n * (P * 10) = 10 * (n * P) := by ring
    have h1 : n ≤ n * P := Nat.le_mul_of_pos_right n hP
    have h2 : x.toNat - 48 ≤ (x.toNat - 48) * P := Nat.le_mul_of_pos_right _ hP
    have e2 : (n * 10 + (x.toNat - 48)) * P = 10 * (n * P) + (x.toNat - 48) * P := by ring
    rw [e1] at hle
    rw [e2] at ih2
    have g1 : ¬ 1844674407370955162 ≤ n := by omega
    have g2 : ¬ 18446744073709551615 < n * 10 + (x.toNat - 48) := by omega
    rw [List.cons_append, parseUintLoop]
    simp only [hx, if_true, g1, g2, if_false]
    exact ih2 (by omega)

theorem Atoi_eq (s : String) :
    Atoi s =
      if unsignedPart s = [] then 0
      else
        match parseUintLoop (unsignedPart s) 0 with
        | .syntaxError => 0
        | .rangeError =>
          if s.toList.head? = some '-' then -9223372036854775808 else 9223372036854775807
        | .ok un =>
          if s.toList.head? = some '-' then
            (if 9223372036854775808 < un then -9223372036854775808 else -(un : Int))
          else (if 9223372036854775808 ≤ un then 9223372036854775807 else (un : Int)) := by
  simp only [Atoi, unsignedPart, decide_eq_true_eq]

theorem isBase10_iff (s : String) :
    isBase10 s = true ↔ unsignedPart s ≠ [] ∧ ∀ c ∈ unsignedPart s, c.isDigit = true := by
  simp [isBase10, List.isEmpty_iff]

/-- A valid base-10 text within the 64-bit range is read as its number. -/
theorem Atoi_valid (s : String) (hv : isBase10 s = true) (hf : fitsInt64 (base10Value s)) :
    Atoi s = base10Value s := by
  obtain ⟨hne, hd⟩ := (isBase10_iff s).1 hv
  rw [Atoi_eq, if_neg hne]
  unfold fitsInt64 base10Value at hf
  unfold base10Value
  have hv2 := parseUintLoop_ok (unsignedPart s) 0 hd
  simp only [Nat.zero_mul, Nat.zero_add] at hv2
  by_cases hneg : s.toList.head? = some '-'
  · simp only [hneg, if_true] at hf ⊢
    rw [hv2 (by omega)]
    simp only
    rw [if_neg (by omega)]
  · simp only [hneg, if_false] at hf ⊢
    rw [hv2 (by omega)]
    simp only
    rw [if_neg (by omega)]

/-- A text that is not a base-10 integer is read as zero, unless its leading digits
already exceed 64 bits. -/
theorem Atoi_invalid (s : String) (hv : isBase10 s = false)
    (hl : leadingDigitsValue s ≤ 18446744073709551615) : Atoi s = 0 := by
  rw [Atoi_eq]
  by_cases hne : unsignedPart s = []
  · rw [if_pos hne]
  · rw [if_neg hne]
    have hnd : ¬ ∀ c ∈ unsignedPart s, c.isDigit = true := by
      intro h
      have := (isBase10_iff s).2 ⟨hne, h⟩
      rw [hv] at this
      exact Bool.noConfusion this
    have hdrop : (unsignedPart s).dropWhile Char.isDigit ≠ [] := by
      intro h
      exact hnd (List.dropWhile_eq_nil_iff.1 h)
    have hsplit := List.takeWhile_append_dropWhile Char.isDigit (unsignedPart s)
    unfold leadingDigitsValue at hl
    cases hdw : (unsignedPart s).dropWhile Char.isDigit with
    | nil => exact absurd hdw hdrop
    | cons c rest =>
      have hc : c.isDigit = false := dropWhile_head_false (unsignedPart s) c (by rw [hdw]; rfl)
      rw [hdw] at hsplit
      have := parseUintLoop_syntax ((unsignedPart s).takeWhile Char.isDigit) 0 c rest
        (fun x hx => List.mem_takeWhile_imp hx) hc (by simpa using hl)
      rw [hsplit] at this
      rw [this]

theorem isBase10_chars (s : String) (hv : isBase10 s = true) :
    s.toList ≠ [] ∧ ∀ c ∈ s.toList, c = '-' ∨ c = '+' ∨ c.isDigit = true := by
  obtain ⟨hne, hd⟩ := (isBase10_iff s).1 hv
  unfold unsignedPart at hne hd
  cases hs : s.toList with
  | nil => rw [hs] at hne; simp at hne
  | cons x xs =>
    rw [hs] at hd
    refine ⟨by simp, ?_⟩
    intro c hc
    by_cases hx : x = '-' ∨ x = '+'
    · have hx2 : (x :: xs).head? = some '-' ∨ (x :: xs).head? = some '+' := by simpa using hx
      rw [if_pos hx2] at hd
      rcases List.mem_cons.1 hc with h | h
      · subst h; rcases hx with h | h
        · exact Or.inl h
        · exact Or.inr (Or.inl h)
      · exact Or.inr (Or.inr (hd c h))
    · have hx2 : ¬ ((x :: xs).head? = some '-' ∨ (x :: xs).head? = some '+') := by simpa using hx
      rw [if_neg hx2] at hd
      exact Or.inr (Or.inr (hd c hc))

theorem signOrDigit_plain (c : Char) (h : c = '-' ∨ c = '+' ∨ c.isDigit = true) :
    isQuote c = false ∧ c ≠ ':' := by
  rcases h with h | h | h
  · subst h; decide
  · subst h; decide
  · constructor
    · cases hq : isQuote c with
      | false => rfl
      | true =>
        have : c = '"' ∨ c = '\'' := by simpa [isQuote] using hq
        rcases this with e | e <;> (subst e; revert h; decide)
    · intro e; subst e; revert h; decide

/-! ## PlayTime: the duration of a text -/

theorem ends_of_all {P : Char → Prop} (l : List Char) (h : ∀ c ∈ l, P c) :
    (∀ c, l.head? = some c → P c) ∧ (∀ c, l.getLast? = some c → P c) := by
  constructor
  · intro c hc
    exact h c (List.mem_of_mem_head? hc)
  · intro c hc
    exact h c (List.mem_of_mem_getLast? hc)

theorem wrap64_of_fits (x : Int) (h : fitsInt64 x) : wrap64 x = x := by
  unfold fitsInt64 at h
  unfold wrap64
  omega

theorem wrap64_sum3 (a b c : Int) :
    wrap64 (wrap64 (wrap64 a + wrap64 b) + wrap64 c) = wrap64 (a + b + c) := by
  unfold wrap64
  omega

theorem wrap64_sum2 (a b : Int) : wrap64 (wrap64 a + wrap64 b) = wrap64 (a + b) := by
  unfold wrap64
  omega

theorem wrap64_sum1 (a : Int) : wrap64 (0 + wrap64 a) = wrap64 a := by
  unfold wrap64
  omega

theorem split_three (hs ms ss : String) (hh : isBase10 hs = true) (hm : isBase10 ms = true)
    (hsec : isBase10 ss = true) :
    trimQuotes ("\"" ++ (hs ++ ":" ++ ms ++ ":" ++ ss) ++ "\"") = hs ++ ":" ++ ms ++ ":" ++ ss ∧
    splitColon (hs ++ ":" ++ ms ++ ":" ++ ss) = [hs.toList, ms.toList, ss.toList] := by
  have e : (hs ++ ":" ++ ms ++ ":" ++ ss).toList
      = hs.toList ++ ':' :: (ms.toList ++ ':' :: ss.toList) := by
    simp [String.toList, String.data_append]
  have c1 := fun c hc => signOrDigit_plain c ((isBase10_chars hs hh).2 c hc)
  have c2 := fun c hc => signOrDigit_plain c ((isBase10_chars ms hm).2 c hc)
  have c3 := fun c hc => signOrDigit_plain c ((isBase10_chars ss hsec).2 c hc)
  constructor
  · have hall : ∀ c ∈ (hs ++ ":" ++ ms ++ ":" ++ ss).toList, isQuote c = false := by
      intro c hc
      rw [e] at hc
      simp only [List.mem_append, List.mem_cons] at hc
      rcases hc with h | h | h | h | h
      · exact (c1 c h).1
      · subst h; decide
      · exact (c2 c h).1
      · subst h; decide
      · exact (c3 c h).1
    exact trimQuotes_quoted _ (ends_of_all _ hall).1 (ends_of_all _ hall).2
  · unfold splitColon
    rw [e, splitColonAux_append _ _ _ (fun h => (c1 _ h).2 rfl),
      splitColonAux_append _ _ _ (fun h => (c2 _ h).2 rfl),
      splitColonAux_noColon _ _ (fun h => (c3 _ h).2 rfl)]
    simp

theorem split_two (ms ss : String) (hm : isBase10 ms = true) (hsec : isBase10 ss = true) :
    trimQuotes ("\"" ++ (ms ++ ":" ++ ss) ++ "\"") = ms ++ ":" ++ ss ∧
    splitColon (ms ++ ":" ++ ss) = [ms.toList, ss.toList] := by
  have e : (ms ++ ":" ++ ss).toList = ms.toList ++ ':' :: ss.toList := by
    simp [String.toList, String.data_append]
  have c2 := fun c hc => signOrDigit_plain c ((isBase10_chars ms hm).2 c hc)
  have c3 := fun c hc => signOrDigit_plain c ((isBase10_chars ss hsec).2 c hc)
  constructor
  · have hall : ∀ c ∈ (ms ++ ":" ++ ss).toList, isQuote c = false := by
      intro c hc
      rw [e] at hc
      simp only [List.mem_append, List.mem_cons] at hc
      rcases hc with h | h | h
      · exact (c2 c h).1
      · subst h; decide
      · exact (c3 c h).1
    exact trimQuotes_quoted _ (ends_of_all _ hall).1 (ends_of_all _ hall).2
  · unfold splitColon
    rw [e, splitColonAux_append _ _ _ (fun h => (c2 _ h).2 rfl),
      splitColonAux_noColon _ _ (fun h => (c3 _ h).2 rfl)]
    simp

theorem split_one (ss : String) (hsec : isBase10 ss = true) :
    trimQuotes ("\"" ++ ss ++ "\"") = ss ∧ splitColon ss = [ss.toList] := by
  have c3 := fun c hc => signOrDigit_plain c ((isBase10_chars ss hsec).2 c hc)
  constructor
  · have hall : ∀ c ∈ ss.toList, isQuote c = false := fun c hc => (c3 c hc).1
    exact trimQuotes_quoted _ (ends_of_all _ hall).1 (ends_of_all _ hall).2
  · unfold splitColon
    rw [splitColonAux_noColon _ _ (fun h => (c3 _ h).2 rfl)]
    simp

/-- C24 counterexample: the hours `9223372036854775808` and the minutes
`-553402322211286548480` cancel, so the total of `h:m:0` is zero and fits, but each is
beyond 64 bits and is read as the nearest end of the range: the Duration is minus one
hour. -/
theorem playTime_clamped_components :
    isBase10 "9223372036854775808" = true ∧ isBase10 "-553402322211286548480" = true ∧
    isBase10 "0" = true ∧
    Hour * base10Value "9223372036854775808"
      + Minute * base10Value "-553402322211286548480" + Second * base10Value "0" = 0 ∧
    (PlayTime.zero.UnmarshalJSON
      "\"9223372036854775808:-553402322211286548480:0\"").1.Duration = -3600000000000 := by
  decide

/-- C24, amended: decoding into a zero-valued PlayTime, for all integers h, m, s written
in base 10 (an optional sign and digits) that each fit in a signed 64-bit integer: when
the total fits in a signed 64-bit nanosecond count, the quoted text `h:m:s` sets Duration
to h hours + m minutes + s seconds, the two-part text `m:s` sets it to m minutes + s
seconds, and the one-part text `s` sets it to s seconds. -/
theorem playTime_duration_of_text (hs ms ss : String)
    (hh : isBase10 hs = true) (hm : isBase10 ms = true) (hsec : isBase10 ss = true)
    (fh : fitsInt64 (base10Value hs)) (fm : fitsInt64 (base10Value ms))
    (fs : fitsInt64 (base10Value ss)) :
    (fitsInt64 (Hour * base10Value hs + Minute * base10Value ms + Second * base10Value ss) →
      (PlayTime.zero.UnmarshalJSON ("\"" ++ (hs ++ ":" ++ ms ++ ":" ++ ss) ++ "\"")).1.Duration
        = Hour * base10Value hs + Minute * base10Value ms + Second * base10Value ss) ∧
    (fitsInt64 (Minute * base10Value ms + Second * base10Value ss) →
      (PlayTime.zero.UnmarshalJSON ("\"" ++ (ms ++ ":" ++ ss) ++ "\"")).1.Duration
        = Minute * base10Value ms + Second * base10Value ss) ∧
    (fitsInt64 (Second * base10Value ss) →
      (PlayTime.zero.UnmarshalJSON ("\"" ++ ss ++ "\"")).1.Duration
        = Second * base10Value ss) := by
  have ah := Atoi_valid hs hh fh
  have am := Atoi_valid ms hm fm
  have as := Atoi_valid ss hsec fs
  refine ⟨?_, ?_, ?_⟩
  · intro ht
    obtain ⟨e1, e2⟩ := split_three hs ms ss hh hm hsec
    rw [unmarshal_parts3 _ _ hs.toList ms.toList ss.toList (by rw [e1, e2])]
    show wrap64 (wrap64 (wrap64 (Hour * Atoi hs) + wrap64 (Minute * Atoi ms))
      + wrap64 (Second * Atoi ss)) = _
    rw [ah, am, as, wrap64_sum3, wrap64_of_fits _ ht]
  · intro ht
    obtain ⟨e1, e2⟩ := split_two ms ss hm hsec
    rw [unmarshal_parts2 _ _ ms.toList ss.toList (by rw [e1, e2])]
    show wrap64 (wrap64 (Minute * Atoi ms) + wrap64 (Second * Atoi ss)) = _
    rw [am, as, wrap64_sum2, wrap64_of_fits _ ht]
  · intro ht
    obtain ⟨e1, e2⟩ := split_one ss hsec
    rw [unmarshal_parts1 _ _ ss.toList (by rw [e1, e2])]
    show wrap64 (0 + wrap64 (Second * Atoi ss)) = _
    rw [as, wrap64_sum1, wrap64_of_fits _ ht]

/-- Witness for C24: the text `01:02:03`. -/
theorem playTime_duration_of_text_witness :
    (PlayTime.zero.UnmarshalJSON ("\"" ++ ("01" ++ ":" ++ "02" ++ ":" ++ "03") ++ "\"")).1.Duration
      = Hour * base10Value "01" + Minute * base10Value "02" + Second * base10Value "03" :=
  (playTime_duration_of_text "01" "02" "03" (by decide) (by decide) (by decide)
    (by unfold fitsInt64; decide) (by unfold fitsInt64; decide)
    (by unfold fitsInt64; decide)).1 (by unfold fitsInt64; decide)

/-! ## PlayTime: components that are not numbers -/

theorem countedValue_eq (s : String)
    (h : isBase10 s = false → leadingDigitsValue s ≤ 18446744073709551615) :
    countedValue s = Atoi s := by
  unfold countedValue
  cases hv : isBase10 s with
  | true => simp
  | false => simp [Atoi_invalid s hv (h hv)]

/-- C29 counterexample: the component `18446744073709551616x` is not a base-10 integer,
yet it does not count for zero: its digits exceed 64 bits before the letter is reached,
the minutes are read as the largest integer, and `18446744073709551616x:05` gives minus
55 seconds instead of 5 seconds. -/
theorem playTime_overlong_invalid_component :
    isBase10 "18446744073709551616x" = false ∧
    Atoi "18446744073709551616x" = 9223372036854775807 ∧
    (PlayTime.zero.UnmarshalJSON "\"18446744073709551616x:05\"").1.Duration
      = -55000000000 ∧
    (PlayTime.zero.UnmarshalJSON "\"18446744073709551616x:05\"").1.Duration
      ≠ 5 * Second := by
  decide

/-- C29, amended: a component that is not a valid base-10 integer (empty, containing
letters, spaces or a decimal point) counts for zero while the other components are still
counted, provided the digits before its first invalid character do not already exceed
the unsigned 64-bit range; `xx:05` decoded into a zero-valued PlayTime gives 5 seconds
and `1:xx:30` gives 1 hour 30 seconds. -/
theorem invalid_component_counts_zero :
    (∀ b : String,
      (∀ p ∈ splitColon (trimQuotes b), isBase10 (String.mk p) = false →
        leadingDigitsValue (String.mk p) ≤ 18446744073709551615) →
      (∀ p0 p1 p2, splitColon (trimQuotes b) = [p0, p1, p2] →
        (PlayTime.zero.UnmarshalJSON b).1.Duration =
          wrap64 (wrap64 (wrap64 (Hour * countedValue (String.mk p0))
            + wrap64 (Minute * countedValue (String.mk p1)))
            + wrap64 (Second * countedValue (String.mk p2)))) ∧
      (∀ p0 p1, splitColon (trimQuotes b) = [p0, p1] →
        (PlayTime.zero.UnmarshalJSON b).1.Duration =
          wrap64 (wrap64 (Minute * countedValue (String.mk p0))
            + wrap64 (Second * countedValue (String.mk p1)))) ∧
      (∀ p0, splitColon (trimQuotes b) = [p0] →
        (PlayTime.zero.UnmarshalJSON b).1.Duration
          = wrap64 (Second * countedValue (String.mk p0)))) ∧
    (∀ s : String, isBase10 s = false →
      leadingDigitsValue s ≤ 18446744073709551615 → countedValue s = 0 ∧ Atoi s = 0) ∧
    countedValue "" = 0 ∧ countedValue "1h" = 0 ∧ countedValue " 5" = 0 ∧
    countedValue "1.5" = 0 ∧
    (PlayTime.zero.UnmarshalJSON "\"xx:05\"").1.Duration = 5 * Second ∧
    (PlayTime.zero.UnmarshalJSON "\"1:xx:30\"").1.Duration = Hour + 30 * Second := by
  refine ⟨?_, ?_, by decide, by decide, by decide, by decide, by decide, by decide⟩
  · intro b hb
    refine ⟨?_, ?_, ?_⟩
    · intro p0 p1 p2 h
      rw [h] at hb
      rw [unmarshal_parts3 _ _ p0 p1 p2 h, countedValue_eq _ (hb p0 (by simp)),
        countedValue_eq _ (hb p1 (by simp)), countedValue_eq _ (hb p2 (by simp))]
    · intro p0 p1 h
      rw [h] at hb
      rw [unmarshal_parts2 _ _ p0 p1 h, countedValue_eq _ (hb p0 (by simp)),
        countedValue_eq _ (hb p1 (by simp))]
    · intro p0 h
      rw [h] at hb
      rw [unmarshal_parts1 _ _ p0 h, countedValue_eq _ (hb p0 (by simp))]
      exact wrap64_sum1 _
  · intro s hv hl
    exact ⟨by simp [countedValue, hv], Atoi_invalid s hv hl⟩

/-- Witness for C29: the text `1:x9:30`, whose middle component is not a number. -/
theorem invalid_component_counts_zero_witness :
    isBase10 "x9" = false ∧
    (PlayTime.zero.UnmarshalJSON "\"1:x9:30\"").1.Duration =
      wrap64 (wrap64 (wrap64 (Hour * countedValue (String.mk ['1']))
        + wrap64 (Minute * countedValue (String.mk ['x', '9'])))
        + wrap64 (Second * countedValue (String.mk ['3', '0']))) :=
  ⟨by decide, (invalid_component_counts_zero.1 "\"1:x9:30\"" (by decide)).1
    ['1'] ['x', '9'] ['3', '0'] (by decide)⟩

/-! ## Reading back a string literal -/

theorem hexValue_hexDigit : ∀ n : Fin 16, hexValue (hexDigit n.val) = some n.val := by
  decide

theorem getu4_low (n : Nat) (hn : n < 256) (tail : List Char) :
    getu4 ('\\' :: 'u' :: '0' :: '0' :: hexDigit (n / 16) :: hexDigit (n % 16) :: tail)
      = some n := by
  have h1 := hexValue_hexDigit ⟨n / 16, by omega⟩
  have h2 := hexValue_hexDigit ⟨n % 16, Nat.mod_lt _ (by decide)⟩
  have h0 : hexValue '0' = some 0 := by decide
  simp only [getu4, and_self, if_true, h0, h1, h2]
  congr 1
  omega

theorem data_mk_append (l : List Char) (t : List Char) : (String.mk l).data ++ t = l ++ t := rfl

/-- One step of the reader undoes one step of the writer. -/
theorem parseStringBody_escapeChar (c : Char) (tail acc : List Char) (fuel : Nat) :
    parseStringBody (fuel + 1) ((escapeChar c).data ++ tail) acc
      = parseStringBody fuel tail (acc ++ [c]) := by
  unfold escapeChar
  by_cases h1 : c = '\\'
  · subst h1; rfl
  rw [if_neg h1]
  by_cases h2 : c = '"'
  · subst h2; rfl
  rw [if_neg h2]
  by_cases h3 : c = Char.ofNat 8
  · subst h3; rfl
  rw [if_neg h3]
  by_cases h4 : c = Char.ofNat 12
  · subst h4; rfl
  rw [if_neg h4]
  by_cases h5 : c = '\n'
  · subst h5; rfl
  rw [if_neg h5]
  by_cases h6 : c = '\r'
  · subst h6; rfl
  rw [if_neg h6]
  by_cases h7 : c = '\t'
  · subst h7; rfl
  rw [if_neg h7]
  by_cases h8 : c.toNat < 32 ∨ c = '<' ∨ c = '>' ∨ c = '&'
  · rw [if_pos h8]
    have hn : c.toNat < 256 := by
      rcases h8 with h | h | h | h
      · omega
      · subst h; decide
      · subst h; decide
      · subst h; decide
    have hd : ("\\u00" ++ String.mk [hexDigit (c.toNat / 16), hexDigit (c.toNat % 16)]).data
        ++ tail
        = '\\' :: 'u' :: '0' :: '0' :: hexDigit (c.toNat / 16) :: hexDigit (c.toNat % 16)
            :: tail := by
      simp [String.data_append]
    rw [hd, parseStringBody]
    have hq : ¬ ('\\' = '"') := by decide
    simp only [hq, if_false, if_true, List.head?_cons, getu4_low c.toNat hn tail]
    have hs : ¬ (55296 ≤ c.toNat ∧ c.toNat < 57344) := by omega
    simp only [hs, if_false, List.drop_succ_cons, List.drop_zero]
    have hc : Char.ofNat c.toNat = c := by
      simp [Char.ofNat_toNat]
    rw [hc]
  rw [if_neg h8]
  by_cases h9 : c = Char.ofNat 8232
  · subst h9; rfl
  rw [if_neg h9]
  by_cases h10 : c = Char.ofNat 8233
  · subst h10; rfl
  rw [if_neg h10]
  show parseStringBody (fuel + 1) (c :: tail) acc = _
  rw [parseStringBody]
  have hlt : ¬ c.toNat < 32 := fun h => h8 (Or.inl h)
  simp only [h2, h1, hlt, if_false]

theorem parseStringBody_join : ∀ (cs acc : List Char) (fuel : Nat) (rest : List Char),
    cs.length < fuel →
    parseStringBody fuel ((String.join (cs.map escapeChar)).data ++ '"' :: rest) acc
      = some (String.mk (acc ++ cs), rest) := by
  intro cs
  induction cs with
  | nil =>
    intro acc fuel rest h
    cases fuel with
    | zero => omega
    | succ fuel =>
      simp [parseStringBody]
  | cons c cs ih =>
    intro acc fuel rest h
    cases fuel with
    | zero => omega
    | succ fuel =>
      have e : (String.join ((c :: cs).map escapeChar)).data ++ '"' :: rest
          = (escapeChar c).data ++ ((String.join (cs.map escapeChar)).data ++ '"' :: rest) := by
        simp [String.data_join]
      rw [e, parseStringBody_escapeChar, ih _ _ _ (by simpa using h)]
      simp

theorem appendString_data (s : String) :
    (appendString s).data = '"' :: ((String.join (s.toList.map escapeChar)).data ++ ['"']) := by
  simp [appendString, String.data_append]

/-- Reading back a string the encoder wrote. -/
theorem parseStringBody_appendString (s : String) (fuel : Nat) (rest : List Char)
    (h : s.length < fuel) :
    ∃ body, (appendString s).data ++ rest = '"' :: body ∧
      parseStringBody fuel body [] = some (s, rest) := by
  refine ⟨(String.join (s.toList.map escapeChar)).data ++ '"' :: rest, ?_, ?_⟩
  · rw [appendString_data]; simp
  · have := parseStringBody_join s.data [] fuel rest h
    simpa using this

/-! ## Reading back a number literal -/

theorem takeWhile_dropWhile_append {p : Char → Bool} (ds tl : List Char)
    (hds : ∀ c ∈ ds, p c = true) (htl : ∀ c, tl.head? = some c → p c = false) :
    (ds ++ tl).takeWhile p = ds ∧ (ds ++ tl).dropWhile p = tl := by
  induction ds with
  | nil =>
    cases tl with
    | nil => simp
    | cons x tl =>
      have hx : p x = false := htl x rfl
      simp [List.takeWhile_cons, List.dropWhile_cons, hx]
  | cons d ds ih =>
    have hd : p d = true := hds d (by simp)
    have := ih (fun c hc => hds c (by simp [hc]))
    simp [List.takeWhile_cons, List.dropWhile_cons, hd, this.1, this.2]

theorem toString_digit_data : ∀ d : Fin 10, (toString d.val).data = [Nat.digitChar d.val] := by
  decide

theorem digitOf_digitChar : ∀ d : Fin 10, digitOf (Nat.digitChar d.val) = d := by
  decide

theorem isDigit_digitChar : ∀ d : Fin 10, (Nat.digitChar d.val).isDigit = true := by
  decide

theorem frac_data (frac : List (Fin 10)) :
    (String.join (frac.map fun d => toString d.val)).data
      = frac.map fun d => Nat.digitChar d.val := by
  rw [String.data_join]
  induction frac with
  | nil => rfl
  | cons d frac ih =>
    simp only [List.map_cons, List.flatten_cons, ih, toString_digit_data]
    rfl

/-- The characters of a number literal: sign, integer digits, fraction part, exponent
part. -/
theorem render_number_data (n : JNumber) :
    n.render.data =
      (if n.neg then ['-'] else []) ++ (toString n.int).data
        ++ (if n.frac = [] then [] else '.' :: n.frac.map fun d => Nat.digitChar d.val)
        ++ (match n.exp with
            | none => []
            | some e => 'e' :: (if e < 0 then '-' else '+') :: (toString e.natAbs).data) := by
  obtain ⟨neg, int, frac, exp⟩ := n
  have hs : (if neg = true then "-" else "").data = if neg = true then ['-'] else [] := by
    cases neg <;> rfl
  have hf : (if frac = [] then ""
      else "." ++ String.join (frac.map fun d => toString d.val)).data
      = if frac = [] then [] else '.' :: frac.map fun d => Nat.digitChar d.val := by
    split
    · rfl
    · rw [String.data_append, frac_data]; rfl
  cases exp with
  | none =>
    simp only [JNumber.render, String.data_append, hs, hf]
  | some e =>
    have he : (if e < 0 then "-" else "+").data = [if e < 0 then '-' else '+'] := by
      split <;> rfl
    simp only [JNumber.render, String.data_append, hs, hf, he]
    simp [String.data_append, he]

theorem delim_plain (rest : List Char)
    (hrest : ∀ c, rest.head? = some c → c = ',' ∨ c = ']' ∨ c = '\x7d') :
    ∀ c, rest.head? = some c →
      c.isDigit = false ∧ c ≠ '.' ∧ c ≠ 'e' ∧ c ≠ 'E' ∧ isWS c = false := by
  intro c hc
  rcases hrest c hc with h | h | h <;> subst h <;> decide

theorem parseExp_render (exp : Option Int) (rest : List Char)
    (hrest : ∀ c, rest.head? = some c → c = ',' ∨ c = ']' ∨ c = '\x7d') :
    parseExp ((match exp with
        | none => []
        | some e => 'e' :: (if e < 0 then '-' else '+') :: (toString e.natAbs).data) ++ rest)
      = some (exp, rest) := by
  have hp := delim_plain rest hrest
  cases exp with
  | none =>
    have h1 : ¬ (rest.head? = some 'e' ∨ rest.head? = some 'E') := by
      rintro (h | h)
      · exact (hp _ h).2.2.1 rfl
      · exact (hp _ h).2.2.2.1 rfl
    simp only [List.nil_append, parseExp, h1, if_false]
  | some e =>
    have htd := takeWhile_dropWhile_append (toString e.natAbs).data rest
      (toString_nat_isDigit e.natAbs) (fun c hc => (hp c hc).1)
    have hne : (toString e.natAbs).data ≠ [] := toString_nat_ne_nil e.natAbs
    have hval : decimalValue (toString e.natAbs).data = e.natAbs := toString_nat_value e.natAbs
    by_cases he : e < 0
    · simp only [he, if_true, List.cons_append, parseExp, List.head?_cons, true_or, if_true,
        List.tail_cons, htd.1, htd.2, hne, if_false, hval]
      congr 3
      omega
    · have hpm : ¬ ('+' = '-') := by decide
      simp only [he, if_false, List.cons_append, parseExp, List.head?_cons, true_or, if_true,
        List.tail_cons, Option.some.injEq, hpm, or_true, htd.1, htd.2, hne, hval]
      congr 3
      omega

theorem parseFrac_render (frac : List (Fin 10)) (tl : List Char)
    (htl : ∀ c, tl.head? = some c → c.isDigit = false ∧ c ≠ '.') :
    parseFrac ((if frac = [] then [] else '.' :: frac.map fun d => Nat.digitChar d.val) ++ tl)
      = some (frac, tl) := by
  by_cases hf : frac = []
  · subst hf
    have h1 : ¬ (tl.head? = some '.') := fun h => (htl _ h).2 rfl
    simp only [if_true, List.nil_append, parseFrac, h1, if_false]
  · have htd := takeWhile_dropWhile_append (frac.map fun d => Nat.digitChar d.val) tl
      (by
        intro c hc
        obtain ⟨d, _, rfl⟩ := List.mem_map.1 hc
        exact isDigit_digitChar d)
      (fun c hc => (htl c hc).1)
    have hne : (frac.map fun d => Nat.digitChar d.val) ≠ [] := by
      simpa using hf
    have hmap : (frac.map fun d => Nat.digitChar d.val).map digitOf = frac := by
      rw [List.map_map]
      conv_rhs => rw [← List.map_id frac]
      apply List.map_congr_left
      intro d _
      exact digitOf_digitChar d
    simp only [hf, if_false, List.cons_append, parseFrac, List.head?_cons, if_true,
      List.tail_cons, htd.1, htd.2, hne, hmap]

theorem head_exp_part (exp : Option Int) (rest : List Char)
    (hrest : ∀ c, rest.head? = some c → c = ',' ∨ c = ']' ∨ c = '\x7d') :
    ∀ c, ((match exp with
        | none => []
        | some e => 'e' :: (if e < 0 then '-' else '+') :: (toString e.natAbs).data)
          ++ rest).head? = some c → c.isDigit = false ∧ c ≠ '.' := by
  intro c hc
  cases exp with
  | none =>
    have := delim_plain rest hrest c (by simpa using hc)
    exact ⟨this.1, this.2.1⟩
  | some e =>
    simp only [List.cons_append, List.head?_cons, Option.some.injEq] at hc
    subst hc
    decide

theorem head_frac_part (frac : List (Fin 10)) (tl : List Char)
    (htl : ∀ c, tl.head? = some c → c.isDigit = false ∧ c ≠ '.') :
    ∀ c, ((if frac = [] then [] else '.' :: frac.map fun d => Nat.digitChar d.val)
          ++ tl).head? = some c → c.isDigit = false := by
  intro c hc
  by_cases hf : frac = []
  · simp only [hf, if_true, List.nil_append] at hc
    exact (htl c hc).1
  · simp only [hf, if_false, List.cons_append, List.head?_cons, Option.some.injEq] at hc
    subst hc
    decide

theorem int_digits_shape (k : Nat) :
    (toString k).data ≠ [] ∧
    ¬ ((toString k).data.head? = some '0' ∧ 1 < (toString k).data.length) ∧
    (toString k).data.head? ≠ some '-' := by
  refine ⟨toString_nat_ne_nil k, ?_, ?_⟩
  · by_cases hk : k = 0
    · subst hk
      decide
    · intro h
      exact toString_nat_no_leading_zero k (by omega) h.1
  · intro h
    have hmem : '-' ∈ (toString k).toList := List.mem_of_mem_head? h
    have := toString_nat_isDigit k '-' hmem
    revert this
    decide

theorem parseNumber_core (neg : Bool) (I T XR rest : List Char) (int : Nat)
    (frac : List (Fin 10)) (exp : Option Int)
    (hI : I ≠ [] ∧ ¬ (I.head? = some '0' ∧ 1 < I.length) ∧ I.head? ≠ some '-')
    (htd : (I ++ T).takeWhile Char.isDigit = I ∧ (I ++ T).dropWhile Char.isDigit = T)
    (hval : decimalValue I = int)
    (hfrac : parseFrac T = some (frac, XR)) (hexp : parseExp XR = some (exp, rest)) :
    parseNumber ((if neg then ['-'] else []) ++ (I ++ T))
      = some ({ neg := neg, int := int, frac := frac, exp := exp }, rest) := by
  have hor : ¬ (I = [] ∨ (I.head? = some '0' ∧ 1 < I.length)) := by
    rintro (h | h)
    · exact hI.1 h
    · exact hI.2.1 h
  cases neg with
  | true =>
    simp only [if_true, List.cons_append, List.nil_append, parseNumber, List.head?_cons,
      List.tail_cons, htd.1, htd.2, hor, if_false, hfrac, hexp, hval, decide_True]
  | false =>
    have hh : ¬ ((I ++ T).head? = some '-') := by
      intro h
      apply hI.2.2
      cases I with
      | nil => exact absurd rfl hI.1
      | cons a as => simpa using h
    simp only [Bool.false_eq_true, if_false, List.nil_append, parseNumber, hh, htd.1, htd.2,
      hor, hfrac, hexp, hval, decide_False]

/-- Reading back a number literal the encoder wrote, followed by a separator or by the
end of the text. -/
theorem parseNumber_render (n : JNumber) (rest : List Char)
    (hrest : ∀ c, rest.head? = some c → c = ',' ∨ c = ']' ∨ c = '\x7d') :
    parseNumber (n.render.data ++ rest) = some (n, rest) := by
  obtain ⟨neg, int, frac, exp⟩ := n
  rw [render_number_data]
  simp only [List.append_assoc]
  have hX := head_exp_part exp rest hrest
  have hT := head_frac_part frac _ hX
  exact parseNumber_core neg _ _ _ rest int frac exp (int_digits_shape int)
    (takeWhile_dropWhile_append (toString int).data _ (toString_nat_isDigit int) hT)
    (toString_nat_value int) (parseFrac_render frac _ hX) (parseExp_render exp rest hrest)

/-! ## Reading back a JSON value -/

theorem skipWS_of_head (cs : List Char) (h : ∀ c, cs.head? = some c → isWS c = false) :
    skipWS cs = cs := by
  cases cs with
  | nil => rfl
  | cons c cs =>
    have hc : isWS c = false := h c rfl
    simp [skipWS, List.dropWhile_cons, hc]

theorem escapeChar_length (c : Char) : 1 ≤ (escapeChar c).data.length := by
  unfold escapeChar
  repeat' split
  all_goals first
    | decide
    | simp [String.data_append]

theorem join_escape_length : ∀ cs : List Char,
    cs.length ≤ (String.join (cs.map escapeChar)).data.length := by
  intro cs
  induction cs with
  | nil => simp
  | cons c cs ih =>
    have := escapeChar_length c
    simp only [String.data_join, List.map_cons, List.flatten_cons, List.length_append,
      List.length_cons] at ih ⊢
    omega

theorem appendString_length (s : String) : s.length + 2 ≤ (appendString s).data.length := by
  rw [appendString_data]
  have := join_escape_length s.data
  simp only [List.length_cons, List.length_append, List.length_nil]
  show s.data.length + 2 ≤ (String.join (s.data.map escapeChar)).data.length + (0 + 1) + 1
  omega

/-- The first character of a number literal is a minus sign or a digit. -/
theorem number_head (n : JNumber) :
    ∃ c tl, n.render.data = c :: tl ∧ (c = '-' ∨ c.isDigit = true) := by
  rw [render_number_data]
  simp only [List.append_assoc]
  cases hneg : n.neg with
  | true => exact ⟨'-', _, rfl, Or.inl rfl⟩
  | false =>
    cases hd : (toString n.int).data with
    | nil => exact absurd hd (toString_nat_ne_nil n.int)
    | cons a as =>
      refine ⟨a, _, rfl, Or.inr ?_⟩
      exact toString_nat_isDigit n.int a (by show a ∈ (toString n.int).data; rw [hd]; simp)

theorem minus_or_digit_plain (c : Char) (h : c = '-' ∨ c.isDigit = true) :
    c ≠ 'n' ∧ c ≠ 't' ∧ c ≠ 'f' ∧ c ≠ '"' ∧ c ≠ '[' ∧ c ≠ '\x7b' ∧ isWS c = false ∧
      c ≠ ']' ∧ c ≠ '\x7d' := by
  rcases h with h | h
  · subst h; decide
  · refine ⟨?_, ?_, ?_, ?_, ?_, ?_, ?_, ?_, ?_⟩
    all_goals first
      | (intro e; subst e; revert h; decide)
      | (cases hw : isWS c with
         | false => rfl
         | true =>
           have : c = ' ' ∨ c = '\t' ∨ c = '\r' ∨ c = '\n' := by
             simpa [isWS, or_assoc] using hw
           rcases this with e | e | e | e <;> (subst e; revert h; decide))

/-- The first character of the text of a value is neither white space nor a closing
bracket or brace. -/
theorem render_head (j : JSON) :
    ∃ c tl, j.render.data = c :: tl ∧ isWS c = false ∧ c ≠ ']' ∧ c ≠ '\x7d' := by
  cases j with
  | null => exact ⟨'n', ['u', 'l', 'l'], by rw [render_null], by decide, by decide, by decide⟩
  | bool b =>
    cases b with
    | true => exact ⟨'t', ['r', 'u', 'e'], by simp [render_bool], by decide, by decide, by decide⟩
    | false =>
      exact ⟨'f', ['a', 'l', 's', 'e'], by simp [render_bool], by decide, by decide, by decide⟩
  | num n =>
    obtain ⟨c, tl, h, hc⟩ := number_head n
    have := minus_or_digit_plain c hc
    exact ⟨c, tl, by rw [render_num]; exact h, this.2.2.2.2.2.2.1, this.2.2.2.2.2.2.2.1,
      this.2.2.2.2.2.2.2.2⟩
  | str s =>
    exact ⟨'"', _, by rw [render_str, appendString_data], by decide, by decide, by decide⟩
  | arr xs =>
    exact ⟨'[', (renderElems xs ++ "]").data, by
      rw [render_arr]; simp [String.data_append], by decide, by decide, by decide⟩
  | obj kvs =>
    exact ⟨'\x7b', (renderMembers kvs ++ "\x7d").data, by
      rw [render_obj]; simp [String.data_append], by decide, by decide, by decide⟩

theorem skipWS_render (j : JSON) (rest : List Char) :
    skipWS (j.render.data ++ rest) = j.render.data ++ rest ∧
    (j.render.data ++ rest).head? ≠ some ']' ∧
    (j.render.data ++ rest).head? ≠ some '\x7d' := by
  obtain ⟨c, tl, h, hw, h1, h2⟩ := render_head j
  rw [h]
  refine ⟨skipWS_of_head _ ?_, ?_, ?_⟩
  · intro d hd
    simp only [List.cons_append, List.head?_cons, Option.some.injEq] at hd
    subst hd; exact hw
  · simpa using h1
  · simpa using h2

theorem renderElems_data_cons (x : JSON) (xs : List JSON) :
    ∃ tl, (renderElems (x :: xs)).data = x.render.data ++ tl ∧
      (renderElems (x :: xs)).data.length = x.render.data.length + tl.length := by
  cases xs with
  | nil => exact ⟨[], by rw [renderElems]; simp, by rw [renderElems]; simp⟩
  | cons y r =>
    exact ⟨',' :: (renderElems (y :: r)).data, by
      rw [renderElems]; simp [String.data_append], by
      rw [renderElems]; simp [String.data_append]⟩

theorem renderMembers_data_cons (k : String) (v : JSON) (kvs : List (String × JSON)) :
    ∃ tl, (renderMembers ((k, v) :: kvs)).data = '"' :: tl := by
  cases kvs with
  | nil =>
    exact ⟨_, by rw [renderMembers]; simp only [String.data_append, appendString_data]; rfl⟩
  | cons m r =>
    exact ⟨_, by rw [renderMembers]; simp only [String.data_append, appendString_data]; rfl⟩

theorem sep_delim (c : Char) (h : c = ',' ∨ c = ']' ∨ c = '\x7d') (tl : List Char) :
    (∀ d, (c :: tl).head? = some d → d = ',' ∨ d = ']' ∨ d = '\x7d') ∧
    skipWS (c :: tl) = c :: tl := by
  refine ⟨?_, ?_⟩
  · intro d hd
    simp only [List.head?_cons, Option.some.injEq] at hd
    subst hd; exact h
  · apply skipWS_of_head
    intro d hd
    simp only [List.head?_cons, Option.some.injEq] at hd
    subst hd
    rcases h with h | h | h <;> subst h <;> decide

theorem colon_skip (tl : List Char) :
    skipWS (':' :: tl) = ':' :: tl ∧ (':' :: tl).head? = some ':' :=
  ⟨skipWS_of_head _ (by
    intro d hd
    simp only [List.head?_cons, Option.some.injEq] at hd
    subst hd; decide), rfl⟩

theorem parse_key (k : String) (tl : List Char) :
    ∃ body, (appendString k).data ++ tl = '"' :: body ∧
      parseStringBody (body.length + 1) body [] = some (k, tl) := by
  refine ⟨(String.join (k.data.map escapeChar)).data ++ '"' :: tl, ?_, ?_⟩
  · rw [appendString_data]; simp
  · have hl := join_escape_length k.data
    have := parseStringBody_join k.data []
      (((String.join (k.data.map escapeChar)).data ++ '"' :: tl).length + 1) tl (by
        simp only [List.length_append, List.length_cons]; omega)
    simpa using this

mutual
/-- The reader gives back a value from the text the encoder wrote for it, and stops right
after it. -/
theorem parseValue_render : ∀ (j : JSON) (fuel : Nat) (rest : List Char),
    j.render.data.length < fuel →
    (∀ c, rest.head? = some c → c = ',' ∨ c = ']' ∨ c = '\x7d') →
    parseValue fuel (j.render.data ++ rest) = some (j, rest)
  | .null, fuel, rest, hf, _ => by
    cases fuel with
    | zero => omega
    | succ fuel =>
      rw [render_null]
      show parseValue (fuel + 1) ('n' :: 'u' :: 'l' :: 'l' :: rest) = _
      simp [parseValue]
  | .bool true, fuel, rest, hf, _ => by
    cases fuel with
    | zero => omega
    | succ fuel =>
      show parseValue (fuel + 1) ('t' :: 'r' :: 'u' :: 'e' :: rest) = _
      simp [parseValue]
  | .bool false, fuel, rest, hf, _ => by
    cases fuel with
    | zero => omega
    | succ fuel =>
      show parseValue (fuel + 1) ('f' :: 'a' :: 'l' :: 's' :: 'e' :: rest) = _
      simp [parseValue]
  | .num n, fuel, rest, hf, hrest => by
    cases fuel with
    | zero => omega
    | succ fuel =>
      obtain ⟨c, tl, h, hc⟩ := number_head n
      have hp := minus_or_digit_plain c hc
      have hn := parseNumber_render n rest hrest
      rw [render_num]
      rw [h] at hn ⊢
      rw [List.cons_append] at hn ⊢
      rw [parseValue]
      simp only [hp.1, hp.2.1, hp.2.2.1, hp.2.2.2.1, hp.2.2.2.2.1, hp.2.2.2.2.2.1, if_false, hn]
  | .str s, fuel, rest, hf, _ => by
    cases fuel with
    | zero => omega
    | succ fuel =>
      rw [render_str]
      obtain ⟨body, hb, hparse⟩ := parse_key s rest
      rw [hb, parseValue]
      have h1 : ¬ ('"' = 'n') := by decide
      have h2 : ¬ ('"' = 't') := by decide
      have h3 : ¬ ('"' = 'f') := by decide
      simp only [h1, h2, h3, if_false, if_true, hparse]
  | .arr [], fuel, rest, hf, _ => by
    cases fuel with
    | zero => omega
    | succ fuel =>
      show parseValue (fuel + 1) ('[' :: ']' :: rest) = _
      have hs : skipWS (']' :: rest) = ']' :: rest :=
        skipWS_of_head _ (by
          intro d hd
          simp only [List.head?_cons, Option.some.injEq] at hd
          subst hd; decide)
      rw [parseValue]
      have h1 : ¬ ('[' = 'n') := by decide
      have h2 : ¬ ('[' = 't') := by decide
      have h3 : ¬ ('[' = 'f') := by decide
      have h4 : ¬ ('[' = '"') := by decide
      simp only [h1, h2, h3, h4, if_false, if_true, hs, List.head?_cons, List.tail_cons]
  | .arr (x :: xs), fuel, rest, hf, hrest => by
    cases fuel with
    | zero => omega
    | succ fuel =>
      have htext : (JSON.arr (x :: xs)).render.data ++ rest
          = '[' :: ((renderElems (x :: xs)).data ++ ']' :: rest) := by
        rw [render_arr]; simp [String.data_append]
      have hlen : (JSON.arr (x :: xs)).render.data.length
          = (renderElems (x :: xs)).data.length + 2 := by
        rw [render_arr]; simp [String.data_append]
      obtain ⟨tl, htl, _⟩ := renderElems_data_cons x xs
      have hsk := skipWS_render x (tl ++ ']' :: rest)
      have hE : (renderElems (x :: xs)).data ++ ']' :: rest
          = x.render.data ++ (tl ++ ']' :: rest) := by
        rw [htl, List.append_assoc]
      have hrec := parseElems_render (x :: xs) fuel rest (by simp) (by omega) hrest
      rw [htext, parseValue]
      have h1 : ¬ ('[' = 'n') := by decide
      have h2 : ¬ ('[' = 't') := by decide
      have h3 : ¬ ('[' = 'f') := by decide
      have h4 : ¬ ('[' = '"') := by decide
      rw [hE] at hrec ⊢
      simp only [h1, h2, h3, h4, if_false, if_true, hsk.1, hsk.2.1, hrec]
  | .obj [], fuel, rest, hf, _ => by
    cases fuel with
    | zero => omega
    | succ fuel =>
      show parseValue (fuel + 1) ('\x7b' :: '\x7d' :: rest) = _
      have hs : skipWS ('\x7d' :: rest) = '\x7d' :: rest :=
        skipWS_of_head _ (by
          intro d hd
          simp only [List.head?_cons, Option.some.injEq] at hd
          subst hd; decide)
      rw [parseValue]
      have h1 : ¬ ('\x7b' = 'n') := by decide
      have h2 : ¬ ('\x7b' = 't') := by decide
      have h3 : ¬ ('\x7b' = 'f') := by decide
      have h4 : ¬ ('\x7b' = '"') := by decide
      have h5 : ¬ ('\x7b' = '[') := by decide
      simp only [h1, h2, h3, h4, h5, if_false, if_true, hs, List.head?_cons, List.tail_cons]
  | .obj ((k, v) :: kvs), fuel, rest, hf, hrest => by
    cases fuel with
    | zero => omega
    | succ fuel =>
      have htext : (JSON.obj ((k, v) :: kvs)).render.data ++ rest
          = '\x7b' :: ((renderMembers ((k, v) :: kvs)).data ++ '\x7d' :: rest) := by
        rw [render_obj]; simp [String.data_append]
      have hlen : (JSON.obj ((k, v) :: kvs)).render.data.length
          = (renderMembers ((k, v) :: kvs)).data.length + 2 := by
        rw [render_obj]; simp [String.data_append]
      obtain ⟨tl, htl⟩ := renderMembers_data_cons k v kvs
      have hsk : skipWS ('"' :: (tl ++ '\x7d' :: rest)) = '"' :: (tl ++ '\x7d' :: rest) :=
        skipWS_of_head _ (by
          intro d hd
          simp only [List.head?_cons, Option.some.injEq] at hd
          subst hd; decide)
      have hE : (renderMembers ((k, v) :: kvs)).data ++ '\x7d' :: rest
          = '"' :: (tl ++ '\x7d' :: rest) := by
        rw [htl, List.cons_append]
      have hrec := parseMembers_render ((k, v) :: kvs) fuel rest (by simp) (by omega) hrest
      rw [htext, parseValue]
      have h1 : ¬ ('\x7b' = 'n') := by decide
      have h2 : ¬ ('\x7b' = 't') := by decide
      have h3 : ¬ ('\x7b' = 'f') := by decide
      have h4 : ¬ ('\x7b' = '"') := by decide
      have h5 : ¬ ('\x7b' = '[') := by decide
      have h6 : ¬ (some '"' = some '\x7d') := by decide
      rw [hE] at hrec ⊢
      simp only [h1, h2, h3, h4, h5, h6, if_false, if_true, hsk, List.head?_cons, hrec]
theorem parseElems_render : ∀ (xs : List JSON) (fuel : Nat) (rest : List Char),
    xs ≠ [] → (renderElems xs).data.length + 1 < fuel →
    (∀ c, rest.head? = some c → c = ',' ∨ c = ']' ∨ c = '\x7d') →
    parseElems fuel ((renderElems xs).data ++ ']' :: rest) = some (xs, rest)
  | [], _, _, hne, _, _ => absurd rfl hne
  | [x], fuel, rest, _, hf, hrest => by
    cases fuel with
    | zero => omega
    | succ fuel =>
      rw [renderElems] at hf ⊢
      have hd := sep_delim ']' (Or.inr (Or.inl rfl)) rest
      have hv := parseValue_render x fuel (']' :: rest) (by omega) hd.1
      have hc : ¬ (some ']' = some ',') := by decide
      rw [parseElems]
      simp only [hv, hd.2, List.head?_cons, hc, if_false, if_true, List.tail_cons]
  | x :: y :: r, fuel, rest, _, hf, hrest => by
    cases fuel with
    | zero => omega
    | succ fuel =>
      have htext : (renderElems (x :: y :: r)).data ++ ']' :: rest
          = x.render.data ++ ',' :: ((renderElems (y :: r)).data ++ ']' :: rest) := by
        rw [renderElems]; simp [String.data_append]
      have hlen : (renderElems (x :: y :: r)).data.length
          = x.render.data.length + 1 + (renderElems (y :: r)).data.length := by
        rw [renderElems]; simp [String.data_append]; omega
      have hd := sep_delim ',' (Or.inl rfl) ((renderElems (y :: r)).data ++ ']' :: rest)
      have hv := parseValue_render x fuel
        (',' :: ((renderElems (y :: r)).data ++ ']' :: rest)) (by omega) hd.1
      obtain ⟨tl, htl, _⟩ := renderElems_data_cons y r
      have hsk := skipWS_render y (tl ++ ']' :: rest)
      have hE : (renderElems (y :: r)).data ++ ']' :: rest
          = y.render.data ++ (tl ++ ']' :: rest) := by
        rw [htl, List.append_assoc]
      have hrec := parseElems_render (y :: r) fuel rest (by simp) (by omega) hrest
      rw [htext, parseElems]
      rw [hE] at hrec hv hd ⊢
      simp only [hv, hd.2, List.head?_cons, if_true, List.tail_cons, hsk.1, hrec]
theorem parseMembers_render : ∀ (kvs : List (String × JSON)) (fuel : Nat) (rest : List Char),
    kvs ≠ [] → (renderMembers kvs).data.length + 1 < fuel →
    (∀ c, rest.head? = some c → c = ',' ∨ c = ']' ∨ c = '\x7d') →
    parseMembers fuel ((renderMembers kvs).data ++ '\x7d' :: rest) = some (kvs, rest)
  | [], _, _, hne, _, _ => absurd rfl hne
  | [(k, v)], fuel, rest, _, hf, hrest => by
    cases fuel with
    | zero => omega
    | succ fuel =>
      have hlen : (renderMembers [(k, v)]).data.length
          = (appendString k).data.length + 1 + v.render.data.length := by
        rw [renderMembers]; simp [String.data_append]; omega
      obtain ⟨body, hb, hparse⟩ := parse_key k (':' :: (v.render.data ++ '\x7d' :: rest))
      have htext : (renderMembers [(k, v)]).data ++ '\x7d' :: rest = '"' :: body := by
        rw [← hb, renderMembers]; simp [String.data_append]
      have hcol := colon_skip (v.render.data ++ '\x7d' :: rest)
      have hskv := skipWS_render v ('\x7d' :: rest)
      have hd := sep_delim '\x7d' (Or.inr (Or.inr rfl)) rest
      have hv := parseValue_render v fuel ('\x7d' :: rest) (by omega) hd.1
      have hc : ¬ (some '\x7d' = some ',') := by decide
      rw [htext, parseMembers]
      simp only [List.head?_cons, if_true, List.tail_cons, hparse, hcol.1, hskv.1, hv, hd.2,
        hc, if_false]
  | (k, v) :: m :: r, fuel, rest, _, hf, hrest => by
    cases fuel with
    | zero => omega
    | succ fuel =>
      have hlen : (renderMembers ((k, v) :: m :: r)).data.length
          = (appendString k).data.length + 1 + v.render.data.length + 1
            + (renderMembers (m :: r)).data.length := by
        rw [renderMembers]; simp [String.data_append]; omega
      obtain ⟨body, hb, hparse⟩ := parse_key k
        (':' :: (v.render.data ++ ',' :: ((renderMembers (m :: r)).data ++ '\x7d' :: rest)))
      have htext : (renderMembers ((k, v) :: m :: r)).data ++ '\x7d' :: rest
          = '"' :: body := by
        rw [← hb, renderMembers]; simp [String.data_append]
      have hcol := colon_skip
        (v.render.data ++ ',' :: ((renderMembers (m :: r)).data ++ '\x7d' :: rest))
      have hskv := skipWS_render v
        (',' :: ((renderMembers (m :: r)).data ++ '\x7d' :: rest))
      have hd := sep_delim ',' (Or.inl rfl) ((renderMembers (m :: r)).data ++ '\x7d' :: rest)
      have hv := parseValue_render v fuel
        (',' :: ((renderMembers (m :: r)).data ++ '\x7d' :: rest)) (by omega) hd.1
      obtain ⟨tl, htl⟩ := renderMembers_data_cons m.1 m.2 r
      have hE : (renderMembers (m :: r)).data ++ '\x7d' :: rest
          = '"' :: (tl ++ '\x7d' :: rest) := by
        rw [show m = (m.1, m.2) from rfl, htl, List.cons_append]
      have hsk : skipWS ('"' :: (tl ++ '\x7d' :: rest)) = '"' :: (tl ++ '\x7d' :: rest) :=
        skipWS_of_head _ (by
          intro d hd
          simp only [List.head?_cons, Option.some.injEq] at hd
          subst hd; decide)
      have hrec := parseMembers_render (m :: r) fuel rest (by simp) (by omega) hrest
      rw [htext, parseMembers]
      rw [hE] at hrec hv hd hskv hcol hparse
      simp only [List.head?_cons, if_true, List.tail_cons, hparse, hcol.1, hskv.1, hv, hd.2,
        hsk, hrec]
end

/-- Reading the text of a JSON value gives the value back. -/
theorem parse_render (j : JSON) : JSON.parse j.render = some j := by
  obtain ⟨c, tl, h, hw, _, _⟩ := render_head j
  have hs : skipWS j.render.toList = j.render.data :=
    skipWS_of_head _ (by
      intro d hd
      rw [show j.render.toList = j.render.data from rfl, h] at hd
      simp only [List.head?_cons, Option.some.injEq] at hd
      subst hd; exact hw)
  have hv := parseValue_render j (j.render.length + 1) [] (by
    show j.render.data.length < j.render.data.length + 1
    omega) (by simp)
  rw [List.append_nil] at hv
  have hn : skipWS ([] : List Char) = [] := rfl
  simp only [JSON.parse, hs, hv, hn, if_true]

/-! ## Rounding a value that is a float64 -/

theorem bitLen_bounds_q (n : Nat) (h0 : 0 < n) :
    (2 : ℚ) ^ ((bitLen n : Int) - 1) ≤ (n : ℚ) ∧ (n : ℚ) < (2 : ℚ) ^ (bitLen n : Int) := by
  obtain ⟨hp, hl, hu⟩ := bitLen_spec n h0
  constructor
  · have : ((bitLen n : Int) - 1) = ((bitLen n - 1 : Nat) : Int) := by omega
    rw [this, zpow_natCast]
    exact_mod_cast hl
  · rw [zpow_natCast]
    exact_mod_cast hu

theorem two_zpow_pos (k : Int) : (0 : ℚ) < (2 : ℚ) ^ k := by positivity

theorem binaryExponent_cond (n d : Nat) :
    binaryExponent n d =
      (if (2 : ℚ) ^ ((bitLen n : Int) - (bitLen d : Int)) * d ≤ n
       then (bitLen n : Int) - (bitLen d : Int)
       else (bitLen n : Int) - (bitLen d : Int) - 1) := by
  unfold binaryExponent
  simp only
  generalize ((bitLen n : Int) - (bitLen d : Int)) = k0
  by_cases hk : 0 ≤ k0
  · rw [if_pos hk]
    have e : (2 : ℚ) ^ k0 = ((2 ^ k0.toNat : Nat) : ℚ) := by
      conv_lhs => rw [← Int.toNat_of_nonneg hk]
      rw [zpow_natCast]
      push_cast
      rfl
    have iff : d * 2 ^ k0.toNat ≤ n ↔ (2 : ℚ) ^ k0 * d ≤ n := by
      rw [e]
      constructor
      · intro h
        have : ((d * 2 ^ k0.toNat : Nat) : ℚ) ≤ (n : ℚ) := by exact_mod_cast h
        rw [Nat.cast_mul] at this
        linarith
      · intro h
        have : ((d * 2 ^ k0.toNat : Nat) : ℚ) ≤ (n : ℚ) := by
          rw [Nat.cast_mul]; linarith
        exact_mod_cast this
    by_cases hc : d * 2 ^ k0.toNat ≤ n
    · rw [if_pos hc, if_pos (iff.1 hc)]
    · rw [if_neg hc, if_neg (fun h => hc (iff.2 h))]
  · rw [if_neg hk]
    have hk' : 0 ≤ -k0 := by omega
    have e : (2 : ℚ) ^ (-k0) = ((2 ^ (-k0).toNat : Nat) : ℚ) := by
      conv_lhs => rw [← Int.toNat_of_nonneg hk']
      rw [zpow_natCast]
      push_cast
      rfl
    have hmul : (2 : ℚ) ^ k0 * (2 : ℚ) ^ (-k0) = 1 := by
      rw [← zpow_add₀ (by norm_num : (2 : ℚ) ≠ 0)]
      simp
    have hpos := two_zpow_pos k0
    have hpos' := two_zpow_pos (-k0)
    have iff : d ≤ n * 2 ^ (-k0).toNat ↔ (2 : ℚ) ^ k0 * d ≤ n := by
      constructor
      · intro h
        have h1 : (d : ℚ) ≤ (n : ℚ) * (2 : ℚ) ^ (-k0) := by
          rw [e]; exact_mod_cast h
        calc (2 : ℚ) ^ k0 * d ≤ (2 : ℚ) ^ k0 * ((n : ℚ) * (2 : ℚ) ^ (-k0)) :=
              mul_le_mul_of_nonneg_left h1 (le_of_lt hpos)
          _ = (n : ℚ) * ((2 : ℚ) ^ k0 * (2 : ℚ) ^ (-k0)) := by ring
          _ = n := by rw [hmul, mul_one]
      · intro h
        have h1 : (d : ℚ) ≤ (n : ℚ) * (2 : ℚ) ^ (-k0) := by
          calc (d : ℚ) = ((2 : ℚ) ^ k0 * (2 : ℚ) ^ (-k0)) * d := by rw [hmul, one_mul]
            _ = ((2 : ℚ) ^ k0 * d) * (2 : ℚ) ^ (-k0) := by ring
            _ ≤ (n : ℚ) * (2 : ℚ) ^ (-k0) := mul_le_mul_of_nonneg_right h (le_of_lt hpos')
        rw [e] at h1
        exact_mod_cast h1
    by_cases hc : d ≤ n * 2 ^ (-k0).toNat
    · rw [if_pos hc, if_pos (iff.1 hc)]
    · rw [if_neg hc, if_neg (fun h => hc (iff.2 h))]

/-- The binary exponent brackets the fraction between two powers of two. -/
theorem binaryExponent_spec (n d : Nat) (hn : 0 < n) (hd : 0 < d) :
    (2 : ℚ) ^ (binaryExponent n d) * d ≤ n ∧
    (n : ℚ) < (2 : ℚ) ^ (binaryExponent n d + 1) * d := by
  obtain ⟨hnl, hnu⟩ := bitLen_bounds_q n hn
  obtain ⟨hdl, hdu⟩ := bitLen_bounds_q d hd
  rw [binaryExponent_cond]
  generalize (bitLen n : Int) = a at hnl hnu ⊢
  generalize (bitLen d : Int) = b at hdl hdu ⊢
  have h2 : (2 : ℚ) ≠ 0 := by norm_num
  have hlo : (2 : ℚ) ^ (a - b - 1) * d < n := by
    calc (2 : ℚ) ^ (a - b - 1) * d < (2 : ℚ) ^ (a - b - 1) * (2 : ℚ) ^ b :=
          mul_lt_mul_of_pos_left hdu (two_zpow_pos _)
      _ = (2 : ℚ) ^ (a - 1) := by
          rw [← zpow_add₀ h2]; congr 1; ring
      _ ≤ n := hnl
  have hhi : (n : ℚ) < (2 : ℚ) ^ (a - b + 1) * d := by
    calc (n : ℚ) < (2 : ℚ) ^ a := hnu
      _ = (2 : ℚ) ^ (a - b + 1) * (2 : ℚ) ^ (b - 1) := by
          rw [← zpow_add₀ h2]; congr 1; ring
      _ ≤ (2 : ℚ) ^ (a - b + 1) * d :=
          mul_le_mul_of_nonneg_left hdl (le_of_lt (two_zpow_pos _))
  by_cases hc : (2 : ℚ) ^ (a - b) * d ≤ n
  · rw [if_pos hc]
    exact ⟨hc, hhi⟩
  · rw [if_neg hc]
    refine ⟨le_of_lt hlo, ?_⟩
    have : a - b - 1 + 1 = a - b := by ring
    rw [this]
    exact lt_of_not_le hc

theorem binaryExponent_unique (n d : Nat) (hn : 0 < n) (hd : 0 < d) (k : Int)
    (hl : (2 : ℚ) ^ k * d ≤ n) (hu : (n : ℚ) < (2 : ℚ) ^ (k + 1) * d) :
    binaryExponent n d = k := by
  obtain ⟨sl, su⟩ := binaryExponent_spec n d hn hd
  have hdq : (0 : ℚ) < d := by exact_mod_cast hd
  have h1 : (2 : ℚ) ^ k < (2 : ℚ) ^ (binaryExponent n d + 1) := by
    have := lt_of_le_of_lt hl su
    exact lt_of_mul_lt_mul_right this (le_of_lt hdq)
  have h2 : (2 : ℚ) ^ (binaryExponent n d) < (2 : ℚ) ^ (k + 1) := by
    have := lt_of_le_of_lt sl hu
    exact lt_of_mul_lt_mul_right this (le_of_lt hdq)
  rw [zpow_lt_zpow_iff_right₀ (by norm_num : (1 : ℚ) < 2)] at h1 h2
  omega

theorem divRoundHalfEven_mul (m b : Nat) (hb : 0 < b) : divRoundHalfEven (m * b) b = m := by
  simp [divRoundHalfEven, Nat.mul_div_cancel _ hb, hb]

theorem two_zpow_toNat (e : Int) (he : 0 ≤ e) : (2 : ℚ) ^ e = ((2 ^ e.toNat : Nat) : ℚ) := by
  conv_lhs => rw [← Int.toNat_of_nonneg he]
  rw [zpow_natCast]
  push_cast
  rfl

theorem two_zpow_neg_toNat (e : Int) (he : e < 0) :
    (2 : ℚ) ^ e * ((2 ^ (-e).toNat : Nat) : ℚ) = 1 := by
  rw [← two_zpow_toNat (-e) (by omega), ← zpow_add₀ (by norm_num : (2 : ℚ) ≠ 0)]
  simp

/-- The value of the fraction in terms of mantissa and exponent. -/
theorem exact_value_q (n d m : Nat) (e : Int)
    (h1 : 0 ≤ e → n = m * (d * 2 ^ e.toNat))
    (h2 : e < 0 → n * 2 ^ (-e).toNat = m * d) :
    (n : ℚ) = (m : ℚ) * (2 : ℚ) ^ e * d := by
  by_cases he : 0 ≤ e
  · rw [h1 he, two_zpow_toNat e he]
    push_cast
    ring
  · have he' : e < 0 := by omega
    have h := h2 he'
    have hq : (n : ℚ) * ((2 ^ (-e).toNat : Nat) : ℚ) = (m : ℚ) * d := by exact_mod_cast h
    have hone := two_zpow_neg_toNat e he'
    calc (n : ℚ) = (n : ℚ) * ((2 : ℚ) ^ e * ((2 ^ (-e).toNat : Nat) : ℚ)) := by
          rw [hone, mul_one]
      _ = ((n : ℚ) * ((2 ^ (-e).toNat : Nat) : ℚ)) * (2 : ℚ) ^ e := by ring
      _ = (m : ℚ) * (2 : ℚ) ^ e * d := by rw [hq]; ring

/-- Rounding a fraction whose value is a float64 gives that float64. -/
theorem roundFloat64_of_exact (n d m : Nat) (e : Int) (hd : 0 < d) (hm : 0 < m)
    (hm53 : m < 2 ^ 53) (he1 : -1074 ≤ e) (he2 : e ≤ 971) (hnorm : 2 ^ 52 ≤ m ∨ e = -1074)
    (h1 : 0 ≤ e → n = m * (d * 2 ^ e.toNat))
    (h2 : e < 0 → n * 2 ^ (-e).toNat = m * d) :
    roundFloat64 n d =
      some (if 0 ≤ e then ((m * 2 ^ e.toNat : Nat) : ℚ)
            else (m : ℚ) / ((2 ^ (-e).toNat : Nat) : ℚ)) := by
  have hq := exact_value_q n d m e h1 h2
  have hdq : (0 : ℚ) < d := by exact_mod_cast hd
  have hmq : (0 : ℚ) < m := by exact_mod_cast hm
  have hnq : (0 : ℚ) < n := by
    rw [hq]
    have := two_zpow_pos e
    positivity
  have hn : 0 < n := by exact_mod_cast hnq
  obtain ⟨hml, hmu⟩ := bitLen_bounds_q m hm
  have h2ne : (2 : ℚ) ≠ 0 := by norm_num
  have hbe : binaryExponent n d = e + (bitLen m : Int) - 1 := by
    apply binaryExponent_unique n d hn hd
    · rw [hq]
      have : (2 : ℚ) ^ (e + (bitLen m : Int) - 1) = (2 : ℚ) ^ ((bitLen m : Int) - 1) * (2 : ℚ) ^ e := by
        rw [← zpow_add₀ h2ne]; congr 1; ring
      rw [this]
      have := two_zpow_pos e
      have := mul_le_mul_of_nonneg_right hml (le_of_lt this)
      exact mul_le_mul_of_nonneg_right this (le_of_lt hdq)
    · rw [hq]
      have : (2 : ℚ) ^ (e + (bitLen m : Int) - 1 + 1) = (2 : ℚ) ^ (bitLen m : Int) * (2 : ℚ) ^ e := by
        rw [← zpow_add₀ h2ne]; congr 1; ring
      rw [this]
      have h3 := two_zpow_pos e
      have := mul_lt_mul_of_pos_right hmu h3
      exact mul_lt_mul_of_pos_right this hdq
  have hL : bitLen m ≤ 53 := bitLen_le_of_lt_pow hm hm53
  have hL2 : 2 ^ 52 ≤ m → bitLen m = 53 := by
    intro h
    obtain ⟨_, _, hu⟩ := bitLen_spec m hm
    have : 2 ^ 52 < 2 ^ bitLen m := lt_of_le_of_lt h hu
    have := (Nat.pow_lt_pow_iff_right (by decide : 1 < 2)).1 this
    omega
  have hE : max (binaryExponent n d - 52) (-1074) = e := by
    rw [hbe]
    rcases hnorm with h | h
    · have := hL2 h
      omega
    · omega
  have hn0 : n ≠ 0 := by omega
  unfold roundFloat64
  simp only [hn0, if_false, hE]
  by_cases he : 0 ≤ e
  · have hn1 := h1 he
    have hb : 0 < d * 2 ^ e.toNat := Nat.mul_pos hd (Nat.pow_pos (by decide))
    have hdiv : divRoundHalfEven n (d * 2 ^ e.toNat) = m := by
      rw [hn1]; exact divRoundHalfEven_mul m _ hb
    have hno : ¬ (2 ^ 1024 ≤ m * 2 ^ e.toNat) := by
      have ht : e.toNat ≤ 971 := by omega
      have h3 : 2 ^ e.toNat ≤ 2 ^ 971 := Nat.pow_le_pow_right (by decide) ht
      have h4 : m * 2 ^ e.toNat < 2 ^ 53 * 2 ^ 971 :=
        Nat.mul_lt_mul_of_lt_of_le hm53 h3 (Nat.pow_pos (by decide))
      have h5 : (2 : Nat) ^ 53 * 2 ^ 971 = 2 ^ 1024 := by rw [← pow_add]
      omega
    simp only [he, if_true, hdiv, true_and, hno, if_false]
  · have he' : e < 0 := by omega
    have hn2 := h2 he'
    have hdiv : divRoundHalfEven (n * 2 ^ (-e).toNat) d = m := by
      rw [hn2]; exact divRoundHalfEven_mul m _ hd
    simp only [he, if_false, hdiv, false_and]

theorem valid_iff (x : Float64) :
    x.valid = true ↔
      x.mant < 2 ^ 53 ∧ -1074 ≤ x.exp ∧ x.exp ≤ 971 ∧ (2 ^ 52 ≤ x.mant ∨ x.exp = -1074) := by
  simp [Float64.valid]

theorem parseFloat64_exactLiteral (x : Float64) (hv : x.valid = true) (hm : x.mant ≠ 0) :
    parseFloat64 x.exactLiteral = some x.toRat := by
  obtain ⟨h53, he1, he2, hnorm⟩ := (valid_iff x).1 hv
  have hm0 : 0 < x.mant := by omega
  unfold Float64.exactLiteral
  by_cases he : 0 ≤ x.exp
  · rw [if_pos he]
    have hr := roundFloat64_of_exact (x.mant * 2 ^ x.exp.toNat) 1 x.mant x.exp (by decide) hm0
      h53 he1 he2 hnorm (fun _ => by ring) (fun h => by omega)
    simp only [parseFloat64, JNumber.exponent, JNumber.mantissa, Option.getD_none,
      List.length_nil, Nat.cast_zero, sub_zero, le_refl, if_true, Int.toNat_zero, pow_zero,
      mul_one, digitsValue, List.foldl_nil, add_zero, hr, Option.map_some', Float64.toRat, he]
  · rw [if_neg he]
    have he' : x.exp < 0 := by omega
    have hr := roundFloat64_of_exact (x.mant * 5 ^ (-x.exp).toNat) (10 ^ (-x.exp).toNat)
      x.mant x.exp (Nat.pow_pos (by decide)) hm0 h53 he1 he2 hnorm (fun h => by omega)
      (fun _ => by
        have : (10 : Nat) ^ (-x.exp).toNat = 5 ^ (-x.exp).toNat * 2 ^ (-x.exp).toNat := by
          rw [← Nat.mul_pow]
        rw [this]
        ring)
    simp only [parseFloat64, JNumber.exponent, JNumber.mantissa, Option.getD_some,
      List.length_nil, Nat.cast_zero, sub_zero, he, if_false, pow_zero,
      mul_one, digitsValue, List.foldl_nil, add_zero, hr, Option.map_some', Float64.toRat]

/-- The literal written for a float64 reads back as that float64. -/
theorem parseFloat64_formatFloat (x : Float64) (hv : x.valid = true) :
    parseFloat64 (formatFloat x) = some x.toRat := by
  unfold formatFloat
  by_cases hm : x.mant = 0
  · rw [if_pos hm]
    have hz : roundFloat64 0 1 = some 0 := by simp [roundFloat64]
    simp only [parseFloat64, JNumber.exponent, JNumber.mantissa, Option.getD_none,
      List.length_nil, Nat.cast_zero, sub_zero, le_refl, if_true, Int.toNat_zero, pow_zero,
      mul_one, digitsValue, List.foldl_nil, add_zero, zero_mul, hz, Option.map_some',
      Float64.toRat, hm]
    cases x.neg <;> by_cases he : 0 ≤ x.exp <;> simp [he]
  · rw [if_neg hm]
    cases hf : x.literals.find? (fun lit => parseFloat64 lit = some x.toRat) with
    | none => exact parseFloat64_exactLiteral x hv hm
    | some lit =>
      have := List.find?_some hf
      simpa using this

/-! ## Decoding what the encoder wrote for a value -/

theorem decodeAnyMembers_fst : ∀ l : List (String × JSON),
    (decodeAnyMembers l).1 = l.map fun kv => (kv.1, (decodeAny kv.2).1) := by
  intro l
  induction l with
  | nil => rw [decodeAnyMembers]; rfl
  | cons kv rest ih =>
    obtain ⟨k, x⟩ := kv
    rw [decodeAnyMembers]
    simp only [List.map_cons, ih]

theorem decodeAnyMembers_snd : ∀ l : List (String × JSON),
    (∀ kv ∈ l, (decodeAny kv.2).2 = none) → (decodeAnyMembers l).2 = none := by
  intro l
  induction l with
  | nil => intro _; rw [decodeAnyMembers]
  | cons kv rest ih =>
    intro h
    obtain ⟨k, x⟩ := kv
    rw [decodeAnyMembers]
    have h1 : (decodeAny x).2 = none := h (k, x) (by simp)
    have h2 := ih (fun kv hkv => h kv (by simp [hkv]))
    simp only [h1, h2, saveError]

theorem mapSet_of_not_mem : ∀ (m : List (String × GoValue)) (k : String) (v : GoValue),
    k ∉ m.map Prod.fst → mapSet m k v = m ++ [(k, v)] := by
  intro m
  induction m with
  | nil => intro k v _; rfl
  | cons kv rest ih =>
    intro k v h
    obtain ⟨k', v'⟩ := kv
    have hne : ¬ k' = k := fun e => h (by simp [e])
    have hrest : k ∉ rest.map Prod.fst := fun e => h (by simp [e])
    simp only [mapSet, hne, if_false, ih k v hrest, List.cons_append]

theorem foldl_mapSet : ∀ (l acc : List (String × GoValue)),
    ((acc ++ l).map Prod.fst).Nodup →
    l.foldl (fun m kv => mapSet m kv.1 kv.2) acc = acc ++ l := by
  intro l
  induction l with
  | nil => intro acc _; simp
  | cons kv rest ih =>
    intro acc h
    have hk : kv.1 ∉ acc.map Prod.fst := by
      intro hmem
      rw [List.map_append, List.nodup_append] at h
      exact h.2.2 hmem (by simp)
    rw [List.foldl_cons, mapSet_of_not_mem acc kv.1 kv.2 hk]
    have : acc ++ [(kv.1, kv.2)] ++ rest = acc ++ kv :: rest := by simp
    rw [ih _ (by rw [this]; exact h), this]

theorem toJSONMembers_eq : ∀ kvs : List (String × InputValue),
    toJSONMembers kvs = kvs.map fun kv => (kv.1, kv.2.toJSON) := by
  intro kvs
  induction kvs with
  | nil => rw [toJSONMembers]; rfl
  | cons kv rest ih =>
    obtain ⟨k, x⟩ := kv
    rw [toJSONMembers, ih]
    rfl

/-- Decoding an object whose members are sorted by distinct keys. -/
theorem decodeAny_sorted_members (L : List (String × JSON))
    (herr : ∀ kv ∈ L, (decodeAny kv.2).2 = none) (hnd : (L.map Prod.fst).Nodup) :
    decodeAny (.obj (sortMembers L))
      = (.map (sortDecoded (L.map fun kv => (kv.1, (decodeAny kv.2).1))), none) := by
  have hsort : (sortMembers L).map (fun kv => (kv.1, (decodeAny kv.2).1))
      = sortDecoded (L.map fun kv => (kv.1, (decodeAny kv.2).1)) := by
    unfold sortMembers sortDecoded
    exact List.map_insertionSort (fun a b : String × JSON => a.1.data ≤ b.1.data)
      (fun a b : String × GoValue => a.1.data ≤ b.1.data) _ _ (fun a _ b _ => Iff.rfl)
  have herr' : (decodeAnyMembers (sortMembers L)).2 = none := by
    apply decodeAnyMembers_snd
    intro kv hkv
    exact herr kv ((List.mem_insertionSort _).1 hkv)
  have hkeys : ((sortDecoded (L.map fun kv => (kv.1, (decodeAny kv.2).1))).map
      Prod.fst).Nodup := by
    have hp : (sortDecoded (L.map fun kv => (kv.1, (decodeAny kv.2).1))).Perm
        (L.map fun kv => (kv.1, (decodeAny kv.2).1)) := List.perm_insertionSort _ _
    have hp2 := hp.map Prod.fst
    rw [hp2.nodup_iff, List.map_map]
    exact hnd
  rw [decodeAny]
  simp only [decodeAnyMembers_fst, hsort, herr']
  rw [foldl_mapSet _ [] (by simpa using hkeys)]
  simp

mutual
/-- What decoding gives for the JSON of an input value: no error, and the value the round
trip promises. -/
theorem decodeAny_toJSON : ∀ v : InputValue, v.encodable = true →
    ∃ g, decodeAny v.toJSON = (g, none) ∧ RoundTripsTo v g
  | .nil, _ => ⟨.nil, by rw [InputValue.toJSON, decodeAny], by rw [RoundTripsTo]⟩
  | .bool b, _ => ⟨.bool b, by rw [InputValue.toJSON, decodeAny], by rw [RoundTripsTo]⟩
  | .str s, _ => ⟨.str s, by rw [InputValue.toJSON, decodeAny], by rw [RoundTripsTo]⟩
  | .nilPointer, _ => ⟨.nil, by rw [InputValue.toJSON, decodeAny], by rw [RoundTripsTo]⟩
  | .int n, hv => by
    rw [InputValue.encodable] at hv
    have hv' := of_decide_eq_true hv
    have hn : n.natAbs ≤ 2 ^ 64 := by omega
    obtain ⟨x, hx⟩ := parseFloat64_ofInt_isSome n hn
    refine ⟨.float64 x, ?_, ?_⟩
    · rw [InputValue.toJSON, decodeAny]
      simp only [hx]
    · rw [RoundTripsTo]
      refine ⟨x, hx, rfl, ?_⟩
      intro h53
      have := parseFloat64_ofInt_exact n h53
      rw [hx] at this
      exact Option.some.inj this
  | .float x, hv => by
    rw [InputValue.encodable] at hv
    refine ⟨.float64 x.toRat, ?_, by rw [RoundTripsTo]⟩
    rw [InputValue.toJSON, decodeAny]
    simp only [parseFloat64_formatFloat x hv]
  | .slice xs, hv => by
    rw [InputValue.encodable] at hv
    obtain ⟨gs, hgs, hr⟩ := decodeAnyElems_toJSON xs hv
    refine ⟨.slice gs, ?_, ?_⟩
    · rw [InputValue.toJSON, decodeAny]
      simp only [hgs]
    · rw [RoundTripsTo]
      exact ⟨gs, rfl, hr⟩
  | .map kvs, hv => by
    rw [InputValue.encodable, Bool.and_eq_true] at hv
    obtain ⟨ms, hr, hms, herr⟩ := decodeAnyMembers_toJSON kvs hv.1
    have hnd : ((toJSONMembers kvs).map Prod.fst).Nodup := by
      rw [toJSONMembers_eq, List.map_map]
      exact of_decide_eq_true hv.2
    refine ⟨.map (sortDecoded ms), ?_, ?_⟩
    · rw [InputValue.toJSON, decodeAny_sorted_members _ herr hnd, hms]
    · rw [RoundTripsTo]
      exact ⟨ms, rfl, hr⟩
theorem decodeAnyElems_toJSON : ∀ xs : List InputValue, encodableElems xs = true →
    ∃ gs, decodeAnyElems (toJSONElems xs) = (gs, none) ∧ RoundTripsElems xs gs
  | [], _ => ⟨[], by rw [toJSONElems, decodeAnyElems], by rw [RoundTripsElems]⟩
  | x :: rest, hv => by
    rw [encodableElems, Bool.and_eq_true] at hv
    obtain ⟨g, hg, hr⟩ := decodeAny_toJSON x hv.1
    obtain ⟨gs, hgs, hrs⟩ := decodeAnyElems_toJSON rest hv.2
    refine ⟨g :: gs, ?_, ?_⟩
    · rw [toJSONElems, decodeAnyElems]
      simp only [hg, hgs, saveError]
    · rw [RoundTripsElems]
      exact ⟨g, gs, rfl, hr, hrs⟩
theorem decodeAnyMembers_toJSON : ∀ kvs : List (String × InputValue),
    encodableMembers kvs = true →
    ∃ ms, RoundTripsMembers kvs ms ∧
      (toJSONMembers kvs).map (fun kv => (kv.1, (decodeAny kv.2).1)) = ms ∧
      ∀ kv ∈ toJSONMembers kvs, (decodeAny kv.2).2 = none
  | [], _ => ⟨[], by rw [RoundTripsMembers], by rw [toJSONMembers]; rfl, by
      rw [toJSONMembers]; simp⟩
  | (k, x) :: rest, hv => by
    rw [encodableMembers, Bool.and_eq_true] at hv
    obtain ⟨g, hg, hr⟩ := decodeAny_toJSON x hv.1
    obtain ⟨ms, hrs, hms, herr⟩ := decodeAnyMembers_toJSON rest hv.2
    refine ⟨(k, g) :: ms, ?_, ?_, ?_⟩
    · rw [RoundTripsMembers]
      exact ⟨g, ms, rfl, hr, hrs⟩
    · rw [toJSONMembers]
      simp only [List.map_cons, hg, hms]
    · rw [toJSONMembers]
      intro kv hkv
      rcases List.mem_cons.1 hkv with h | h
      · rw [h]; simp only [hg]
      · exact herr kv h
end

/-! ## Round trip of fields -/

theorem setMember_name (o : FieldOutput) (s : String) :
    FieldOutput.setMember o "name" (.str s) = ({ o with Name := s }, none) := by
  simp only [FieldOutput.setMember,
    show keyMatches "name" "advanced" = false by decide,
    show keyMatches "name" "order" = false by decide,
    show keyMatches "name" "helpLink" = false by decide,
    show keyMatches "name" "helpText" = false by decide,
    show keyMatches "name" "hidden" = false by decide,
    show keyMatches "name" "label" = false by decide,
    show keyMatches "name" "name" = true by decide,
    Bool.false_eq_true, if_false, if_true, decodeString]

/-- Decoding the object of one `FieldInput` into a fresh `FieldOutput`. -/
theorem decode_toJSON (f : FieldInput) (hf : f.Value.encodable = true) :
    ∃ o, FieldOutput.decode FieldOutput.zero f.toJSON = (o, none) ∧
      o = { FieldOutput.zero with Name := f.Name, Value := o.Value } ∧
      RoundTripsTo f.Value o.Value := by
  obtain ⟨name, v⟩ := f
  obtain ⟨g, hg, hkind⟩ := decodeAny_toJSON v hf
  by_cases hv : v = .nil
  · subst hv
    refine ⟨{ FieldOutput.zero with Name := name }, ?_, rfl, ?_⟩
    · simp [FieldInput.toJSON, isEmptyValue, decode_obj, setMember_name, saveError]
    · rw [RoundTripsTo]; rfl
  · refine ⟨{ FieldOutput.zero with Name := name, Value := g }, ?_, rfl, hkind⟩
    have hk : keyMatches "value" "value" = true := by decide
    simp only [FieldInput.toJSON, isEmptyValue_eq_false hv, Bool.false_eq_true, if_false,
      decode_obj, List.foldl_cons, List.foldl_nil, setMember_name,
      setMember_value _ _ _ hk, saveError, decodeInterface, hg]

theorem decodeElems_map (fs : List FieldInput) (hfs : ∀ f ∈ fs, f.Value.encodable = true) :
    ∃ out : List FieldOutput,
      decodeElems (decodePtr FieldOutput.decode FieldOutput.zero) none []
          (fs.map FieldInput.toJSON) = (out.map some, none) ∧
      List.Forall₂ (fun f o =>
        o = { FieldOutput.zero with Name := f.Name, Value := o.Value } ∧
        RoundTripsTo f.Value o.Value) fs out := by
  induction fs with
  | nil => exact ⟨[], rfl, List.Forall₂.nil⟩
  | cons f rest ih =>
    obtain ⟨out, hout, hall⟩ := ih (fun g hg => hfs g (List.mem_cons_of_mem _ hg))
    obtain ⟨o, ho, hshape, hkind⟩ := decode_toJSON f (hfs f (List.mem_cons_self _ _))
    refine ⟨o :: out, ?_, List.Forall₂.cons ⟨hshape, hkind⟩ hall⟩
    have hobj : ∃ kvs, f.toJSON = .obj kvs := ⟨_, rfl⟩
    obtain ⟨kvs, hkvs⟩ := hobj
    simp only [List.map_cons, decodeElems, List.headD_nil, List.tail_nil, hout]
    rw [hkvs] at ho ⊢
    simp only [decodePtr, Option.getD_none, ho, saveError]

/-- Decoding the text of a list of fields is decoding the array it was written from. -/
theorem unmarshalFieldsText_marshalFields (fs : List FieldInput) :
    unmarshalFieldsText (marshalFields fs)
      = ((unmarshalFields (fieldsToJSON fs)).1,
         (unmarshalFields (fieldsToJSON fs)).2.map .typeError) := by
  simp only [unmarshalFieldsText, unmarshalText, marshalFields, parse_render]

/-- C5 (as a counterexample): the integer `2 ^ 53 + 1` does not come back as a number of
equal magnitude. It is written as `9007199254740993`, and reading that text back gives the
float64 `9007199254740992`. -/
theorem large_integer_round_trip_inexact :
    marshalFields [⟨"seedTime", .int 9007199254740993⟩]
      = "[\x7b\"name\":\"seedTime\",\"value\":9007199254740993\x7d]" ∧
    unmarshalFieldsText (marshalFields [⟨"seedTime", .int 9007199254740993⟩])
      = (some [some { FieldOutput.zero with
                        Name := "seedTime", Value := .float64 9007199254740992 }], none) ∧
    (9007199254740992 : ℚ) ≠ ((9007199254740993 : Int) : ℚ) := by
  refine ⟨by decide!, ?_, by decide!⟩
  rw [unmarshalFieldsText_marshalFields]
  decide!

/-- C5 (amended): writing a list of `FieldInput` entries as JSON text and reading that
text back as a list of `FieldOutput` entries succeeds and gives one entry per input, in
the same order, with the same name and all other fields zero. A nil value comes back nil,
a boolean as the same boolean, a string as the same string, a floating point number as the
same float64, and an integer as a float64, never as a string: the float64 nearest to it,
which has the same magnitude whenever that magnitude is at most `2 ^ 53`. -/
theorem field_round_trip (fs : List FieldInput)
    (hfs : ∀ f ∈ fs, f.Value.encodable = true) :
    ∃ out : List FieldOutput,
      unmarshalFieldsText (marshalFields fs) = (some (out.map some), none) ∧
      List.Forall₂ (fun f o =>
        o = { FieldOutput.zero with Name := f.Name, Value := o.Value } ∧
        RoundTripsTo f.Value o.Value) fs out := by
  obtain ⟨out, hout, hall⟩ := decodeElems_map fs hfs
  refine ⟨out, ?_, hall⟩
  rw [unmarshalFieldsText_marshalFields]
  simp only [unmarshalFields, fieldsToJSON, decodeSlice, Option.getD_none, hout,
    Option.map_none']

/-- Witness for C5: the three fields of the download client request of the tests, and a
field holding the floating point number `1.5`. -/
theorem field_round_trip_witness :
    (∀ f ∈ [(⟨"host", .str "transmission"⟩ : FieldInput), ⟨"port", .int 9091⟩,
        ⟨"useSSL", .bool false⟩, ⟨"ratio", .float ⟨false, 6755399441055744, -52⟩⟩],
        f.Value.encodable = true) ∧
    ∃ out : List FieldOutput,
      unmarshalFieldsText (marshalFields [⟨"host", .str "transmission"⟩, ⟨"port", .int 9091⟩,
        ⟨"useSSL", .bool false⟩, ⟨"ratio", .float ⟨false, 6755399441055744, -52⟩⟩])
          = (some (out.map some), none) ∧
      List.Forall₂ (fun (f : FieldInput) (o : FieldOutput) =>
        o = { FieldOutput.zero with Name := f.Name, Value := o.Value } ∧
        RoundTripsTo f.Value o.Value)
        [⟨"host", .str "transmission"⟩, ⟨"port", .int 9091⟩, ⟨"useSSL", .bool false⟩,
          ⟨"ratio", .float ⟨false, 6755399441055744, -52⟩⟩] out :=
  ⟨by decide,
   field_round_trip [⟨"host", .str "transmission"⟩, ⟨"port", .int 9091⟩,
     ⟨"useSSL", .bool false⟩, ⟨"ratio", .float ⟨false, 6755399441055744, -52⟩⟩] (by decide)⟩

end Starr
